import Mathlib

/-!
# legs: scheduler core (engine.cpp, input.hpp, time.hpp, window.cpp)

Shallow embedding of the frame/tick scheduler of the engine:

* `WindowInput` and its operations (`src/public/legs/window/input.hpp`);
* the `Time` clock state (`src/public/legs/time.hpp`), with every reading of
  `Time::Now()` passed in as an argument and `double` idealised as `Rat`;
* `Window::AggregateInput` (`src/window/window.cpp`) over a list of SDL events;
* `Engine::Tick`, `Engine::Frame`, `Engine::UpdateInput` and one iteration of
  `Engine::TickThread` / `Engine::RenderThread` (`src/engine.cpp`), as functions
  on an `Engine` record that also carries a log of the operations performed;
* the three threads as a step function on `Sched`, one step per semaphore
  operation (or per block of code between two of them).
-/

namespace legs

/-! ## input.hpp -/

/-- The `enum Key : unsigned int` of input.hpp. -/
inductive Key
  | KEY_NONE
  | KEY_MOVE_FORWARD
  | KEY_MOVE_BACK
  | KEY_MOVE_RIGHT
  | KEY_MOVE_LEFT
  | KEY_MOVE_UP
  | KEY_MOVE_DOWN
  | KEY_MOUSE_GRAB
  | KEY_WINDOW_DEBUG
  | KEY_WINDOW_DEMO
  | KEY_MAX
  deriving DecidableEq, Repr

/-- The enumerator value of a key (`static_cast<unsigned int>(k)`). -/
def Key.toNat : Key → Nat
  | .KEY_NONE => 0
  | .KEY_MOVE_FORWARD => 1
  | .KEY_MOVE_BACK => 2
  | .KEY_MOVE_RIGHT => 3
  | .KEY_MOVE_LEFT => 4
  | .KEY_MOVE_UP => 5
  | .KEY_MOVE_DOWN => 6
  | .KEY_MOUSE_GRAB => 7
  | .KEY_WINDOW_DEBUG => 8
  | .KEY_WINDOW_DEMO => 9
  | .KEY_MAX => 10

/-- Source `KeyToFlag`: `1 << static_cast<unsigned int>(k)`; the shift count is at most 10,
so the `int` shift does not overflow and the conversion to `unsigned long long`
keeps the value. -/
def KeyToFlag (k : Key) : Nat := 1 <<< k.toNat

/-- Largest value of `unsigned long long` (64 bits). -/
def ULLONG_MAX : Nat := 2 ^ 64 - 1

/-- Source `glm::ivec2`. The components are C++ `int`; signed overflow has no defined
behaviour in C++, so the components are unbounded integers here and the
embedding describes the executions in which every sum is representable. -/
structure ivec2 where
  x : Int
  y : Int
  deriving DecidableEq, Repr

/-- Source `glm::ivec2::operator+=`, component-wise. -/
def ivec2.add (a b : ivec2) : ivec2 := { x := a.x + b.x, y := a.y + b.y }

/-- Source `struct WindowInput`. `keyFlags` is an `unsigned long long` bit set. -/
structure WindowInput where
  wantsQuit : Bool
  wantsResize : Bool
  keyFlags : Nat
  mouse : ivec2
  scroll : ivec2
  deriving DecidableEq, Repr

namespace WindowInput

/-- Source `WindowInput::Clear(bool clearKeys = false)`; a call `Clear()` without an
argument is `Clear false`. -/
def Clear (w : WindowInput) (clearKeys : Bool) : WindowInput :=
  { wantsQuit := false
    wantsResize := false
    keyFlags := if clearKeys then 0 else w.keyFlags
    mouse := { x := 0, y := 0 }
    scroll := { x := 0, y := 0 } }

/-- The record built by the constructor `WindowInput()`, which runs `Clear(true)`
on uninitialised fields: every field ends up written. -/
def new : WindowInput :=
  { wantsQuit := false
    wantsResize := false
    keyFlags := 0
    mouse := { x := 0, y := 0 }
    scroll := { x := 0, y := 0 } }

/-- Source `WindowInput::Aggregate(const WindowInput& other)`: the receiver after the call. -/
def Aggregate (w other : WindowInput) : WindowInput :=
  { wantsQuit := w.wantsQuit || other.wantsQuit
    wantsResize := w.wantsResize || other.wantsResize
    keyFlags := w.keyFlags ||| other.keyFlags
    mouse := w.mouse.add other.mouse
    scroll := w.scroll.add other.scroll }

/-- Source `WindowInput::HasKey`. -/
def HasKey (w : WindowInput) (key : Key) : Bool :=
  (w.keyFlags &&& KeyToFlag key) == KeyToFlag key

/-- Source `WindowInput::KeyDown`. -/
def KeyDown (w : WindowInput) (key : Key) : WindowInput :=
  { w with keyFlags := w.keyFlags ||| KeyToFlag key }

/-- Source `WindowInput::KeyUp`: `keyFlags &= ~KeyToFlag(key)`, the complement taken in
64 bits. -/
def KeyUp (w : WindowInput) (key : Key) : WindowInput :=
  { w with keyFlags := w.keyFlags &&& (ULLONG_MAX - KeyToFlag key) }

end WindowInput

/-! ## time.hpp -/

/-- The static members of `class Time`. `double` is idealised as `Rat`. -/
structure Time where
  DeltaFrame : Rat
  DeltaTick : Rat
  DeltaRender : Rat
  FrameRate : Nat
  FrameInterval : Rat
  prevFrame : Rat
  prevTick : Rat
  renderStart : Rat
  startTime : Rat
  deriving DecidableEq, Repr

namespace Time

/-- Source `Time::TickRate`. -/
def TickRate : Nat := 60

/-- Source `Time::TickInterval = 1.0 / TickRate`. -/
def TickInterval : Rat := 1 / (TickRate : Rat)

/-- Source `Time::UpdateFrameDelta`, `now` being the value `Now()` returns. -/
def UpdateFrameDelta (t : Time) (now : Rat) : Time :=
  { t with DeltaFrame := now - t.prevFrame, prevFrame := now }

/-- Source `Time::UpdateTickDelta`, `now` being the value `Now()` returns. -/
def UpdateTickDelta (t : Time) (now : Rat) : Time :=
  { t with DeltaTick := now - t.prevTick, prevTick := now }

/-- Source `Time::TimeSinceEngineFrame`. -/
def TimeSinceEngineFrame (t : Time) (now : Rat) : Rat := now - t.prevFrame

/-- Source `Time::TimeSinceEngineTick`. -/
def TimeSinceEngineTick (t : Time) (now : Rat) : Rat := now - t.prevTick

/-- Source `Time::TimeToEngineFrame`. -/
def TimeToEngineFrame (t : Time) (now : Rat) : Rat :=
  t.FrameInterval - t.TimeSinceEngineFrame now

/-- Source `Time::TimeToEngineTick`. -/
def TimeToEngineTick (t : Time) (now : Rat) : Rat :=
  TickInterval - t.TimeSinceEngineTick now

/-- Source `Time::StartRender`. -/
def StartRender (t : Time) (now : Rat) : Time := { t with renderStart := now }

/-- Source `Time::StopRender`. -/
def StopRender (t : Time) (now : Rat) : Time :=
  { t with DeltaRender := now - t.renderStart }

/-- Source `Time::SetStart`. -/
def SetStart (t : Time) (now : Rat) : Time := { t with startTime := now }

/-- Source `Time::SetFrameRate`, for `fps ≠ 0`. For `fps = 0` the `double` division
`1.0 / fps` gives +infinity, a value `Rat` does not have (the field then holds 0
here); that case is treated by `Time.FrameIntervalOf`. -/
def SetFrameRate (t : Time) (fps : Nat) : Time :=
  { t with FrameRate := fps, FrameInterval := 1 / (fps : Rat) }

/-- The static members before any call: the in-class initialisers for the frame
rate, zero for the others (static storage). -/
def initial : Time :=
  { DeltaFrame := 0
    DeltaTick := 0
    DeltaRender := 0
    FrameRate := 60
    FrameInterval := 1 / 60
    prevFrame := 0
    prevTick := 0
    renderStart := 0
    startTime := 0 }

end Time

/-! ## window.cpp -/

/-- The event types `Window::AggregateInput` distinguishes. -/
inductive SDL_EventType
  | SDL_QUIT
  | SDL_WINDOWEVENT
  | SDL_KEYDOWN
  | SDL_KEYUP
  | SDL_MOUSEBUTTONDOWN
  | SDL_MOUSEMOTION
  | SDL_MOUSEWHEEL
  | other
  deriving DecidableEq, Repr

/-- What `Window::AggregateInput` reads of one polled `SDL_Event`, together with
the two ImGui capture flags as they stand after `ImGui_ImplSDL2_ProcessEvent` has
seen the event. `key` is `m_inputSettings->GetKeyFromSDL(event.key.keysym.scancode)`;
`xrel`, `yrel` are `event.motion.xrel`, `event.motion.yrel` (the code reads these
two members for wheel events as well). -/
structure SDL_Event where
  type : SDL_EventType
  sizeChanged : Bool
  key : Key
  button : Nat
  xrel : Int
  yrel : Int
  WantCaptureKeyboard : Bool
  WantCaptureMouse : Bool
  deriving DecidableEq, Repr

/-- Source `Window::AggregateInput(WindowInput& input)` over the events `SDL_PollEvent`
delivers, in order. `grabbed` is SDL's relative mouse mode, which
`SetMouseGrab` writes and `IsMouseGrabbed` reads; the result is the new mode and
the updated record. The loop stops at the first `SDL_QUIT`. -/
def Window.AggregateInput (grabbed : Bool) (input : WindowInput) :
    List SDL_Event → Bool × WindowInput
  | [] => (grabbed, input)
  | event :: rest =>
    if event.type = .SDL_QUIT then
      (grabbed, { input with wantsQuit := true })
    else
      let handleKeyboard := !event.WantCaptureKeyboard
      let handleMouse := !event.WantCaptureMouse
      let grabbed := if !handleMouse then false else grabbed
      let handleKeyboard := if !grabbed then false else handleKeyboard
      let input :=
        if event.type = .SDL_WINDOWEVENT ∧ event.sizeChanged then
          { input with wantsResize := true }
        else input
      let input :=
        if handleKeyboard then
          let input := if event.type = .SDL_KEYDOWN then input.KeyDown event.key else input
          if event.type = .SDL_KEYUP then input.KeyUp event.key else input
        else input
      let grabbed :=
        if handleMouse ∧ event.type = .SDL_MOUSEBUTTONDOWN ∧ event.button = 1 then true
        else grabbed
      let input :=
        if handleMouse ∧ grabbed then
          let input :=
            if event.type = .SDL_MOUSEMOTION then
              { input with mouse := input.mouse.add { x := event.xrel, y := event.yrel } }
            else input
          if event.type = .SDL_MOUSEWHEEL then
            { input with scroll := input.scroll.add { x := event.xrel, y := event.yrel } }
          else input
        else input
      Window.AggregateInput grabbed input rest

/-! ## engine.cpp: the engine record -/

/-- The four `std::binary_semaphore` members of `Engine`. -/
inductive Sem
  | mainTick
  | threadTick
  | mainFrame
  | threadFrame
  deriving DecidableEq, Repr

/-- The `enum class UIWindow` of ui.hpp (without its `MAX` bound). -/
inductive UIWindow
  | DEBUG
  | DEMO
  deriving DecidableEq, Repr

/-- A `glm::vec3`, components idealised as `Rat`. -/
structure vec3 where
  x : Rat
  y : Rat
  z : Rat
  deriving DecidableEq, Repr

/-- The two public members of `Sky` that the render worker reads. -/
structure Sky where
  SunDirection : vec3
  SunColor : vec3
  deriving DecidableEq, Repr

/-- One operation performed by the engine code: a semaphore operation, a call on
the clock, on one of the two input records or on a collaborator (systems, world,
window, camera, renderer, UI). The log of these is what the properties about
"calls made" are stated on. -/
inductive Ev
  | tryAcquire (s : Sem) (ok : Bool)
  | acquire (s : Sem)
  | release (s : Sem)
  | UpdateFrameDelta
  | UpdateTickDelta
  | StartRender
  | StopRender
  | logWarnSlowTick
  | windowAggregateInput
  | tickInputAggregate (frameInput : WindowInput)
  | frameInputClear (clearKeys : Bool)
  | frameInputKeyUp (key : Key)
  | tickInputClear
  | systemOnFrame (i : Nat)
  | systemOnTick (i : Nat)
  | windowGetFramebufferSize
  | cameraUpdateViewport
  | rendererResize
  | worldFrame
  | worldTick
  | worldGetSky
  | worldRender
  | windowIsMouseGrabbed
  | windowSetMouseGrab (grab : Bool)
  | windowIsMinimized
  | uiToggleWindow (w : UIWindow)
  | uiRender
  | rendererBegin
  | rendererGetUBO
  | uboSetCamera
  | rendererUpdateUBO
  | rendererSubmit
  | rendererPresent
  | rendererWaitForIdle
  deriving DecidableEq, Repr

/-- The log entry of an `Engine::Tick` call that acquired `m_mainTickSemaphore`. -/
def Ev.isTickAcquired : Ev → Bool
  | .tryAcquire .mainTick true => true
  | _ => false

/-- The log entry of the tick worker starting a unit of work: its acquire of
`m_threadTickSemaphore`. -/
def Ev.isTickStarted : Ev → Bool
  | .acquire .threadTick => true
  | _ => false

/-- The state `Engine`'s member functions read and write: its two input records
and four semaphore counts, the static clock, what the code tests of its
collaborators (number of registered systems, whether `m_world` / `m_camera` are
set, the world's sky, SDL's mouse grab, the UI's window toggles, the sun
fields of the renderer's uniform staging struct), and the log of operations. The
collaborator calls themselves (`OnFrame`, `OnTick`, `World::Frame`, ...) are taken
not to write any of these fields: the two input records are private and only
handed out by value. -/
structure Engine where
  m_frameInput : WindowInput
  m_tickInput : WindowInput
  m_mainTickSemaphore : Nat
  m_threadTickSemaphore : Nat
  m_mainFrameSemaphore : Nat
  m_threadFrameSemaphore : Nat
  time : Time
  m_systems : Nat
  m_world : Bool
  m_camera : Bool
  sky : Option Sky
  mouseGrabbed : Bool
  showDebug : Bool
  showDemo : Bool
  sunDir : vec3
  sunColor : vec3
  log : List Ev
  deriving DecidableEq, Repr

/-- Semaphore operation `try_acquire` on a count: `none` when the count is 0. -/
def try_acquire (count : Nat) : Option Nat :=
  if count = 0 then none else some (count - 1)

/-- Semaphore operation `release()` on a count. -/
def release (count : Nat) : Nat := count + 1

namespace Engine

/-- Append one operation to the log. -/
def emit (e : Engine) (ev : Ev) : Engine := { e with log := e.log ++ [ev] }

/-- Append several operations to the log, in order. -/
def emitAll (e : Engine) (evs : List Ev) : Engine := { e with log := e.log ++ evs }

/-- The count of one of the four semaphores. -/
def count (e : Engine) : Sem → Nat
  | .mainTick => e.m_mainTickSemaphore
  | .threadTick => e.m_threadTickSemaphore
  | .mainFrame => e.m_mainFrameSemaphore
  | .threadFrame => e.m_threadFrameSemaphore

/-- The engine as `Engine::Engine()` leaves it: all four semaphores at their
initial count 0, mouse grabbed, frame rate set from the refresh rate `fps`,
`SetStart` done at reading `now`, both input records cleared; `systems` systems
are taken to be registered before `Run`. -/
def constructed (fps : Nat) (now : Rat) (systems : Nat) (sky : Option Sky) : Engine :=
  { m_frameInput := WindowInput.new.Clear false
    m_tickInput := WindowInput.new.Clear false
    m_mainTickSemaphore := 0
    m_threadTickSemaphore := 0
    m_mainFrameSemaphore := 0
    m_threadFrameSemaphore := 0
    time := (Time.initial.SetFrameRate fps).SetStart now
    m_systems := systems
    m_world := true
    m_camera := true
    sky := sky
    mouseGrabbed := true
    showDebug := false
    showDemo := false
    sunDir := { x := 0, y := 0, z := 0 }
    sunColor := { x := 0, y := 0, z := 0 }
    log := [] }

/-! ### Engine::Tick -/

/-- How far `Engine::Tick` gets before its work proper. -/
inductive TickEntry
  | quit
  | busy
  | acquired
  deriving DecidableEq, Repr

/-- First part of `Engine::Tick` (lines 171-181): the `wantsQuit` test and the
`try_acquire` of `m_mainTickSemaphore`. -/
def TickEnter (e : Engine) : TickEntry × Engine :=
  if e.m_tickInput.wantsQuit then (.quit, e)
  else
    match try_acquire e.m_mainTickSemaphore with
    | none => (.busy, e.emit (.tryAcquire .mainTick false))
    | some c => (.acquired, { e with m_mainTickSemaphore := c }.emit (.tryAcquire .mainTick true))

/-- Second part of `Engine::Tick` (lines 183-193), run once `m_mainTickSemaphore`
is held: slow-tick warning, `Time::UpdateTickDelta`, release of
`m_threadTickSemaphore`. `tSince` and `tUpdate` are the readings of `Now()` in
`TimeSinceEngineTick` and in `UpdateTickDelta`. -/
def TickArm (e : Engine) (tSince tUpdate : Rat) : Engine :=
  let delta := e.time.TimeSinceEngineTick tSince
  let slowThreshold := Time.TickInterval * 2
  let e := if delta > slowThreshold then e.emit .logWarnSlowTick else e
  let e := { e with time := e.time.UpdateTickDelta tUpdate }.emit .UpdateTickDelta
  { e with m_threadTickSemaphore := release e.m_threadTickSemaphore }.emit (.release .threadTick)

/-- The function `Engine::Tick`: the returned `Bool` is its result ("continue"). -/
def Tick (e : Engine) (tSince tUpdate : Rat) : Bool × Engine :=
  match e.TickEnter with
  | (.quit, e) => (false, e)
  | (.busy, e) => (true, e)
  | (.acquired, e) => (true, e.TickArm tSince tUpdate)

/-! ### Engine::Frame -/

/-- The function `Engine::UpdateInput`. -/
def UpdateInput (e : Engine) (events : List SDL_Event) : Engine :=
  let r := Window.AggregateInput e.mouseGrabbed e.m_frameInput events
  let e := { e with mouseGrabbed := r.1, m_frameInput := r.2 }.emit .windowAggregateInput
  { e with m_tickInput := e.m_tickInput.Aggregate e.m_frameInput }.emit
    (.tickInputAggregate e.m_frameInput)

/-- First part of `Engine::Frame` (lines 114-118): the `try_acquire` of
`m_mainFrameSemaphore`; the `Bool` tells whether it was acquired. -/
def FrameEnter (e : Engine) : Bool × Engine :=
  match try_acquire e.m_mainFrameSemaphore with
  | none => (false, e.emit (.tryAcquire .mainFrame false))
  | some c => (true, { e with m_mainFrameSemaphore := c }.emit (.tryAcquire .mainFrame true))

/-- Lines 120-122 of `Engine::Frame`: `Time::UpdateFrameDelta` and `UpdateInput`. -/
def FrameCollect (e : Engine) (now : Rat) (events : List SDL_Event) : Engine :=
  let e := { e with time := e.time.UpdateFrameDelta now }.emit .UpdateFrameDelta
  e.UpdateInput events

/-- The `UI::ToggleWindow` of ui.hpp. -/
def ToggleWindow (e : Engine) : UIWindow → Engine
  | .DEBUG => { e with showDebug := !e.showDebug }.emit (.uiToggleWindow .DEBUG)
  | .DEMO => { e with showDemo := !e.showDemo }.emit (.uiToggleWindow .DEMO)

/-- Lines 124-166 of `Engine::Frame`: `OnFrame` fan-out, resize, `World::Frame`,
the three key handlers, the final `m_frameInput.Clear()` and the release of
`m_threadFrameSemaphore`. -/
def FrameFinish (e : Engine) : Engine :=
  let e := e.emitAll ((List.range e.m_systems).map Ev.systemOnFrame)
  let e :=
    if e.m_frameInput.wantsResize then
      e.emitAll [.windowGetFramebufferSize, .cameraUpdateViewport, .rendererResize]
    else e
  let e := if e.m_world then e.emit .worldFrame else e
  let e :=
    if e.m_frameInput.HasKey .KEY_MOUSE_GRAB then
      { e with mouseGrabbed := !e.mouseGrabbed
               m_frameInput := e.m_frameInput.Clear true }.emitAll
        [.windowIsMouseGrabbed, .windowSetMouseGrab (!e.mouseGrabbed), .frameInputClear true]
    else e
  let e :=
    if e.m_frameInput.HasKey .KEY_WINDOW_DEBUG then
      ({ e.ToggleWindow .DEBUG with
          m_frameInput := e.m_frameInput.KeyUp .KEY_WINDOW_DEBUG }).emit
        (.frameInputKeyUp .KEY_WINDOW_DEBUG)
    else e
  let e :=
    if e.m_frameInput.HasKey .KEY_WINDOW_DEMO then
      ({ e with mouseGrabbed := false
                m_frameInput := e.m_frameInput.Clear false }.emitAll
        [.windowSetMouseGrab false, .frameInputClear false]).ToggleWindow .DEMO
    else e
  let e := { e with m_frameInput := e.m_frameInput.Clear false }.emit (.frameInputClear false)
  { e with m_threadFrameSemaphore := release e.m_threadFrameSemaphore }.emit
    (.release .threadFrame)

/-- The function `Engine::Frame`. `now` is the reading of `Now()` in
`UpdateFrameDelta`, `events` what the window's event queue delivers. -/
def Frame (e : Engine) (now : Rat) (events : List SDL_Event) : Engine :=
  match e.FrameEnter with
  | (false, e) => e
  | (true, e) => (e.FrameCollect now events).FrameFinish

/-! ### Engine::TickThread -/

/-- The blocking `m_threadTickSemaphore.acquire()` of `Engine::TickThread`
(line 211): `none` while the count is 0 (the worker stays blocked). -/
def TickThreadAcquire (e : Engine) : Option Engine :=
  match try_acquire e.m_threadTickSemaphore with
  | none => none
  | some c => some ({ e with m_threadTickSemaphore := c }.emit (.acquire .threadTick))

/-- Lines 213-221 of `Engine::TickThread`: `OnTick` fan-out over the systems, then
`World::Tick`. -/
def TickThreadWork (e : Engine) : Engine :=
  let e := e.emitAll ((List.range e.m_systems).map Ev.systemOnTick)
  if e.m_world then e.emit .worldTick else e

/-- Line 223 of `Engine::TickThread`: `m_tickInput.Clear()`. -/
def TickThreadClear (e : Engine) : Engine :=
  { e with m_tickInput := e.m_tickInput.Clear false }.emit .tickInputClear

/-- Line 226 of `Engine::TickThread`: `m_mainTickSemaphore.release()`. -/
def TickThreadRelease (e : Engine) : Engine :=
  { e with m_mainTickSemaphore := release e.m_mainTickSemaphore }.emit (.release .mainTick)

/-- The unit of work of the tick worker up to, and without, the release of
`m_mainTickSemaphore`: acquire, fan-out, `World::Tick`, clear. -/
def TickThreadUnit (e : Engine) : Option Engine :=
  (e.TickThreadAcquire).map fun e => e.TickThreadWork.TickThreadClear

/-- One iteration of the loop of `Engine::TickThread` (stop not requested). -/
def TickThreadIteration (e : Engine) : Option Engine :=
  (e.TickThreadUnit).map TickThreadRelease

/-! ### Engine::RenderThread -/

/-- The blocking `m_threadFrameSemaphore.acquire()` of `Engine::RenderThread`
(line 237): `none` while the count is 0. -/
def RenderThreadAcquire (e : Engine) : Option Engine :=
  match try_acquire e.m_threadFrameSemaphore with
  | none => none
  | some c => some ({ e with m_threadFrameSemaphore := c }.emit (.acquire .threadFrame))

/-- Lines 239-282 of `Engine::RenderThread`, without the release that ends either
branch: `minimized` is what `Window::IsMinimized()` returns, `tStart` and `tStop`
the readings of `Now()` in `StartRender` and `StopRender`. -/
def RenderThreadBody (e : Engine) (minimized : Bool) (tStart tStop : Rat) : Engine :=
  let e := { e with time := e.time.StartRender tStart }.emit .StartRender
  let e := e.emit .windowIsMinimized
  if minimized then
    { e with time := e.time.StopRender tStop }.emit .StopRender
  else
    let e := e.emitAll [.rendererBegin, .rendererGetUBO]
    let e := { e with sunColor := { x := 0, y := 0, z := 0 }
                      sunDir := { x := 0, y := 0, z := 0 } }
    let e :=
      if e.m_world then
        { e with
          sunDir := match e.sky with
            | some sky => sky.SunDirection
            | none => e.sunDir
          sunColor := match e.sky with
            | some sky => sky.SunColor
            | none => e.sunColor }.emit .worldGetSky
      else e
    let e := if e.m_camera then e.emit .uboSetCamera else e
    let e := e.emit .rendererUpdateUBO
    let e := if e.m_world then e.emit .worldRender else e
    let e := e.emitAll [.uiRender, .rendererSubmit, .rendererPresent]
    { e with time := e.time.StopRender tStop }.emit .StopRender

/-- The `m_mainFrameSemaphore.release()` that ends a render-worker cycle (line 244
in the minimized branch, line 285 otherwise). -/
def RenderThreadRelease (e : Engine) : Engine :=
  { e with m_mainFrameSemaphore := release e.m_mainFrameSemaphore }.emit (.release .mainFrame)

/-- One iteration of the loop of `Engine::RenderThread` (stop not requested). -/
def RenderThreadIteration (e : Engine) (minimized : Bool) (tStart tStop : Rat) :
    Option Engine :=
  (e.RenderThreadAcquire).map fun e => (e.RenderThreadBody minimized tStart tStop).RenderThreadRelease

end Engine

/-! ## The three threads as a step function

Each thread is cut at its semaphore operations: a step is one semaphore
operation, or the block of code between two of them. `Engine::Tick` is cut
between its `try_acquire` and its `release`, `Engine::Frame` after its
`try_acquire` and after `UpdateInput`, the tick worker after its fan-out and
after its clear. -/

/-- Where the main thread stands: in `Engine::Run` (lines 68-109), inside
`Engine::Tick` / `Engine::Frame`, or in `Engine::~Engine` (lines 50-66). -/
inductive MainPc
  | constructed
  | runReleasedFrame
  | runReleasedTick
  | runTickDelta
  | loopTick
  | tickHeld
  | loopFrame
  | frameHeld
  | frameCollected
  | loopSleep
  | returned
  | dtorTickStop
  | dtorTickReleased
  | dtorTickJoined
  | dtorRenderStop
  | dtorRenderReleased
  | dtorRenderJoined
  | destroyed
  deriving DecidableEq, Repr

/-- Where the tick worker stands in `Engine::TickThread`: at the loop test,
blocked in `acquire`, after `acquire`, after the fan-out and `World::Tick`,
after the clear, or out of the loop. -/
inductive TickPc
  | top
  | waiting
  | acquired
  | worked
  | cleared
  | exited
  deriving DecidableEq, Repr

/-- Where the render worker stands in `Engine::RenderThread`. -/
inductive RenderPc
  | top
  | waiting
  | acquired
  | rendered
  | exited
  deriving DecidableEq, Repr

/-- The engine together with the position of its three threads and the two stop
tokens. -/
structure Sched where
  eng : Engine
  main : MainPc
  tick : TickPc
  render : RenderPc
  tickStop : Bool
  renderStop : Bool
  deriving DecidableEq, Repr

/-- One atomic step of one of the three threads. The arguments are what the
environment supplies to the step: readings of `Time::Now()`, the polled events,
the answer of `Window::IsMinimized()`. -/
inductive Action
  | runReleaseFrame
  | runReleaseTick
  | runTickDelta (now : Rat)
  | runFrameDelta (now : Rat)
  | tickProbe (now : Rat)
  | tickArm (tSince tUpdate : Rat)
  | frameProbe (now : Rat)
  | frameCollect (now : Rat) (events : List SDL_Event)
  | frameFinish
  | sleep
  | dtorRequestStopTick
  | dtorReleaseTick
  | dtorJoinTick
  | dtorRequestStopRender
  | dtorReleaseFrame
  | dtorJoinRender
  | dtorWaitForIdle
  | tickLoop
  | tickAcquire
  | tickWork
  | tickClear
  | tickRelease
  | renderLoop
  | renderAcquire
  | renderBody (minimized : Bool) (tStart tStop : Rat)
  | renderRelease
  deriving DecidableEq, Repr

namespace Sched

/-- The state right after `Engine::Engine()`: both workers spawned and at the top
of their loops, the main thread about to call `Run`. -/
def start (e : Engine) : Sched :=
  { eng := e, main := .constructed, tick := .top, render := .top,
    tickStop := false, renderStop := false }

/-- The step function: `none` when the action is not the next step of its thread,
or when the thread is blocked (an `acquire` on a count of 0, a `join` on a thread
that has not left its loop). -/
def step (s : Sched) : Action → Option Sched
  -- Engine::Run, lines 70-74
  | .runReleaseFrame =>
    if s.main = .constructed then
      some { s with
        main := .runReleasedFrame
        eng := { s.eng with m_mainFrameSemaphore := release s.eng.m_mainFrameSemaphore }.emit
          (.release .mainFrame) }
    else none
  | .runReleaseTick =>
    if s.main = .runReleasedFrame then
      some { s with
        main := .runReleasedTick
        eng := { s.eng with m_mainTickSemaphore := release s.eng.m_mainTickSemaphore }.emit
          (.release .mainTick) }
    else none
  | .runTickDelta now =>
    if s.main = .runReleasedTick then
      some { s with
        main := .runTickDelta
        eng := { s.eng with time := s.eng.time.UpdateTickDelta now }.emit .UpdateTickDelta }
    else none
  | .runFrameDelta now =>
    if s.main = .runTickDelta then
      some { s with
        main := .loopTick
        eng := { s.eng with time := s.eng.time.UpdateFrameDelta now }.emit .UpdateFrameDelta }
    else none
  -- Engine::Run, lines 79-88, entering Engine::Tick
  | .tickProbe now =>
    if s.main = .loopTick then
      if s.eng.time.TimeToEngineTick now ≤ 0 then
        match s.eng.TickEnter with
        | (.quit, e) => some { s with main := .returned, eng := e }
        | (.busy, e) => some { s with main := .loopFrame, eng := e }
        | (.acquired, e) => some { s with main := .tickHeld, eng := e }
      else some { s with main := .loopFrame }
    else none
  | .tickArm tSince tUpdate =>
    if s.main = .tickHeld then
      some { s with main := .loopFrame, eng := s.eng.TickArm tSince tUpdate }
    else none
  -- Engine::Run, lines 90-95, entering Engine::Frame
  | .frameProbe now =>
    if s.main = .loopFrame then
      if s.eng.time.TimeToEngineFrame now ≤ 0 then
        match s.eng.FrameEnter with
        | (false, e) => some { s with main := .loopSleep, eng := e }
        | (true, e) => some { s with main := .frameHeld, eng := e }
      else some { s with main := .loopSleep }
    else none
  | .frameCollect now events =>
    if s.main = .frameHeld then
      some { s with main := .frameCollected, eng := s.eng.FrameCollect now events }
    else none
  | .frameFinish =>
    if s.main = .frameCollected then
      some { s with main := .loopSleep, eng := s.eng.FrameFinish }
    else none
  -- Engine::Run, lines 97-105: yield or sleep, then the next iteration
  | .sleep =>
    if s.main = .loopSleep then some { s with main := .loopTick } else none
  -- Engine::~Engine
  | .dtorRequestStopTick =>
    if s.main = .returned then some { s with main := .dtorTickStop, tickStop := true }
    else none
  | .dtorReleaseTick =>
    if s.main = .dtorTickStop then
      some { s with
        main := .dtorTickReleased
        eng := { s.eng with m_threadTickSemaphore := release s.eng.m_threadTickSemaphore }.emit
          (.release .threadTick) }
    else none
  | .dtorJoinTick =>
    if s.main = .dtorTickReleased ∧ s.tick = .exited then
      some { s with main := .dtorTickJoined }
    else none
  | .dtorRequestStopRender =>
    if s.main = .dtorTickJoined then
      some { s with main := .dtorRenderStop, renderStop := true }
    else none
  | .dtorReleaseFrame =>
    if s.main = .dtorRenderStop then
      some { s with
        main := .dtorRenderReleased
        eng := { s.eng with m_threadFrameSemaphore := release s.eng.m_threadFrameSemaphore }.emit
          (.release .threadFrame) }
    else none
  | .dtorJoinRender =>
    if s.main = .dtorRenderReleased ∧ s.render = .exited then
      some { s with main := .dtorRenderJoined }
    else none
  | .dtorWaitForIdle =>
    if s.main = .dtorRenderJoined then
      some { s with main := .destroyed, eng := s.eng.emit .rendererWaitForIdle }
    else none
  -- Engine::TickThread
  | .tickLoop =>
    if s.tick = .top then
      some { s with tick := if s.tickStop then .exited else .waiting }
    else none
  | .tickAcquire =>
    if s.tick = .waiting then
      (s.eng.TickThreadAcquire).map fun e => { s with tick := .acquired, eng := e }
    else none
  | .tickWork =>
    if s.tick = .acquired then some { s with tick := .worked, eng := s.eng.TickThreadWork }
    else none
  | .tickClear =>
    if s.tick = .worked then some { s with tick := .cleared, eng := s.eng.TickThreadClear }
    else none
  | .tickRelease =>
    if s.tick = .cleared then some { s with tick := .top, eng := s.eng.TickThreadRelease }
    else none
  -- Engine::RenderThread
  | .renderLoop =>
    if s.render = .top then
      some { s with render := if s.renderStop then .exited else .waiting }
    else none
  | .renderAcquire =>
    if s.render = .waiting then
      (s.eng.RenderThreadAcquire).map fun e => { s with render := .acquired, eng := e }
    else none
  | .renderBody minimized tStart tStop =>
    if s.render = .acquired then
      some { s with render := .rendered, eng := s.eng.RenderThreadBody minimized tStart tStop }
    else none
  | .renderRelease =>
    if s.render = .rendered then
      some { s with render := .top, eng := s.eng.RenderThreadRelease }
    else none

/-- Run a list of steps in order; `none` as soon as one of them is not enabled. -/
def run (s : Sched) : List Action → Option Sched
  | [] => some s
  | a :: rest => (s.step a).bind fun s' => s'.run rest

/-- The states some interleaving of the three threads reaches from a freshly
constructed engine. -/
def Reachable (s : Sched) : Prop :=
  ∃ (fps : Nat) (now : Rat) (systems : Nat) (sky : Option Sky) (acts : List Action),
    (start (Engine.constructed fps now systems sky)).run acts = some s

/-- The main thread is in `Run` past its two initial releases, or has returned
from `Run`, and the destructor has not started. -/
def inRun (s : Sched) : Bool :=
  match s.main with
  | .runReleasedTick | .runTickDelta | .loopTick | .tickHeld | .loopFrame
  | .frameHeld | .frameCollected | .loopSleep | .returned => true
  | _ => false

/-- The destructor has started. -/
def inTeardown (s : Sched) : Bool :=
  match s.main with
  | .dtorTickStop | .dtorTickReleased | .dtorTickJoined | .dtorRenderStop
  | .dtorRenderReleased | .dtorRenderJoined | .destroyed => true
  | _ => false

/-- Counts 1 if the tick worker is between its acquire of `m_threadTickSemaphore` and its
release of `m_mainTickSemaphore`, else 0. -/
def tickInFlight (s : Sched) : Nat :=
  match s.tick with
  | .acquired | .worked | .cleared => 1
  | _ => 0

/-- Counts 1 if the render worker is between its acquire of `m_threadFrameSemaphore` and
its release of `m_mainFrameSemaphore`, else 0. -/
def renderInFlight (s : Sched) : Nat :=
  match s.render with
  | .acquired | .rendered => 1
  | _ => 0

/-- Counts 1 if the main thread is inside `Engine::Tick` between its successful
`try_acquire` of `m_mainTickSemaphore` and its release of `m_threadTickSemaphore`, else 0. -/
def mainHoldsTick (s : Sched) : Nat := if s.main = .tickHeld then 1 else 0

/-- Counts 1 if the main thread is inside `Engine::Frame` between its successful
`try_acquire` of `m_mainFrameSemaphore` and its release of `m_threadFrameSemaphore`,
else 0. -/
def mainHoldsFrame (s : Sched) : Nat :=
  if s.main = .frameHeld ∨ s.main = .frameCollected then 1 else 0

/-- Number of `Engine::Tick` calls so far that acquired `m_mainTickSemaphore`. -/
def ticksAcquired (s : Sched) : Nat := s.eng.log.countP Ev.isTickAcquired

/-- Number of work units the tick worker has started so far (acquires of
`m_threadTickSemaphore`). -/
def ticksStarted (s : Sched) : Nat := s.eng.log.countP Ev.isTickStarted

end Sched

/-! ## Concrete inputs used in the examples -/

/-- A mouse-motion event by `(xrel, yrel)` that ImGui does not capture. -/
def SDL_Event.mouseMotion (xrel yrel : Int) : SDL_Event :=
  { type := .SDL_MOUSEMOTION, sizeChanged := false, key := .KEY_NONE, button := 0,
    xrel := xrel, yrel := yrel, WantCaptureKeyboard := false, WantCaptureMouse := false }

/-- A key-down event, not captured by ImGui, whose scancode maps to `key`. -/
def SDL_Event.keyDown (key : Key) : SDL_Event :=
  { type := .SDL_KEYDOWN, sizeChanged := false, key := key, button := 0,
    xrel := 0, yrel := 0, WantCaptureKeyboard := false, WantCaptureMouse := false }

/-- Lines 70-74 of `Engine::Run`: the two initial releases and the two initial
delta samples, at readings `tTick` and `tFrame`. -/
def Engine.RunPreamble (e : Engine) (tTick tFrame : Rat) : Engine :=
  let e := { e with m_mainFrameSemaphore := release e.m_mainFrameSemaphore }.emit
    (.release .mainFrame)
  let e := { e with m_mainTickSemaphore := release e.m_mainTickSemaphore }.emit
    (.release .mainTick)
  let e := { e with time := e.time.UpdateTickDelta tTick }.emit .UpdateTickDelta
  { e with time := e.time.UpdateFrameDelta tFrame }.emit .UpdateFrameDelta

/-- An engine with one system and no sky, constructed at time 0 on a 60 Hz
display, as the preamble of `Run` leaves it. -/
def Engine.sample : Engine := (Engine.constructed 60 0 1 none).RunPreamble 0 0

/-- The engine `sample` after a first frame cycle that sampled the mouse delta
`(3,0)` and after the render worker drew that frame. -/
def Engine.sampleFramed : Engine :=
  (({ Engine.sample.Frame 1 [SDL_Event.mouseMotion 3 0] with m_threadFrameSemaphore := 0 }.emit
    (.acquire .threadFrame)).RenderThreadBody false 1 1).RenderThreadRelease

/-- The engine `sample` once a frame cycle has merged a held `W` key into
`tickInput` and `Engine::Tick` has armed a tick. -/
def Engine.sampleArmed : Engine :=
  ((Engine.sample.Frame 1 [SDL_Event.keyDown .KEY_MOVE_FORWARD]).Tick 1 1).2

/-- What the handshake invariants read of the engine: the four counts and the
two counters taken from the log. -/
def Engine.obs (e : Engine) : Nat × Nat × Nat × Nat × Nat × Nat :=
  (e.m_mainTickSemaphore, e.m_threadTickSemaphore, e.m_mainFrameSemaphore,
    e.m_threadFrameSemaphore, e.log.countP Ev.isTickAcquired,
    e.log.countP Ev.isTickStarted)

namespace Sched

/-- Tokens of the tick handshake: the two counts, plus one if the worker holds
the token, plus one if the main thread holds it inside `Engine::Tick`. -/
def sumTick (s : Sched) : Nat :=
  s.eng.m_mainTickSemaphore + s.eng.m_threadTickSemaphore + s.tickInFlight + s.mainHoldsTick

/-- Tokens of the frame handshake. -/
def sumFrame (s : Sched) : Nat :=
  s.eng.m_mainFrameSemaphore + s.eng.m_threadFrameSemaphore + s.renderInFlight + s.mainHoldsFrame

/-- The handshake invariant: no token before `Run`, one frame token after its
first release, one token of each kind from its second release until the
destructor starts; and, until the destructor starts, every tick acquired by
`Engine::Tick` is either started by the worker, pending in
`m_threadTickSemaphore`, or still being armed. -/
def Inv (s : Sched) : Prop :=
  (s.main = .constructed → s.sumTick = 0 ∧ s.sumFrame = 0) ∧
  (s.main = .runReleasedFrame → s.sumTick = 0 ∧ s.sumFrame = 1) ∧
  (s.inRun = true → s.sumTick = 1 ∧ s.sumFrame = 1) ∧
  (s.inTeardown = false →
    s.ticksAcquired = s.ticksStarted + s.eng.m_threadTickSemaphore + s.mainHoldsTick)

end Sched

/-- A sample schedule: the preamble of `Run`, the tick worker reaching its
`acquire`, and the first probe of the loop at time 1, which enters `Engine::Tick`
and acquires `mainTick`. -/
def Sched.enterTick : List Action :=
  [.runReleaseFrame, .runReleaseTick, .runTickDelta 0, .runFrameDelta 0, .tickLoop, .tickProbe 1]

/-- The state the schedule `enterTick` leads to: the main thread inside
`Engine::Tick`, past its `try_acquire`, the worker blocked in its `acquire`. -/
def Sched.insideTick : Sched :=
  { eng := ({ Engine.sample with m_mainTickSemaphore := 0 }).emit (.tryAcquire .mainTick true)
    main := .tickHeld, tick := .waiting, render := .top
    tickStop := false, renderStop := false }

/-- The samples merged into `tickInput` by the `UpdateInput` calls of a log, in
order. -/
def mergesOf : List Ev → List WindowInput
  | [] => []
  | .tickInputAggregate x :: rest => x :: mergesOf rest
  | _ :: rest => mergesOf rest

/-- Scan of a log for a lost input: `true` if some sample carrying anything that
`Clear()` erases was merged into `tickInput` and the worker's clear came next,
with neither a tick fan-out (`systemOnTick`, `worldTick`) nor a `wantsQuit` test
of `Engine::Tick` (logged with its `try_acquire`) in between. `pending` tells
whether such a sample is waiting to be observed. -/
def lostMerge (pending : Bool) : List Ev → Bool
  | [] => false
  | .tickInputAggregate x :: rest => lostMerge (pending || decide (x.Clear false ≠ x)) rest
  | .systemOnTick _ :: rest => lostMerge false rest
  | .worldTick :: rest => lostMerge false rest
  | .tryAcquire .mainTick _ :: rest => lostMerge false rest
  | .tickInputClear :: rest => pending || lostMerge false rest
  | _ :: rest => lostMerge pending rest

/-- An SDL quit event. -/
def SDL_Event.quit : SDL_Event :=
  { type := .SDL_QUIT, sizeChanged := false, key := .KEY_NONE, button := 0,
    xrel := 0, yrel := 0, WantCaptureKeyboard := false, WantCaptureMouse := false }

/-- A sample schedule: `Run` arms the first tick, the worker does its fan-out
and `World::Tick`; the main thread then runs the input collection of a frame
cycle, which merges a mouse motion and a quit request into `tickInput`; then
the worker reaches its clear. -/
def Sched.raceTrace : List Action :=
  [.runReleaseFrame, .runReleaseTick, .runTickDelta 0, .runFrameDelta 0, .tickLoop,
   .tickProbe (1 / 60), .tickArm (1 / 60) (1 / 60), .tickAcquire, .tickWork,
   .frameProbe (1 / 60), .frameCollect (1 / 60) [SDL_Event.mouseMotion 3 0, SDL_Event.quit],
   .tickClear]

/-- The log the schedule `raceTrace` produces. -/
def Sched.raceLog : List Ev :=
  [.release .mainFrame, .release .mainTick, .UpdateTickDelta, .UpdateFrameDelta,
   .tryAcquire .mainTick true, .UpdateTickDelta, .release .threadTick,
   .acquire .threadTick, .systemOnTick 0, .worldTick,
   .tryAcquire .mainFrame true, .UpdateFrameDelta, .windowAggregateInput,
   .tickInputAggregate
     { wantsQuit := true, wantsResize := false, keyFlags := 0,
       mouse := { x := 3, y := 0 }, scroll := { x := 0, y := 0 } },
   .tickInputClear]

/-- Log entries that neither merge into `tickInput` nor clear it. -/
def Ev.isQuiet : Ev → Bool
  | .tickInputAggregate _ => false
  | .tickInputClear => false
  | _ => true

/-- From `e` to `e1` the log has only grown, without a clear of `tickInput`, and
`tickInput` is its old value with every merged sample aggregated into it. -/
def Engine.Delivers (e e1 : Engine) : Prop :=
  ∃ evs, e1.log = e.log ++ evs ∧ Ev.tickInputClear ∉ evs ∧
    e1.m_tickInput = (mergesOf evs).foldl WindowInput.Aggregate e.m_tickInput

/-- The schedule `raceTrace` continued: the worker releases `mainTick`, the frame
cycle completes, the loop sleeps and probes the tick again at time 2/60. -/
def Sched.raceTraceOn : List Action :=
  Sched.raceTrace ++ [.tickRelease, .frameFinish, .sleep, .tickProbe (2 / 60)]

/-- A state in which `Engine::Frame` has just acquired `mainFrame` on the sample
engine, both workers at the top of their loops. -/
def Sched.frameHeldSample : Sched :=
  { eng := ({ Engine.sample with m_mainFrameSemaphore := 0 }).emit (.tryAcquire .mainFrame true)
    main := .frameHeld, tick := .top, render := .top
    tickStop := false, renderStop := false }

/-! ## Clock sequences, the loop of Run, shutdown, one-shot keys -/

/-- The values `DeltaFrame` takes when `Time::UpdateFrameDelta` is called once per
reading of `Now()`, in order. -/
def Time.frameDeltas (t : Time) : List Rat → List Rat
  | [] => []
  | now :: rest => (t.UpdateFrameDelta now).DeltaFrame :: (t.UpdateFrameDelta now).frameDeltas rest

/-- The values `DeltaTick` takes when `Time::UpdateTickDelta` is called once per
reading of `Now()`, in order. -/
def Time.tickDeltas (t : Time) : List Rat → List Rat
  | [] => []
  | now :: rest => (t.UpdateTickDelta now).DeltaTick :: (t.UpdateTickDelta now).tickDeltas rest


/-! ### Engine::Run: one loop iteration -/

/-- What the main thread does at the end of a loop iteration of `Engine::Run`:
`std::this_thread::yield()`, or `sleep_for` a duration given in seconds. -/
inductive Pace
  | yield
  | sleep_for (seconds : Rat)
  deriving DecidableEq, Repr

/-- The constant `sleepThreshold = 0.0001` of `Engine::Run`. -/
def Engine.sleepThreshold : Rat := 1 / 10000

/-- Lines 97-105 of `Engine::Run`: yield or sleep, from the two local variables
`toTick` and `toFrame`. -/
def Engine.pace (toTick toFrame : Rat) : Pace :=
  let lowest := min toTick toFrame
  if lowest < Engine.sleepThreshold then .yield
  else .sleep_for (lowest - Engine.sleepThreshold)

/-- Lines 79-88 of `Engine::Run`: the tick phase of one iteration. The result is
`none` when `Tick` returns `false` (the loop is left), else the engine and the
local `toTick`. `tProbe` is the reading of `Now()` in `TimeToEngineTick`. -/
def Engine.RunTickPhase (e : Engine) (tProbe tSince tUpdate : Rat) : Option (Engine × Rat) :=
  let toTick := e.time.TimeToEngineTick tProbe
  if toTick ≤ 0 then
    match e.Tick tSince tUpdate with
    | (false, _) => none
    | (true, e) => some (e, Time.TickInterval)
  else some (e, toTick)

/-- Lines 90-95 of `Engine::Run`: the frame phase of one iteration, giving the
engine and the local `toFrame`. -/
def Engine.RunFramePhase (e : Engine) (tProbe tNow : Rat) (events : List SDL_Event) :
    Engine × Rat :=
  let toFrame := e.time.TimeToEngineFrame tProbe
  if toFrame ≤ 0 then
    let e := e.Frame tNow events
    (e, e.time.FrameInterval)
  else (e, toFrame)

/-- One iteration of the loop of `Engine::Run` (lines 79-105): `none` when the
loop is left, else the engine after the iteration and the pacing chosen. -/
def Engine.RunIteration (e : Engine) (tProbeTick tSince tUpdate tProbeFrame tNow : Rat)
    (events : List SDL_Event) : Option (Engine × Pace) :=
  (e.RunTickPhase tProbeTick tSince tUpdate).map fun r =>
    let f := r.1.RunFramePhase tProbeFrame tNow events
    (f.1, Engine.pace r.2 f.2)


/-! ### Before the loop of Run -/

/-- The log entries of the preamble of `Engine::Run` (lines 70-74): its two
releases and its two delta samples. -/
def Ev.isPreamble : Ev → Bool
  | .release .mainFrame => true
  | .release .mainTick => true
  | .UpdateTickDelta => true
  | .UpdateFrameDelta => true
  | _ => false

/-- The main thread has not yet finished the preamble of `Run`: it has not yet
done both releases and both delta samples. -/
def Sched.beforeLoop (s : Sched) : Bool :=
  match s.main with
  | .constructed | .runReleasedFrame | .runReleasedTick | .runTickDelta => true
  | _ => false

/-- Until the preamble of `Run` is over, both thread-side counts are 0, each worker
is at its loop test or blocked in its `acquire`, no stop is requested and the
log holds nothing but entries of the preamble. -/
def Sched.IdleInv (s : Sched) : Prop :=
  s.beforeLoop = true →
    s.eng.m_threadTickSemaphore = 0 ∧ s.eng.m_threadFrameSemaphore = 0 ∧
    (s.tick = .top ∨ s.tick = .waiting) ∧ (s.render = .top ∨ s.render = .waiting) ∧
    s.tickStop = false ∧ s.renderStop = false ∧ s.eng.log.all Ev.isPreamble = true


/-- A state before the loop of `Run`: `mainFrame` released, both workers blocked in
their `acquire`. -/
def Sched.preRunSample : Sched :=
  { eng := ({ Engine.constructed 60 0 1 none with m_mainFrameSemaphore := 1 }).emit
      (.release .mainFrame)
    main := .runReleasedFrame, tick := .waiting, render := .waiting
    tickStop := false, renderStop := false }

/-! ### Shutdown -/

/-- The steps of the tick worker (`Engine::TickThread`). -/
def Action.isTickWorker : Action → Bool
  | .tickLoop | .tickAcquire | .tickWork | .tickClear | .tickRelease => true
  | _ => false

/-- A sample schedule ending in shutdown: after the preamble of `Run` both workers
block in their `acquire`; no tick is due at time 0; the first frame cycle, at
time 1/60, collects a quit event; `Engine::Tick` then returns `false`, `Run`
returns, and the destructor requests the tick worker to stop and releases
`threadTick`; the worker wakes and goes on to its clear. -/
def Sched.shutdownTrace : List Action :=
  [.runReleaseFrame, .runReleaseTick, .runTickDelta 0, .runFrameDelta 0, .tickLoop, .renderLoop,
   .tickProbe 0, .frameProbe (1 / 60), .frameCollect (1 / 60) [SDL_Event.quit], .frameFinish,
   .sleep, .tickProbe (1 / 60), .dtorRequestStopTick, .dtorReleaseTick,
   .tickAcquire, .tickWork, .tickClear]

/-- The log the schedule `shutdownTrace` produces. -/
def Sched.shutdownLog : List Ev :=
  [.release .mainFrame, .release .mainTick, .UpdateTickDelta, .UpdateFrameDelta,
   .tryAcquire .mainFrame true, .UpdateFrameDelta, .windowAggregateInput,
   .tickInputAggregate
     { wantsQuit := true, wantsResize := false, keyFlags := 0,
       mouse := { x := 0, y := 0 }, scroll := { x := 0, y := 0 } },
   .systemOnFrame 0, .worldFrame, .frameInputClear false, .release .threadFrame,
   .release .threadTick,
   .acquire .threadTick, .systemOnTick 0, .worldTick, .tickInputClear]

/-- A state in which the destructor has requested stop and released `threadTick`
while the tick worker is blocked in its `acquire`. -/
def Sched.stopRequestedSample : Sched :=
  { eng := { Engine.sample with m_threadTickSemaphore := 1 }
    main := .dtorTickReleased, tick := .waiting, render := .waiting
    tickStop := true, renderStop := false }

/-! ### One-shot keys -/

/-- The log entry that marks the action of a one-shot key inside `Engine::Frame`:
the `IsMouseGrabbed` read of the grab toggle, the `ToggleWindow` of the debug
and of the demo window. -/
def Ev.isActionOf : Key → Ev → Bool
  | .KEY_MOUSE_GRAB, .windowIsMouseGrabbed => true
  | .KEY_WINDOW_DEBUG, .uiToggleWindow .DEBUG => true
  | .KEY_WINDOW_DEMO, .uiToggleWindow .DEMO => true
  | _, _ => false

/-- How many times the action of the one-shot key `key` has been performed. -/
def Engine.actions (e : Engine) (key : Key) : Nat := e.log.countP (Ev.isActionOf key)

/-- The engine `sample` after a frame cycle in which `F3` (demo window) went down. -/
def Engine.sampleDemo : Engine :=
  Engine.sample.Frame 1 [SDL_Event.keyDown .KEY_WINDOW_DEMO]

/-- The engine `sample` after a frame cycle in which `F1` (mouse grab) and `F2`
(debug window) both went down. -/
def Engine.sampleGrabDebug : Engine :=
  Engine.sample.Frame 1 [SDL_Event.keyDown .KEY_MOUSE_GRAB, SDL_Event.keyDown .KEY_WINDOW_DEBUG]

/-- The engine `sample` after a frame cycle in which `F2` (debug window) went down. -/
def Engine.sampleDebug : Engine :=
  Engine.sample.Frame 1 [SDL_Event.keyDown .KEY_WINDOW_DEBUG]

/-- The engine `sampleDemo` after the render worker drew that frame. -/
def Engine.sampleDemoRendered : Engine :=
  (({ Engine.sampleDemo with m_threadFrameSemaphore := 0 }.emit
    (.acquire .threadFrame)).RenderThreadBody false 1 1).RenderThreadRelease

/-! ## entry.hpp: LEGS_Init -/

/-- The dynamic type of a thrown object, as far as a handler
`catch (std::exception&)` can tell: `std::runtime_error` (derived from
`std::exception`), or the `const char*` that `throw("...")` throws. -/
inductive Thrown
  | runtime_error
  | const_char_ptr
  deriving DecidableEq, Repr

/-- What the environment answers during `Engine::Engine()`: the result of
`SDL_Init`, whether `SDL_CreateWindow` returns `nullptr`, the result of
`SDL_GetWindowWMInfo`, and whether some later step (renderer, device, UI or world
construction, all of which throw `std::runtime_error`) fails. -/
structure ConstructionEnv where
  SDL_Init : Int
  SDL_CreateWindow_null : Bool
  SDL_GetWindowWMInfo : Bool
  rendererThrows : Bool
  deriving DecidableEq, Repr

/-- The constructor `Window::Window` (window.cpp lines 16-55): each of its three
failure branches executes `throw("...")`. -/
def Window.construct (env : ConstructionEnv) : Except Thrown Unit :=
  if env.SDL_Init < 0 then .error .const_char_ptr
  else if env.SDL_CreateWindow_null then .error .const_char_ptr
  else if !env.SDL_GetWindowWMInfo then .error .const_char_ptr
  else .ok ()

/-- The constructor `Engine::Engine` as far as failures go: the window is built
first, then the renderer and the rest. -/
def Engine.construct (env : ConstructionEnv) : Except Thrown Unit :=
  match Window.construct env with
  | .error t => .error t
  | .ok () => if env.rendererThrows then .error .runtime_error else .ok ()

/-- The function `LEGS_Init` (entry.hpp lines 32-51): `.ok code` when it returns
`code`, `.error t` when the object `t` propagates out of it. Its only handler is
`catch (std::exception& ex)`, which returns -1. -/
def LEGS_Init (env : ConstructionEnv) : Except Thrown Int :=
  match Engine.construct env with
  | .ok () => .ok 0
  | .error .runtime_error => .ok (-1)
  | .error .const_char_ptr => .error .const_char_ptr

/-! ## world.cpp -/

/-- The classes of entry points an entity in `m_entities` can have as dynamic
type. -/
inductive EntityKind
  | Entity
  | Camera
  | NoclipCamera
  | MeshEntity
  | PhysicsEntity
  | Sky
  deriving DecidableEq, Repr

/-- Whether the class is `MeshEntity` or derived from it. -/
def EntityKind.isMeshEntity : EntityKind → Bool
  | .MeshEntity | .PhysicsEntity | .Sky => true
  | _ => false

/-- A non-null `std::shared_ptr<Entity>`: the identity of the object and its
dynamic type. -/
structure EntityPtr where
  id : Nat
  kind : EntityKind
  deriving DecidableEq, Repr

/-- Calls that `World` makes on its collaborators and entities. -/
inductive WorldEv
  | physicsUpdate
  | lock
  | unlock
  | OnTick (ent : EntityPtr)
  | OnFrame (ent : EntityPtr)
  | OnSpawn (ent : EntityPtr)
  | OnDestroy (ent : EntityPtr)
  | skyRender
  | Render (ent : EntityPtr)
  deriving DecidableEq, Repr

/-- The members of `World` the code below reads and writes, and where
`World::Tick` stands: `tickAt = none` outside its loop, `some (i, n)` when it
holds `m_worldMutex` and its range-based loop, whose end `n` was taken when the
loop started, is about to visit position `i`. -/
structure World where
  m_entities : List EntityPtr
  m_sky : Bool
  m_worldMutex : Bool
  tickAt : Option (Nat × Nat)
  calls : List WorldEv
  deriving DecidableEq, Repr

/-- The result of `std::static_pointer_cast<MeshEntity>(ent)`: the same pointer,
whatever the dynamic type; it is null only for a null `ent`, and the entries of
`m_entities` are not null. -/
def static_pointer_cast_MeshEntity (ent : EntityPtr) : Option EntityPtr := some ent

/-- The function `World::Render` (world.cpp lines 50-64): the calls it makes, in
order. -/
def World.Render (w : World) : List WorldEv :=
  (if w.m_sky then [WorldEv.skyRender] else []) ++
    w.m_entities.filterMap fun ent =>
      match static_pointer_cast_MeshEntity ent with
      | some meshEnt => some (WorldEv.Render meshEnt)
      | none => none

/-- One step of a thread working on the world: the steps of `World::Tick`
(`Physics::Update`, taking the lock, one pass of its loop, leaving the scope), or
a whole `AddEntity` / `RemoveEntity` call from another thread. -/
inductive WorldAction
  | tickUpdate
  | tickLock
  | tickVisit
  | tickUnlock
  | AddEntity (ent : EntityPtr)
  | RemoveEntity (ent : EntityPtr)
  deriving DecidableEq, Repr

/-- The step function of the world. `World::Tick` (lines 37-48) takes
`m_worldMutex` after `Physics::Update` and holds it over its loop;
`World::AddEntity` (lines 66-70) and `World::RemoveEntity` (lines 72-84) do not
touch the mutex, so they are enabled in every state. `none` when the step is
not enabled (or when the loop would read past the end of the list, which the
language leaves undefined). -/
def World.step (w : World) : WorldAction → Option World
  | .tickUpdate => some { w with calls := w.calls ++ [.physicsUpdate] }
  | .tickLock =>
    if w.m_worldMutex then none
    else some { w with
      m_worldMutex := true, tickAt := some (0, w.m_entities.length), calls := w.calls ++ [.lock] }
  | .tickVisit =>
    match w.tickAt with
    | none => none
    | some (i, n) =>
      if i < n then
        match w.m_entities.get? i with
        | none => none
        | some ent => some { w with tickAt := some (i + 1, n), calls := w.calls ++ [.OnTick ent] }
      else none
  | .tickUnlock =>
    match w.tickAt with
    | none => none
    | some (i, n) =>
      if i = n then
        some { w with m_worldMutex := false, tickAt := none, calls := w.calls ++ [.unlock] }
      else none
  | .AddEntity ent =>
    some { w with m_entities := w.m_entities ++ [ent], calls := w.calls ++ [.OnSpawn ent] }
  | .RemoveEntity ent =>
    if ent ∈ w.m_entities then
      some { w with m_entities := w.m_entities.erase ent, calls := w.calls ++ [.OnDestroy ent] }
    else some w

/-- Run a list of world steps in order. -/
def World.run (w : World) : List WorldAction → Option World
  | [] => some w
  | a :: rest => (w.step a).bind fun w' => w'.run rest

/-- A world with one mesh entity and no tick in progress. -/
def World.sample : World :=
  { m_entities := [{ id := 1, kind := .MeshEntity }], m_sky := true, m_worldMutex := false,
    tickAt := none, calls := [] }

/-! ## physics.cpp: the body setters -/

/-- A `JPH::Quat` of the physics library. Its constructor `Quat(inX, inY, inZ, inW)`
takes the components in this order, which is the order of the fields here, so
`JoltQuat.mk a b c d` is `JPH::Quat(a, b, c, d)`; the fields are what `GetX()`,
`GetY()`, `GetZ()`, `GetW()` return. -/
structure JoltQuat where
  GetX : Rat
  GetY : Rat
  GetZ : Rat
  GetW : Rat
  deriving DecidableEq, Repr

/-- What the physics system keeps for one body, components idealised as `Rat`. -/
structure JoltBody where
  position : vec3
  linearVelocity : vec3
  angularVelocity : vec3
  rotation : JoltQuat
  deriving DecidableEq, Repr

/-- The bodies of `m_physicsSystem`, by `JPH::BodyID`. -/
structure Physics where
  body : Nat → JoltBody

/-- Modelled from the spec: the operation `BodyInterface::SetPosition` of the
external physics library, taken to store the position it is given for the body
and to leave its other quantities alone. -/
def Physics.SetPosition (p : Physics) (id : Nat) (pos : vec3) : Physics :=
  { body := fun i => if i = id then { p.body i with position := pos } else p.body i }

/-- The function `Physics::SetBodyPosition` (physics.cpp lines 201-205). -/
def Physics.SetBodyPosition (p : Physics) (id : Nat) (pos : vec3) : Physics :=
  let joltPos : vec3 := { x := pos.x, y := pos.y, z := pos.z }
  p.SetPosition id joltPos

/-- The function `Physics::SetBodyVelocity` (physics.cpp lines 213-217): it calls
`SetPosition` with the velocity. -/
def Physics.SetBodyVelocity (p : Physics) (id : Nat) (vel : vec3) : Physics :=
  let joltVel : vec3 := { x := vel.x, y := vel.y, z := vel.z }
  p.SetPosition id joltVel

/-- The function `Physics::SetBodyAngularVelocity` (physics.cpp lines 219-223): it
calls `SetPosition` with the velocity. -/
def Physics.SetBodyAngularVelocity (p : Physics) (id : Nat) (vel : vec3) : Physics :=
  let joltVel : vec3 := { x := vel.x, y := vel.y, z := vel.z }
  p.SetPosition id joltVel

/-- A physics system in which every body rests at the origin, unrotated. -/
def Physics.atRest : Physics :=
  { body := fun _ =>
      { position := { x := 0, y := 0, z := 0 }
        linearVelocity := { x := 0, y := 0, z := 0 }
        angularVelocity := { x := 0, y := 0, z := 0 }
        rotation := { GetX := 0, GetY := 0, GetZ := 0, GetW := 1 } } }

/-! ## input.hpp: InputSettings -/

/-- The indices of `m_sdlKeyMap` that `InputSettings::ApplyDefaults` binds, and
`other` for every remaining scancode below `SDL_NUM_SCANCODES`. -/
inductive SDL_Scancode
  | SDL_SCANCODE_W
  | SDL_SCANCODE_A
  | SDL_SCANCODE_S
  | SDL_SCANCODE_D
  | SDL_SCANCODE_SPACE
  | SDL_SCANCODE_LCTRL
  | SDL_SCANCODE_F1
  | SDL_SCANCODE_F2
  | SDL_SCANCODE_F3
  | other
  deriving DecidableEq, Repr

/-- Source `InputSettings::GetKeyFromSDL` on the map the constructor of
`InputSettings` builds: every entry `KEY_NONE`, then `ApplyDefaults`. -/
def InputSettings.GetKeyFromSDL : SDL_Scancode → Key
  | .SDL_SCANCODE_W => .KEY_MOVE_FORWARD
  | .SDL_SCANCODE_A => .KEY_MOVE_LEFT
  | .SDL_SCANCODE_S => .KEY_MOVE_BACK
  | .SDL_SCANCODE_D => .KEY_MOVE_RIGHT
  | .SDL_SCANCODE_SPACE => .KEY_MOVE_UP
  | .SDL_SCANCODE_LCTRL => .KEY_MOVE_DOWN
  | .SDL_SCANCODE_F1 => .KEY_MOUSE_GRAB
  | .SDL_SCANCODE_F2 => .KEY_WINDOW_DEBUG
  | .SDL_SCANCODE_F3 => .KEY_WINDOW_DEMO
  | .other => .KEY_NONE

/-! ## engine.cpp: the render worker up to UpdateUBO -/

/-- Lines 239-269 of `Engine::RenderThread` in the branch of a window that is not
minimized: from `Time::StartRender` up to and including the call
`m_renderer->UpdateUBO()`. -/
def Engine.RenderThreadStage (e : Engine) (tStart : Rat) : Engine :=
  let e := { e with time := e.time.StartRender tStart }.emit .StartRender
  let e := e.emit .windowIsMinimized
  let e := e.emitAll [.rendererBegin, .rendererGetUBO]
  let e := { e with sunColor := { x := 0, y := 0, z := 0 }
                    sunDir := { x := 0, y := 0, z := 0 } }
  let e :=
    if e.m_world then
      { e with
        sunDir := match e.sky with
          | some sky => sky.SunDirection
          | none => e.sunDir
        sunColor := match e.sky with
          | some sky => sky.SunColor
          | none => e.sunColor }.emit .worldGetSky
    else e
  let e := if e.m_camera then e.emit .uboSetCamera else e
  e.emit .rendererUpdateUBO

/-- Lines 271-282 of `Engine::RenderThread`: what follows `UpdateUBO` up to
`Time::StopRender`. -/
def Engine.RenderThreadDraw (e : Engine) (tStop : Rat) : Engine :=
  let e := if e.m_world then e.emit .worldRender else e
  let e := e.emitAll [.uiRender, .rendererSubmit, .rendererPresent]
  { e with time := e.time.StopRender tStop }.emit .StopRender

/-- The sun direction and colour of the world's sky, or two zero vectors when
`m_world` is null or the world has no sky. -/
def Engine.skySun (e : Engine) : vec3 × vec3 :=
  match (if e.m_world then e.sky else none) with
  | some sky => (sky.SunDirection, sky.SunColor)
  | none => ({ x := 0, y := 0, z := 0 }, { x := 0, y := 0, z := 0 })

/-! ## world.cpp: World::Tick as a whole -/

/-- The function `World::Tick` (world.cpp lines 37-48), run without interference:
`m_physics->Update()`, then the `scoped_lock` on `m_worldMutex`, the `OnTick`
fan-out over `m_entities`, and the unlock at the end of the scope. -/
def World.Tick (w : World) : World :=
  let w := { w with calls := w.calls ++ [WorldEv.physicsUpdate] }
  let w := { w with m_worldMutex := true, calls := w.calls ++ [WorldEv.lock] }
  let w := { w with calls := w.calls ++ w.m_entities.map WorldEv.OnTick }
  { w with m_worldMutex := false, calls := w.calls ++ [WorldEv.unlock] }

/-- Each call of a log together with the state of `m_worldMutex` at the time the
call is made, `held` being the state before the first call. -/
def World.mutexAt : Bool → List WorldEv → List (WorldEv × Bool)
  | _, [] => []
  | held, .lock :: rest => (.lock, held) :: World.mutexAt true rest
  | held, .unlock :: rest => (.unlock, held) :: World.mutexAt false rest
  | held, ev :: rest => (ev, held) :: World.mutexAt held rest

/-! ## physics.cpp: transforms, sub-steps -/

/-- A `glm::quat`, read through its members `x`, `y`, `z`, `w`. -/
structure quat where
  x : Rat
  y : Rat
  z : Rat
  w : Rat
  deriving DecidableEq, Repr

/-- Source `struct STransform` (components/transform.hpp), with the two members of its
`SRotation rotation`. -/
structure STransform where
  position : vec3
  rotation_euler : vec3
  rotation_quaternion : quat
  velocity : vec3
  angularVelocity : vec3
  deriving DecidableEq, Repr

/-- Modelled from the spec: the operation `BodyInterface::SetPositionAndRotation`
of the external physics library, taken to store the position and the rotation
it is given for the body. -/
def Physics.SetPositionAndRotation (p : Physics) (id : Nat) (pos : vec3) (rot : JoltQuat) :
    Physics :=
  { body := fun i => if i = id then { p.body i with position := pos, rotation := rot }
      else p.body i }

/-- Modelled from the spec: the operation `BodyInterface::SetRotation` of the
external physics library, taken to store the rotation it is given. -/
def Physics.SetRotation (p : Physics) (id : Nat) (rot : JoltQuat) : Physics :=
  { body := fun i => if i = id then { p.body i with rotation := rot } else p.body i }

/-- Modelled from the spec: the operation `BodyInterface::GetPositionAndRotation`
of the external physics library, taken to give back what is stored. -/
def Physics.GetPositionAndRotation (p : Physics) (id : Nat) : vec3 × JoltQuat :=
  ((p.body id).position, (p.body id).rotation)

/-- The function `Physics::GetBodyTransform` (physics.cpp lines 170-185): the
transform `trans` after the call. -/
def Physics.GetBodyTransform (p : Physics) (id : Nat) (trans : STransform) : STransform :=
  let r := p.GetPositionAndRotation id
  let joltPos := r.1
  let joltRot := r.2
  { trans with
    position := { x := joltPos.x, y := joltPos.y, z := joltPos.z }
    rotation_quaternion :=
      { x := joltRot.GetX, y := joltRot.GetY, z := joltRot.GetZ, w := joltRot.GetW } }

/-- The function `Physics::SetBodyTransform` (physics.cpp lines 187-199): the
`JPH::Quat` is built from `x`, `y`, `w`, `z`, in this order. -/
def Physics.SetBodyTransform (p : Physics) (id : Nat) (trans : STransform) : Physics :=
  let joltPos : vec3 := { x := trans.position.x, y := trans.position.y, z := trans.position.z }
  let joltRot : JoltQuat :=
    JoltQuat.mk trans.rotation_quaternion.x trans.rotation_quaternion.y
      trans.rotation_quaternion.w trans.rotation_quaternion.z
  p.SetPositionAndRotation id joltPos joltRot

/-- The function `Physics::SetBodyRotation` (physics.cpp lines 207-211): the
`JPH::Quat` is built from `x`, `y`, `w`, `z`, in this order. -/
def Physics.SetBodyRotation (p : Physics) (id : Nat) (rot : quat) : Physics :=
  let joltRot : JoltQuat := JoltQuat.mk rot.x rot.y rot.w rot.z
  p.SetRotation id joltRot

/-- The `JPH::Quat` that `ICollider::CreateBody` (collider.hpp lines 62-67) hands to
`JPH::BodyCreationSettings`: built from `x`, `y`, `z`, `w`. -/
def ICollider.CreateBody_rotation (trans : STransform) : JoltQuat :=
  JoltQuat.mk trans.rotation_quaternion.x trans.rotation_quaternion.y
    trans.rotation_quaternion.z trans.rotation_quaternion.w

/-- A transform at the origin with the identity rotation `(0, 0, 0, 1)`. -/
def STransform.identity : STransform :=
  { position := { x := 0, y := 0, z := 0 }
    rotation_euler := { x := 0, y := 0, z := 0 }
    rotation_quaternion := { x := 0, y := 0, z := 0, w := 1 }
    velocity := { x := 0, y := 0, z := 0 }
    angularVelocity := { x := 0, y := 0, z := 0 } }

/-- The member `m_maxDeltaTime` of `Physics`, a `float` initialised with
`1.0f / 60.0f`: the single-precision number nearest to 1/60, which is
8947849 / 2^29 = 0.016666667535901069..., a little above 1/60. -/
def Physics.m_maxDeltaTime : Rat := 8947849 / 536870912

/-- Largest value of `unsigned int` (32 bits). -/
def UINT_MAX : Nat := 2 ^ 32 - 1

/-- The binary exponent a `double` uses for the number `q`: `floor(log2 |q|)`, and
-1022 for the subnormal numbers and zero. -/
def Double.exponent (q : Rat) : Int := max (Int.log 2 |q|) (-1022)

/-- The spacing of the `double` numbers around `q`: 53 significant bits. -/
def Double.ulp (q : Rat) : Rat := (2 : Rat) ^ (Double.exponent q - 52)

/-- The integer nearest to `x`, the even one of the two when `x` lies half way. -/
def roundHalfEven (x : Rat) : Int :=
  if x - ⌊x⌋ < 1 / 2 then ⌊x⌋
  else if 1 / 2 < x - ⌊x⌋ then ⌊x⌋ + 1
  else if ⌊x⌋ % 2 = 0 then ⌊x⌋ else ⌊x⌋ + 1

/-- The `double` an arithmetic operation with exact result `q` returns (IEEE 754
binary64, round to nearest, ties to even): the multiple of the spacing at `q`
nearest to `q`; `none` when that is beyond the largest `double`, where the
operation returns an infinity. -/
def Double.round (q : Rat) : Option Rat :=
  let r : Rat := (roundHalfEven (q / Double.ulp q) : Rat) * Double.ulp q
  if |r| < 2 ^ 1024 then some r else none

/-- The number `q` is a finite `double`: rounding leaves it as it is. -/
@[reducible] def Double.IsDouble (q : Rat) : Prop := Double.round q = some q

/-- Line 141 of `Physics::Update`: `steps = std::ceil(Time::DeltaTick / m_maxDeltaTime)`.
The `float` divisor is converted to `double` exactly, the quotient is rounded to
a `double`, and `std::ceil` is exact. The conversion of the `double` to
`unsigned int` is defined only for a value in range; `none` otherwise, and for
an infinite quotient. -/
def Physics.Update_steps (DeltaTick : Rat) : Option Nat :=
  match Double.round (DeltaTick / Physics.m_maxDeltaTime) with
  | none => none
  | some x =>
    let c : Int := ⌈x⌉
    if 0 ≤ c ∧ c ≤ (UINT_MAX : Int) then some c.toNat else none

/-- The step count the sentence about sub-steps names: `ceil(DeltaTick / (1/60))`. -/
def Physics.stepsAtSixtieth (DeltaTick : Rat) : Int := ⌈DeltaTick / (1 / 60)⌉

/-- The `double` `0x1.17be964e605c5p+24` (about 18333334.3 s). -/
def Physics.sampleLongDelta : Rat := 4921316954473925 / 2 ^ 28

/-! ## time.hpp, window.cpp: the frame interval for every refresh rate -/

/-- A `double` that is either finite (idealised as `Rat`) or +infinity. -/
inductive Double
  | finite (q : Rat)
  | inf
  deriving DecidableEq, Repr

/-- Subtraction of a finite number from a `double`. -/
def Double.sub : Double → Rat → Double
  | .finite q, r => .finite (q - r)
  | .inf, _ => .inf

/-- The test `x <= 0` on a `double`. -/
def Double.le_zero : Double → Bool
  | .finite q => decide (q ≤ 0)
  | .inf => false

/-- Source `Window::GetRefreshRate` (window.cpp lines 191-205). `display` is the result
of `SDL_GetWindowDisplayIndex`, `modeResult` that of `SDL_GetDesktopDisplayMode`,
`refresh_rate` the `int` member of the display mode it fills (0 when the mode
does not specify a rate); the `static_cast<unsigned int>` is taken modulo 2^32. -/
def Window.GetRefreshRate (display modeResult refresh_rate : Int) : Nat :=
  if display ≥ 0 ∧ modeResult = 0 then (refresh_rate % 2 ^ 32).toNat else 60

/-- The value `Time::SetFrameRate(fps)` stores in `FrameInterval`: `1.0 / fps` in
`double`, which is +infinity for `fps = 0`. -/
def Time.FrameIntervalOf (fps : Nat) : Double :=
  if fps = 0 then .inf else .finite (1 / (fps : Rat))

/-- Source `Time::TimeToEngineFrame` after `SetFrameRate(fps)`. -/
def Time.TimeToEngineFrameOf (fps : Nat) (t : Time) (now : Rat) : Double :=
  (Time.FrameIntervalOf fps).sub (t.TimeSinceEngineFrame now)

/-- The test `toFrame <= 0` of `Engine::Run` (line 91) after `SetFrameRate(fps)`:
whether `Run` attempts a frame at the reading `now`. -/
def Time.frameDue (fps : Nat) (t : Time) (now : Rat) : Bool :=
  (Time.TimeToEngineFrameOf fps t now).le_zero

/-! ## Teardown -/

/-- The schedule `shutdownTrace` continued by the worker's release of `mainTick`
at the end of its last unit of work. -/
def Sched.teardownTrace : List Action :=
  Sched.shutdownTrace ++ [.tickRelease]

/-- A sample schedule: `Run` arms a tick at time 1/60 while the tick worker has
not reached its `acquire` yet; a frame cycle collects a quit event; the next
`Engine::Tick` returns `false`, `Run` returns, and the destructor requests stop
and releases `threadTick`. -/
def Sched.teardownArmedTrace : List Action :=
  [.runReleaseFrame, .runReleaseTick, .runTickDelta 0, .runFrameDelta 0,
   .tickProbe (1 / 60), .tickArm (1 / 60) (1 / 60),
   .frameProbe (1 / 60), .frameCollect (1 / 60) [SDL_Event.quit], .frameFinish,
   .sleep, .tickProbe (2 / 60), .dtorRequestStopTick, .dtorReleaseTick]

/-! ## The tick clock under the handshake -/

/-- The two clock fields `Time::UpdateTickDelta` writes, with the count of
`m_mainTickSemaphore`. -/
def Engine.tickClock (e : Engine) : Rat × Rat × Nat :=
  (e.time.DeltaTick, e.time.prevTick, e.m_mainTickSemaphore)

/-- Holds from the release of `threadTick` by `Engine::Tick` until the worker starts
the work of that tick, as long as the destructor has not started: `DeltaTick` and
`prevTick` have the values `c`, the count of `mainTick` is 0, the main thread is
in the loop of `Run` outside the armed part of `Engine::Tick`, and the worker has
not done its fan-out. -/
def Sched.ArmedInv (c : Rat × Rat) (s : Sched) : Prop :=
  s.inTeardown = false →
    s.eng.tickClock = (c.1, c.2, 0) ∧ s.inRun = true ∧ s.beforeLoop = false ∧
    s.main ≠ .tickHeld ∧ s.tick ≠ .worked ∧ s.tick ≠ .cleared

/-- The state `insideTick` after `Engine::Tick` has armed the tick at time 1. -/
def Sched.armedSample : Sched :=
  { Sched.insideTick with main := .loopFrame, eng := Sched.insideTick.eng.TickArm 1 1 }

/-! ## geometry/icosphere.hpp -/

/-- A position of the icosphere before the final scaling, kept symbolically: one of
the twelve `basePositions`, or `glm::normalize(positions[first] + positions[second])`
for two earlier positions, named by their indices. -/
inductive IcoVertex
  | base (i : Nat)
  | mid (first second : Nat)
  deriving DecidableEq, Repr

/-- The array `baseIndices` of icosphere.hpp: twenty triangles. -/
def baseIndices : List Nat :=
  [0, 1, 4, 0, 4, 9, 9, 4, 5, 4, 8, 5, 4, 1, 8,
   8, 1, 10, 8, 10, 3, 5, 8, 3, 5, 3, 2, 2, 3, 7,
   7, 3, 10, 7, 10, 6, 7, 6, 11, 11, 6, 0, 0, 6, 1,
   6, 10, 1, 9, 11, 0, 9, 2, 11, 9, 5, 2, 7, 11, 2]

/-- The array `basePositions` of icosphere.hpp: twelve entries. -/
def basePositions : List IcoVertex := (List.range 12).map IcoVertex.base

/-- The key `SIcosphere::EdgeVertex` builds (lines 177-181): the two indices, the
smaller one first. -/
def EdgeKey (first second : Nat) : Nat × Nat :=
  if first > second then (second, first) else (first, second)

/-- Source `SIcosphere::EdgeVertex` (lines 175-193). The `EdgeMap` is the list of its
entries, latest first; `insert` leaves an existing entry alone. The result is the
map, the positions and the returned index; `none` when `positions[first]` or
`positions[second]` is read out of bounds. -/
def EdgeVertex (edgeMap : List ((Nat × Nat) × Nat)) (positions : List IcoVertex)
    (first second : Nat) : Option (List ((Nat × Nat) × Nat) × List IcoVertex × Nat) :=
  let key := EdgeKey first second
  match edgeMap.lookup key with
  | some v => some (edgeMap, positions, v)
  | none =>
    if first < positions.length ∧ second < positions.length then
      some ((key, positions.length) :: edgeMap, positions ++ [IcoVertex.mid first second],
        positions.length)
    else none

/-- The loop of `SIcosphere::Subdivide` (lines 145-170) over the indices not yet
visited, three per pass; `none` when `indices[i + 1]` or `indices[i + 2]` is read
past the end, or when `EdgeVertex` reads out of bounds. -/
def SubdivideLoop : List Nat → List ((Nat × Nat) × Nat) → List IcoVertex → List Nat →
    Option (List ((Nat × Nat) × Nat) × List IcoVertex × List Nat)
  | [], edgeMap, positions, newIndices => some (edgeMap, positions, newIndices)
  | a :: b :: c :: rest, edgeMap, positions, newIndices =>
    match EdgeVertex edgeMap positions a b with
    | none => none
    | some (edgeMap, positions, mid0) =>
      match EdgeVertex edgeMap positions b c with
      | none => none
      | some (edgeMap, positions, mid1) =>
        match EdgeVertex edgeMap positions c a with
        | none => none
        | some (edgeMap, positions, mid2) =>
          SubdivideLoop rest edgeMap positions
            (newIndices ++ [a, mid0, mid2, b, mid1, mid0, c, mid2, mid1, mid0, mid1, mid2])
  | _, _, _, _ => none

/-- Source `SIcosphere::Subdivide` (lines 138-173) on the members `positions` and
`indices`. -/
def Subdivide (s : List IcoVertex × List Nat) : Option (List IcoVertex × List Nat) :=
  (SubdivideLoop s.2 [] s.1 []).map fun r => (r.2.1, r.2.2)

/-- The members `positions` and `indices` after the first loops of the
constructor (lines 87-99): the base mesh, subdivided `n` times. -/
def subdivided : Nat → Option (List IcoVertex × List Nat)
  | 0 => some (basePositions, baseIndices)
  | n + 1 => (subdivided n).bind Subdivide

/-- The loop of lines 131-134, `std::swap(indices[i], indices[i + 1])` for
`i = 0, 3, 6, ...` below `numIndices`; `none` when `indices[i + 1]` is out of
bounds. -/
def swapLoop : List Nat → Option (List Nat)
  | [] => some []
  | [_] => none
  | [a, b] => some [b, a]
  | a :: b :: c :: rest => (swapLoop rest).map fun r => b :: a :: c :: r

/-- The three members of `struct SIcosphere` after construction, and whether the
two `LOG_ERROR` branches (lines 101-110 and 112-120) were taken. A position `v`
stands for `v * radius + origin`, a normal `(negated, v)` for `v` or `-v`. -/
structure SIcosphere where
  positions : List IcoVertex
  normals : List (Bool × IcoVertex)
  indices : List Nat
  vertsMismatch : Bool
  indicesMismatch : Bool
  deriving DecidableEq, Repr

/-- The constructor `SIcosphere::SIcosphere` (lines 70-136); `none` when it reads a
vector out of bounds. After the two size checks `numVerts` is `positions.size()` and
`numIndices` is `indices.size()` on either branch, so the loops of lines 122-134
run over all positions and over all indices. -/
def SIcosphere.new (subdivisions : Nat) (invert : Bool) : Option SIcosphere :=
  let maxDiv := 5
  let subdivisions := if subdivisions > maxDiv then maxDiv else subdivisions
  let numIndices := 60 * 4 ^ subdivisions
  let numVerts := 12 + 10 * (4 ^ subdivisions - 1)
  match subdivided subdivisions with
  | none => none
  | some (positions, indices) =>
    let vertsMismatch := decide (numVerts ≠ positions.length)
    let indicesMismatch := decide (numIndices ≠ indices.length)
    let normals := positions.map fun v => (invert, v)
    if invert then
      (swapLoop indices).map fun swapped =>
        { positions := positions, normals := normals, indices := swapped,
          vertsMismatch := vertsMismatch, indicesMismatch := indicesMismatch }
    else
      some { positions := positions, normals := normals, indices := indices,
             vertsMismatch := vertsMismatch, indicesMismatch := indicesMismatch }

/-! ### The mesh as a list of triangles -/

/-- The index list of a list of triangles. -/
def flat : List (Nat × Nat × Nat) → List Nat
  | [] => []
  | (a, b, c) :: rest => a :: b :: c :: flat rest

/-- The three rotations of a triangle. -/
def rots (t : Nat × Nat × Nat) : List (Nat × Nat × Nat) :=
  [(t.1, t.2.1, t.2.2), (t.2.1, t.2.2, t.1), (t.2.2, t.1, t.2.1)]

/-- Every rotation of every triangle, in the order in which `Subdivide` visits
the edges: the edge of a rotation is its first two corners. -/
def allRots (T : List (Nat × Nat × Nat)) : List (Nat × Nat × Nat) := T.flatMap rots

/-- The directed edge of a rotated triangle: from its first to its second corner. -/
def edgeOf (r : Nat × Nat × Nat) : Nat × Nat := (r.1, r.2.1)

/-- The index stored for the edge between `a` and `b` in an edge map (0 when
there is none). -/
def mu (edgeMap : List ((Nat × Nat) × Nat)) (a b : Nat) : Nat :=
  (edgeMap.lookup (EdgeKey a b)).getD 0

/-- The four triangles `Subdivide` writes for the triangle `t`, `f a b` being the
index of the midpoint of the edge between `a` and `b`. -/
def subTris (f : Nat → Nat → Nat) (t : Nat × Nat × Nat) : List (Nat × Nat × Nat) :=
  [(t.1, f t.1 t.2.1, f t.2.2 t.1), (t.2.1, f t.2.1 t.2.2, f t.1 t.2.1),
   (t.2.2, f t.2.2 t.1, f t.2.1 t.2.2), (f t.1 t.2.1, f t.2.1 t.2.2, f t.2.2 t.1)]

/-- A closed oriented surface without two triangles glued along two edges, on
vertices below `n`: every corner is below `n` and the corners of a triangle
differ; no directed edge occurs twice; with every directed edge its reverse
occurs; and the triangles on the two sides of an edge have different third
corners. -/
def MeshInv (T : List (Nat × Nat × Nat)) (n : Nat) : Prop :=
  (∀ r ∈ allRots T, r.1 < n ∧ r.1 ≠ r.2.1) ∧
  ((allRots T).map edgeOf).Nodup ∧
  (∀ r ∈ allRots T, ∃ r' ∈ allRots T, r'.1 = r.2.1 ∧ r'.2.1 = r.1) ∧
  (∀ r ∈ allRots T, ∀ r' ∈ allRots T, r'.1 = r.2.1 → r'.2.1 = r.1 → r'.2.2 ≠ r.2.2)

/-- The twenty triangles of `baseIndices`. -/
def baseTris : List (Nat × Nat × Nat) :=
  [(0, 1, 4), (0, 4, 9), (9, 4, 5), (4, 8, 5), (4, 1, 8),
   (8, 1, 10), (8, 10, 3), (5, 8, 3), (5, 3, 2), (2, 3, 7),
   (7, 3, 10), (7, 10, 6), (7, 6, 11), (11, 6, 0), (0, 6, 1),
   (6, 10, 1), (9, 11, 0), (9, 2, 11), (9, 5, 2), (7, 11, 2)]

/-- What the entries of an edge map satisfy while `Subdivide` runs from `n`
positions: one entry per position added, no key twice, no value twice, every
value an index of an added position. -/
def EdgeMapInv (edgeMap : List ((Nat × Nat) × Nat)) (n len : Nat) : Prop :=
  len = n + edgeMap.length ∧ (edgeMap.map Prod.fst).Nodup ∧ (edgeMap.map Prod.snd).Nodup ∧
  ∀ entry ∈ edgeMap, n ≤ entry.2 ∧ entry.2 < len

/-- What `Subdivide` guarantees of the midpoint indices of a mesh on `n` vertices
that grows to `n'` vertices: the index does not depend on the direction of the
edge, it is the index of an added position, and different edges get different
indices. -/
def MidFn (f : Nat → Nat → Nat) (T : List (Nat × Nat × Nat)) (n n' : Nat) : Prop :=
  (∀ a b, f a b = f b a) ∧
  (∀ r ∈ allRots T, n ≤ f r.1 r.2.1 ∧ f r.1 r.2.1 < n') ∧
  (∀ r ∈ allRots T, ∀ r' ∈ allRots T, f r.1 r.2.1 = f r'.1 r'.2.1 →
    (r.1 = r'.1 ∧ r.2.1 = r'.2.1) ∨ (r.1 = r'.2.1 ∧ r.2.1 = r'.1))

/-- The four rotated triangles of the subdivided mesh that `Subdivide` derives
from the rotation `r = (x, y, w)` of a triangle: the corner triangle at `x` in its
three rotations, and the centre triangle starting at the midpoint of `x y`. -/
def newFaces (f : Nat → Nat → Nat) (r : Nat × Nat × Nat) : List (Nat × Nat × Nat) :=
  [(r.1, f r.1 r.2.1, f r.2.2 r.1), (f r.1 r.2.1, f r.2.2 r.1, r.1),
   (f r.2.2 r.1, r.1, f r.1 r.2.1), (f r.1 r.2.1, f r.2.1 r.2.2, f r.2.2 r.1)]

/-- The four directed edges of the subdivided mesh that start at the directed edge
`x y` of the rotation `r = (x, y, w)`: its two halves and the two inner edges
leaving its midpoint. -/
def newEdges (f : Nat → Nat → Nat) (r : Nat × Nat × Nat) : List (Nat × Nat) :=
  [(r.1, f r.1 r.2.1), (f r.1 r.2.1, r.2.1), (f r.1 r.2.1, f r.2.2 r.1),
   (f r.1 r.2.1, f r.2.1 r.2.2)]

/-! ## Released keys and late merges -/

/-- A key-up event, not captured by ImGui, whose scancode maps to `key`. -/
def SDL_Event.keyUp (key : Key) : SDL_Event :=
  { type := .SDL_KEYUP, sizeChanged := false, key := key, button := 0,
    xrel := 0, yrel := 0, WantCaptureKeyboard := false, WantCaptureMouse := false }

/-- The engine `sampleArmed` continued in sequence: the tick worker completes its
iteration, the render worker draws the frame, a second frame cycle receives the
key-up event of `W`, and `Engine::Tick` arms the next tick. -/
def Engine.sampleReleased : Option Engine :=
  (Engine.sampleArmed.TickThreadIteration.bind
    fun e => e.RenderThreadIteration false 1 1).map
    fun e => ((e.Frame 2 [SDL_Event.keyUp .KEY_MOVE_FORWARD]).Tick 2 2).2

/-- A sample schedule: `Run` arms the first tick, the worker does its fan-out,
`World::Tick` and its clear of `tickInput`; before the worker releases
`mainTick`, the main thread runs the input collection of a frame cycle, which
merges a mouse motion and a `W` key-down into `tickInput`. -/
def Sched.lateMergeTrace : List Action :=
  [.runReleaseFrame, .runReleaseTick, .runTickDelta 0, .runFrameDelta 0, .tickLoop,
   .tickProbe (1 / 60), .tickArm (1 / 60) (1 / 60), .tickAcquire, .tickWork, .tickClear,
   .frameProbe (1 / 60),
   .frameCollect (1 / 60) [SDL_Event.mouseMotion 3 0, SDL_Event.keyDown .KEY_MOVE_FORWARD]]

/-! ## Properties of the sequential code -/

theorem KeyToFlag_ne_zero (k : Key) : KeyToFlag k ≠ 0 := by
  cases k <;> decide

theorem zero_ne_KeyToFlag (k : Key) : 0 ≠ KeyToFlag k :=
  fun h => KeyToFlag_ne_zero k h.symm

namespace Engine

@[simp] theorem try_acquire_zero : try_acquire 0 = none := rfl

theorem try_acquire_pos {c : Nat} (h : 0 < c) : try_acquire c = some (c - 1) := by
  unfold try_acquire
  rw [if_neg (Nat.pos_iff_ne_zero.mp h)]

theorem tickEnter_quit (e : Engine) (h : e.m_tickInput.wantsQuit = true) :
    e.TickEnter = (.quit, e) := by
  simp [TickEnter, h]

theorem tickEnter_busy (e : Engine) (hq : e.m_tickInput.wantsQuit = false)
    (h : e.m_mainTickSemaphore = 0) :
    e.TickEnter = (.busy, e.emit (.tryAcquire .mainTick false)) := by
  simp [TickEnter, hq, h]

theorem tickEnter_acquired (e : Engine) (hq : e.m_tickInput.wantsQuit = false)
    (h : 0 < e.m_mainTickSemaphore) :
    e.TickEnter = (.acquired,
      { e with m_mainTickSemaphore := e.m_mainTickSemaphore - 1 }.emit
        (.tryAcquire .mainTick true)) := by
  simp [TickEnter, hq, try_acquire_pos h]

theorem frameEnter_busy (e : Engine) (h : e.m_mainFrameSemaphore = 0) :
    e.FrameEnter = (false, e.emit (.tryAcquire .mainFrame false)) := by
  simp [FrameEnter, h]

theorem frameEnter_acquired (e : Engine) (h : 0 < e.m_mainFrameSemaphore) :
    e.FrameEnter = (true,
      { e with m_mainFrameSemaphore := e.m_mainFrameSemaphore - 1 }.emit
        (.tryAcquire .mainFrame true)) := by
  simp [FrameEnter, try_acquire_pos h]

theorem frameFinish_tickInput (e : Engine) :
    e.FrameFinish.m_tickInput = e.m_tickInput := by
  simp only [FrameFinish, ToggleWindow, emit, emitAll]
  split_ifs <;> rfl

theorem frameFinish_frameInput (e : Engine) :
    e.FrameFinish.m_frameInput =
      { wantsQuit := false
        wantsResize := false
        keyFlags :=
          if e.m_frameInput.HasKey .KEY_MOUSE_GRAB then 0
          else if e.m_frameInput.HasKey .KEY_WINDOW_DEBUG then
            e.m_frameInput.keyFlags &&& (ULLONG_MAX - KeyToFlag .KEY_WINDOW_DEBUG)
          else e.m_frameInput.keyFlags
        mouse := { x := 0, y := 0 }
        scroll := { x := 0, y := 0 } } := by
  simp only [FrameFinish, ToggleWindow, emit, emitAll]
  split_ifs <;>
    simp_all [WindowInput.Clear, WindowInput.KeyUp, WindowInput.HasKey, zero_ne_KeyToFlag]

theorem frameFinish_mainFrame (e : Engine) :
    e.FrameFinish.m_mainFrameSemaphore = e.m_mainFrameSemaphore := by
  simp only [FrameFinish, ToggleWindow, emit, emitAll]
  split_ifs <;> rfl

theorem frameFinish_threadFrame (e : Engine) :
    e.FrameFinish.m_threadFrameSemaphore = e.m_threadFrameSemaphore + 1 := by
  simp only [FrameFinish, ToggleWindow, emit, emitAll, release]
  split_ifs <;> rfl

/-- What `Engine::Frame` does once it has acquired `m_mainFrameSemaphore`. -/
theorem frame_acquired (e : Engine) (now : Rat) (events : List SDL_Event)
    (h : 0 < e.m_mainFrameSemaphore) :
    e.Frame now events =
      (({ e with m_mainFrameSemaphore := e.m_mainFrameSemaphore - 1 }.emit
        (.tryAcquire .mainFrame true)).FrameCollect now events).FrameFinish := by
  simp [Frame, frameEnter_acquired e h]

/-- The record `m_frameInput` holds after the window has aggregated `events` into
it: the sample a frame cycle merges into `m_tickInput`. -/
theorem frameCollect_frameInput (e : Engine) (now : Rat) (events : List SDL_Event) :
    (e.FrameCollect now events).m_frameInput =
      (Window.AggregateInput e.mouseGrabbed e.m_frameInput events).2 := rfl

theorem frameCollect_tickInput (e : Engine) (now : Rat) (events : List SDL_Event) :
    (e.FrameCollect now events).m_tickInput =
      e.m_tickInput.Aggregate (Window.AggregateInput e.mouseGrabbed e.m_frameInput events).2 :=
  rfl

/-- The function `TickArm` as one record update. -/
theorem tickArm_eq (e : Engine) (tSince tUpdate : Rat) :
    e.TickArm tSince tUpdate =
      { e with
        time := e.time.UpdateTickDelta tUpdate
        m_threadTickSemaphore := e.m_threadTickSemaphore + 1
        log := e.log ++
          (if e.time.TimeSinceEngineTick tSince > Time.TickInterval * 2
            then [Ev.logWarnSlowTick] else []) ++ [.UpdateTickDelta, .release .threadTick] } := by
  simp only [TickArm, emit, release]
  split_ifs <;> simp

theorem tick_acquired (e : Engine) (tSince tUpdate : Rat)
    (hq : e.m_tickInput.wantsQuit = false) (h : 0 < e.m_mainTickSemaphore) :
    e.Tick tSince tUpdate = (true,
      ({ e with m_mainTickSemaphore := e.m_mainTickSemaphore - 1 }.emit
        (.tryAcquire .mainTick true)).TickArm tSince tUpdate) := by
  simp [Tick, tickEnter_acquired e hq h]

theorem tickThreadAcquire_pos (e : Engine) (h : 0 < e.m_threadTickSemaphore) :
    e.TickThreadAcquire =
      some ({ e with m_threadTickSemaphore := e.m_threadTickSemaphore - 1 }.emit
        (.acquire .threadTick)) := by
  simp [TickThreadAcquire, try_acquire_pos h]

theorem renderThreadAcquire_pos (e : Engine) (h : 0 < e.m_threadFrameSemaphore) :
    e.RenderThreadAcquire =
      some ({ e with m_threadFrameSemaphore := e.m_threadFrameSemaphore - 1 }.emit
        (.acquire .threadFrame)) := by
  simp [RenderThreadAcquire, try_acquire_pos h]

/-- The function `TickThreadWork` as one record update. -/
theorem tickThreadWork_eq (e : Engine) :
    e.TickThreadWork =
      { e with log := e.log ++ (List.range e.m_systems).map Ev.systemOnTick ++
          (if e.m_world then [Ev.worldTick] else []) } := by
  simp only [TickThreadWork, emit, emitAll]
  split_ifs <;> simp

theorem sampleArmed_fields :
    Engine.sampleArmed.m_tickInput.keyFlags = 2 ∧
    Engine.sampleArmed.m_threadTickSemaphore = 1 := by
  have h := Engine.tick_acquired (Engine.sample.Frame 1 [SDL_Event.keyDown .KEY_MOVE_FORWARD])
    1 1 (by decide) (by decide)
  unfold Engine.sampleArmed
  rw [h, Engine.tickArm_eq]
  exact ⟨by decide, by decide⟩

end Engine

/-- C2 (quit propagation). When `tickInput.wantsQuit` is set, `Engine::Tick`
returns `false` and the engine record is left exactly as it was: the four
semaphore counts, the clock and both input records are unchanged, and nothing is
added to the log of operations, so `mainTick` was not try-acquired and
`threadTick` was not released. -/
theorem C2_quit_propagation (e : Engine) (tSince tUpdate : Rat)
    (h : e.m_tickInput.wantsQuit = true) :
    e.Tick tSince tUpdate = (false, e) := by
  simp [Engine.Tick, Engine.tickEnter_quit e h]

/-- C3 (busy tick dropped). With `wantsQuit` false and `mainTick` at 0,
`Engine::Tick` returns `true`; the only trace it leaves is the failed
`try_acquire` in the log: every field of the engine other than the log is
unchanged (semaphore counts, `prevTick`, `DeltaTick`, `tickInput`), no release of
`threadTick` is logged, and a probe of `TimeToEngineTick` that was `<= 0` before
the call is still `<= 0` at any later reading of a monotonic clock. -/
theorem C3_busy_tick_dropped (e : Engine) (tSince tUpdate : Rat)
    (hq : e.m_tickInput.wantsQuit = false) (h : e.m_mainTickSemaphore = 0) :
    (e.Tick tSince tUpdate).1 = true ∧
    (e.Tick tSince tUpdate).2 = e.emit (.tryAcquire .mainTick false) ∧
    { (e.Tick tSince tUpdate).2 with log := e.log } = e ∧
    (∀ now later : Rat, now ≤ later → e.time.TimeToEngineTick now ≤ 0 →
      (e.Tick tSince tUpdate).2.time.TimeToEngineTick later ≤ 0) := by
  have ht : e.Tick tSince tUpdate = (true, e.emit (.tryAcquire .mainTick false)) := by
    simp [Engine.Tick, Engine.tickEnter_busy e hq h]
  rw [ht]
  refine ⟨rfl, rfl, rfl, ?_⟩
  intro now later hle hnow
  simp only [Engine.emit, Time.TimeToEngineTick, Time.TimeSinceEngineTick] at hnow ⊢
  linarith

/-- C4 (busy frame dropped). With `mainFrame` at 0, `Engine::Frame` returns after
its failed `try_acquire`, which is the only operation it adds to the log: no
`UpdateFrameDelta`, no input collection or merge, no `OnFrame`, no key handling,
no clear and no release of `threadFrame`; every field other than the log is
unchanged. -/
theorem C4_busy_frame_dropped (e : Engine) (now : Rat) (events : List SDL_Event)
    (h : e.m_mainFrameSemaphore = 0) :
    e.Frame now events = e.emit (.tryAcquire .mainFrame false) ∧
    { e.Frame now events with log := e.log } = e := by
  have hf : e.Frame now events = e.emit (.tryAcquire .mainFrame false) := by
    simp [Engine.Frame, Engine.frameEnter_busy e h]
  rw [hf]
  exact ⟨rfl, rfl⟩

theorem renderIteration_fields (e e1 : Engine) (m : Bool) (a b : Rat)
    (h : e.RenderThreadIteration m a b = some e1) :
    e1.m_tickInput = e.m_tickInput ∧ e1.m_frameInput = e.m_frameInput ∧
    e1.mouseGrabbed = e.mouseGrabbed ∧ 0 < e1.m_mainFrameSemaphore := by
  simp only [Engine.RenderThreadIteration, Engine.RenderThreadAcquire, try_acquire] at h
  split_ifs at h with h0
  · simp at h
  · simp only [Option.map_some', Option.some.injEq] at h
    subst h
    simp only [Engine.RenderThreadRelease, Engine.RenderThreadBody, Engine.emit, Engine.emitAll, release]
    refine ⟨?_, ?_, ?_, ?_⟩ <;> (split_ifs <;> first | rfl | simp)

/-- C5 (input accumulation). `Aggregate` adds mouse and scroll component-wise,
ORs the key flags and the two request flags; `UpdateInput` merges the window's
sample into `tickInput` and leaves the sample itself in `frameInput`. Starting
from a zeroed `tickInput`, two frame cycles (with the render worker's cycle in
between, no tick) whose samples carry the mouse deltas `(3,0)` and `(-1,2)` leave
`tickInput.mouse = (2,2)` and `tickInput.keyFlags` the OR of the two samples'
key flags. -/
theorem C5_input_accumulation (t o : WindowInput) (e e1 : Engine)
    (now1 now2 tStart tStop : Rat) (events1 events2 : List SDL_Event) (minimized : Bool)
    (hzero : e.m_tickInput = WindowInput.new)
    (hacq : 0 < e.m_mainFrameSemaphore)
    (hrender : (e.Frame now1 events1).RenderThreadIteration minimized tStart tStop = some e1)
    (h1 : (Window.AggregateInput e.mouseGrabbed e.m_frameInput events1).2.mouse
      = { x := 3, y := 0 })
    (h2 : (Window.AggregateInput e1.mouseGrabbed e1.m_frameInput events2).2.mouse
      = { x := -1, y := 2 }) :
    ((t.Aggregate o).mouse = { x := t.mouse.x + o.mouse.x, y := t.mouse.y + o.mouse.y } ∧
     (t.Aggregate o).scroll = { x := t.scroll.x + o.scroll.x, y := t.scroll.y + o.scroll.y } ∧
     (t.Aggregate o).keyFlags = t.keyFlags ||| o.keyFlags ∧
     (t.Aggregate o).wantsQuit = (t.wantsQuit || o.wantsQuit) ∧
     (t.Aggregate o).wantsResize = (t.wantsResize || o.wantsResize)) ∧
    ((e.UpdateInput events1).m_frameInput
        = (Window.AggregateInput e.mouseGrabbed e.m_frameInput events1).2 ∧
     (e.UpdateInput events1).m_tickInput
        = e.m_tickInput.Aggregate (e.UpdateInput events1).m_frameInput) ∧
    ((e1.Frame now2 events2).m_tickInput.mouse = { x := 2, y := 2 } ∧
     (e1.Frame now2 events2).m_tickInput.keyFlags =
       (Window.AggregateInput e.mouseGrabbed e.m_frameInput events1).2.keyFlags |||
       (Window.AggregateInput e1.mouseGrabbed e1.m_frameInput events2).2.keyFlags) := by
  refine ⟨⟨rfl, rfl, rfl, rfl, rfl⟩, ⟨rfl, rfl⟩, ?_⟩
  obtain ⟨ht, _, _, hpos⟩ := renderIteration_fields _ _ _ _ _ hrender
  have hfirst : e1.m_tickInput =
      WindowInput.new.Aggregate (Window.AggregateInput e.mouseGrabbed e.m_frameInput events1).2 := by
    rw [ht, Engine.frame_acquired e now1 events1 hacq, Engine.frameFinish_tickInput,
      Engine.frameCollect_tickInput]
    simp [Engine.emit, hzero]
  have hsecond : (e1.Frame now2 events2).m_tickInput =
      e1.m_tickInput.Aggregate (Window.AggregateInput e1.mouseGrabbed e1.m_frameInput events2).2 := by
    rw [Engine.frame_acquired e1 now2 events2 hpos, Engine.frameFinish_tickInput,
      Engine.frameCollect_tickInput]
    simp [Engine.emit]
  rw [hsecond, hfirst]
  simp [WindowInput.Aggregate, WindowInput.new, ivec2.add, h1, h2]


/-- C2, a concrete case: with `wantsQuit` set on the sample engine, `Tick` says
stop. -/
theorem C2_quit_propagation_witness :
    ({ Engine.sample with
        m_tickInput := { WindowInput.new with wantsQuit := true } }.Tick 1 1).1 = false :=
  congrArg Prod.fst
    (C2_quit_propagation
      { Engine.sample with m_tickInput := { WindowInput.new with wantsQuit := true } } 1 1 rfl)

/-- C3, a concrete case: the armed sample engine (worker not yet done) drops the
next tick attempt. -/
theorem C3_busy_tick_dropped_witness :
    (Engine.sampleArmed.m_tickInput.wantsQuit = false ∧
      Engine.sampleArmed.m_mainTickSemaphore = 0) ∧
    (Engine.sampleArmed.Tick 2 2).1 = true :=
  have hq : Engine.sampleArmed.m_tickInput.wantsQuit = false := by
    unfold Engine.sampleArmed
    rw [Engine.tick_acquired _ 1 1 (by decide) (by decide), Engine.tickArm_eq]
    decide
  have h0 : Engine.sampleArmed.m_mainTickSemaphore = 0 := by
    unfold Engine.sampleArmed
    rw [Engine.tick_acquired _ 1 1 (by decide) (by decide), Engine.tickArm_eq]
    decide
  ⟨⟨hq, h0⟩, (C3_busy_tick_dropped Engine.sampleArmed 2 2 hq h0).1⟩

/-- C4, a concrete case: right after a frame cycle (renderer not yet done) the
next frame attempt is dropped. -/
theorem C4_busy_frame_dropped_witness :
    (Engine.sample.Frame 1 []).m_mainFrameSemaphore = 0 ∧
    (Engine.sample.Frame 1 []).Frame 2 [] =
      (Engine.sample.Frame 1 []).emit (.tryAcquire .mainFrame false) :=
  ⟨by decide, (C4_busy_frame_dropped (Engine.sample.Frame 1 []) 2 [] (by decide)).1⟩

/-- C5, a concrete case: mouse motions `(3,0)` and `(-1,2)` in two frame cycles of
the sample engine. -/
theorem C5_input_accumulation_witness :
    (Engine.sample.m_tickInput = WindowInput.new ∧ 0 < Engine.sample.m_mainFrameSemaphore) ∧
    (Engine.sampleFramed.Frame 2 [SDL_Event.mouseMotion (-1) 2]).m_tickInput.mouse
      = { x := 2, y := 2 } :=
  ⟨⟨rfl, by decide⟩,
   (C5_input_accumulation WindowInput.new WindowInput.new Engine.sample Engine.sampleFramed
      1 2 1 1 [SDL_Event.mouseMotion 3 0] [SDL_Event.mouseMotion (-1) 2] false rfl (by decide)
      rfl rfl (by decide)).2.2.1⟩

/-- On the armed sample engine, whose `tickInput` carries the `W` key flag, the
worker's unit of work ends with `tickInput.keyFlags = 2`. -/
theorem Engine.sampleArmed_unit_keyFlags :
    Engine.sampleArmed.m_tickInput.keyFlags = 2 ∧
    ∃ e1, Engine.sampleArmed.TickThreadUnit = some e1 ∧ e1.m_tickInput.keyFlags = 2 := by
  refine ⟨Engine.sampleArmed_fields.1, ?_⟩
  refine ⟨(({ Engine.sampleArmed with
      m_threadTickSemaphore := Engine.sampleArmed.m_threadTickSemaphore - 1 }.emit
    (.acquire .threadTick)).TickThreadWork).TickThreadClear, ?_, ?_⟩
  · have hpos : 0 < Engine.sampleArmed.m_threadTickSemaphore := by
      rw [Engine.sampleArmed_fields.2]; decide
    simp only [Engine.TickThreadUnit, Engine.tickThreadAcquire_pos _ hpos, Option.map_some']
  · rw [Engine.tickThreadWork_eq]
    simp [Engine.TickThreadClear, Engine.emit, WindowInput.Clear, Engine.sampleArmed_fields.1]

/-- The worker's unit of work (acquire, fan-out, `World::Tick`, clear) run on its
own from an armed tick: what `Clear()` leaves in `tickInput`. -/
theorem Engine.tickThreadUnit_tickInput (e : Engine) (h : 0 < e.m_threadTickSemaphore) :
    ∃ e1, e.TickThreadUnit = some e1 ∧
      e1.m_tickInput =
        { wantsQuit := false
          wantsResize := false
          keyFlags := e.m_tickInput.keyFlags
          mouse := { x := 0, y := 0 }
          scroll := { x := 0, y := 0 } } := by
  refine ⟨(({ e with m_threadTickSemaphore := e.m_threadTickSemaphore - 1 }.emit
    (.acquire .threadTick)).TickThreadWork).TickThreadClear, ?_, ?_⟩
  · simp only [Engine.TickThreadUnit, Engine.tickThreadAcquire_pos e h, Option.map_some']
  · rw [Engine.tickThreadWork_eq]
    simp [Engine.TickThreadClear, Engine.emit, WindowInput.Clear]

/-- C8 (minimized-window skip). A render-worker cycle that finds the window
minimized completes whenever a frame is armed; between its acquire of
`threadFrame` and the end of the cycle it performs exactly `StartRender`,
`IsMinimized`, `StopRender` and one release of `mainFrame`: no `Renderer::Begin`,
`UpdateUBO`, `Submit` or `Present`, no `World::Render`, no `UI::Render`; the
count of `mainFrame` goes up by one, so the next `Engine::Frame` acquires it. -/
theorem C8_minimized_skip (e : Engine) (tStart tStop : Rat)
    (h : 0 < e.m_threadFrameSemaphore) :
    ∃ e1, e.RenderThreadIteration true tStart tStop = some e1 ∧
      e1.log = e.log ++
        [.acquire .threadFrame, .StartRender, .windowIsMinimized, .StopRender,
          .release .mainFrame] ∧
      (∀ ev ∈ [Ev.rendererBegin, .rendererUpdateUBO, .rendererSubmit, .rendererPresent,
          .worldRender, .uiRender], ev ∉ e1.log.drop e.log.length) ∧
      (e1.log.drop e.log.length).count (.release .mainFrame) = 1 ∧
      e1.m_mainFrameSemaphore = e.m_mainFrameSemaphore + 1 ∧
      e1.FrameEnter.1 = true := by
  have hlog : ((({ e with m_threadFrameSemaphore := e.m_threadFrameSemaphore - 1 }.emit
      (.acquire .threadFrame)).RenderThreadBody true tStart tStop).RenderThreadRelease).log =
      e.log ++ [.acquire .threadFrame, .StartRender, .windowIsMinimized, .StopRender,
          .release .mainFrame] := by
    simp [Engine.RenderThreadBody, Engine.RenderThreadRelease, Engine.emit]
  refine ⟨(({ e with m_threadFrameSemaphore := e.m_threadFrameSemaphore - 1 }.emit
      (.acquire .threadFrame)).RenderThreadBody true tStart tStop).RenderThreadRelease,
    ?_, hlog, ?_, ?_, ?_, ?_⟩
  · simp only [Engine.RenderThreadIteration, Engine.renderThreadAcquire_pos e h,
      Option.map_some']
  · rw [hlog, List.drop_left]
    decide
  · rw [hlog, List.drop_left]
    decide
  · simp [Engine.RenderThreadBody, Engine.RenderThreadRelease, Engine.emit, release]
  · rw [Engine.frameEnter_acquired]
    simp [Engine.RenderThreadBody, Engine.RenderThreadRelease, Engine.emit, release]

/-- C8, a concrete case: the sample engine right after a frame cycle. -/
theorem C8_minimized_skip_witness :
    0 < (Engine.sample.Frame 1 []).m_threadFrameSemaphore ∧
    ∃ e1, (Engine.sample.Frame 1 []).RenderThreadIteration true 1 1 = some e1 ∧
      e1.m_mainFrameSemaphore = (Engine.sample.Frame 1 []).m_mainFrameSemaphore + 1 :=
  ⟨by decide,
   (C8_minimized_skip (Engine.sample.Frame 1 []) 1 1 (by decide)).imp
     fun _ h => ⟨h.1, h.2.2.2.2.1⟩⟩

/-! ## The handshake: what each block of code does to the counts and counters -/

namespace Engine

theorem countP_map_of_false (p : Ev → Bool) (f : Nat → Ev) (h : ∀ i, p (f i) = false)
    (l : List Nat) : (l.map f).countP p = 0 := by
  induction l with
  | nil => rfl
  | cons a l ih => simp [List.countP_cons, ih, h a]

@[simp] theorem countP_acquired_onFrame (n : Nat) :
    ((List.range n).map Ev.systemOnFrame).countP Ev.isTickAcquired = 0 :=
  countP_map_of_false _ _ (fun _ => rfl) _

@[simp] theorem countP_started_onFrame (n : Nat) :
    ((List.range n).map Ev.systemOnFrame).countP Ev.isTickStarted = 0 :=
  countP_map_of_false _ _ (fun _ => rfl) _

@[simp] theorem countP_acquired_onTick (n : Nat) :
    ((List.range n).map Ev.systemOnTick).countP Ev.isTickAcquired = 0 :=
  countP_map_of_false _ _ (fun _ => rfl) _

@[simp] theorem countP_started_onTick (n : Nat) :
    ((List.range n).map Ev.systemOnTick).countP Ev.isTickStarted = 0 :=
  countP_map_of_false _ _ (fun _ => rfl) _

theorem obs_tickArm (e : Engine) (a b : Rat) :
    (e.TickArm a b).obs =
      (e.m_mainTickSemaphore, e.m_threadTickSemaphore + 1, e.m_mainFrameSemaphore,
        e.m_threadFrameSemaphore, e.log.countP Ev.isTickAcquired,
        e.log.countP Ev.isTickStarted) := by
  rw [tickArm_eq]
  simp only [obs]
  split_ifs <;> simp [List.countP_append, List.countP_cons, Ev.isTickAcquired, Ev.isTickStarted]

theorem obs_frameCollect (e : Engine) (now : Rat) (events : List SDL_Event) :
    (e.FrameCollect now events).obs = e.obs := by
  simp [obs, FrameCollect, UpdateInput, emit, List.countP_append, List.countP_cons, Ev.isTickAcquired, Ev.isTickStarted]

theorem frameFinish_mainTick (e : Engine) :
    e.FrameFinish.m_mainTickSemaphore = e.m_mainTickSemaphore := by
  simp only [FrameFinish, ToggleWindow, emit, emitAll]
  split_ifs <;> rfl

theorem frameFinish_threadTick (e : Engine) :
    e.FrameFinish.m_threadTickSemaphore = e.m_threadTickSemaphore := by
  simp only [FrameFinish, ToggleWindow, emit, emitAll]
  split_ifs <;> rfl

theorem frameFinish_count_acquired (e : Engine) :
    e.FrameFinish.log.countP Ev.isTickAcquired =
      e.log.countP Ev.isTickAcquired := by
  simp only [FrameFinish, ToggleWindow, emit, emitAll]
  split_ifs <;> simp [List.countP_append, List.countP_cons, Ev.isTickAcquired, Ev.isTickStarted]

theorem frameFinish_count_started (e : Engine) :
    e.FrameFinish.log.countP Ev.isTickStarted = e.log.countP Ev.isTickStarted := by
  simp only [FrameFinish, ToggleWindow, emit, emitAll]
  split_ifs <;> simp [List.countP_append, List.countP_cons, Ev.isTickAcquired, Ev.isTickStarted]

theorem obs_frameFinish (e : Engine) :
    e.FrameFinish.obs =
      (e.m_mainTickSemaphore, e.m_threadTickSemaphore, e.m_mainFrameSemaphore,
        e.m_threadFrameSemaphore + 1, e.log.countP Ev.isTickAcquired,
        e.log.countP Ev.isTickStarted) := by
  simp only [obs, frameFinish_mainTick, frameFinish_threadTick, frameFinish_mainFrame,
    frameFinish_threadFrame, frameFinish_count_acquired, frameFinish_count_started]

theorem obs_tickThreadWork (e : Engine) : e.TickThreadWork.obs = e.obs := by
  rw [tickThreadWork_eq]
  simp only [obs]
  split_ifs <;> simp [List.countP_append, List.countP_cons, Ev.isTickAcquired, Ev.isTickStarted]

theorem obs_tickThreadClear (e : Engine) : e.TickThreadClear.obs = e.obs := by
  simp [obs, TickThreadClear, emit, List.countP_append, List.countP_cons, Ev.isTickAcquired, Ev.isTickStarted]

theorem obs_tickThreadRelease (e : Engine) :
    e.TickThreadRelease.obs =
      (e.m_mainTickSemaphore + 1, e.m_threadTickSemaphore, e.m_mainFrameSemaphore,
        e.m_threadFrameSemaphore, e.log.countP Ev.isTickAcquired,
        e.log.countP Ev.isTickStarted) := by
  simp [obs, TickThreadRelease, emit, release, List.countP_append, List.countP_cons, Ev.isTickAcquired, Ev.isTickStarted]

theorem obs_renderThreadBody (e : Engine) (m : Bool) (a b : Rat) :
    (e.RenderThreadBody m a b).obs = e.obs := by
  simp only [obs, RenderThreadBody, emit, emitAll]
  split_ifs <;> simp [List.countP_append, List.countP_cons, Ev.isTickAcquired, Ev.isTickStarted]

theorem obs_renderThreadRelease (e : Engine) :
    e.RenderThreadRelease.obs =
      (e.m_mainTickSemaphore, e.m_threadTickSemaphore, e.m_mainFrameSemaphore + 1,
        e.m_threadFrameSemaphore, e.log.countP Ev.isTickAcquired,
        e.log.countP Ev.isTickStarted) := by
  simp [obs, RenderThreadRelease, emit, release, List.countP_append, List.countP_cons, Ev.isTickAcquired, Ev.isTickStarted]

end Engine

/-! ## The handshake invariant -/

namespace Sched

theorem obs_fields (e : Engine) {a b c d x y : Nat} (h : e.obs = (a, b, c, d, x, y)) :
    e.m_mainTickSemaphore = a ∧ e.m_threadTickSemaphore = b ∧ e.m_mainFrameSemaphore = c ∧
    e.m_threadFrameSemaphore = d ∧ e.log.countP Ev.isTickAcquired = x ∧
    e.log.countP Ev.isTickStarted = y := by
  simp only [Engine.obs, Prod.mk.injEq] at h
  exact h

set_option maxHeartbeats 4000000 in
theorem inv_step (s s' : Sched) (a : Action) (hinv : s.Inv) (hstep : s.step a = some s') :
    s'.Inv := by
  rcases s with ⟨e, main, tick, render, ts, rs⟩
  cases a
  case runReleaseFrame =>
    simp only [step] at hstep
    split_ifs at hstep with h
    simp only [Option.some.injEq] at hstep
    subst hstep
    subst h
    simp [Inv, sumTick, sumFrame, tickInFlight, renderInFlight, mainHoldsTick, mainHoldsFrame, inRun, inTeardown, ticksAcquired, ticksStarted, Engine.emit, release, List.countP_append, List.countP_cons, Ev.isTickAcquired, Ev.isTickStarted] at hinv ⊢
    try omega
  case runReleaseTick =>
    simp only [step] at hstep
    split_ifs at hstep with h
    simp only [Option.some.injEq] at hstep
    subst hstep
    subst h
    simp [Inv, sumTick, sumFrame, tickInFlight, renderInFlight, mainHoldsTick, mainHoldsFrame, inRun, inTeardown, ticksAcquired, ticksStarted, Engine.emit, release, List.countP_append, List.countP_cons, Ev.isTickAcquired, Ev.isTickStarted] at hinv ⊢
    try omega
  case runTickDelta now =>
    simp only [step] at hstep
    split_ifs at hstep with h
    simp only [Option.some.injEq] at hstep
    subst hstep
    subst h
    simp [Inv, sumTick, sumFrame, tickInFlight, renderInFlight, mainHoldsTick, mainHoldsFrame, inRun, inTeardown, ticksAcquired, ticksStarted, Engine.emit, release, List.countP_append, List.countP_cons, Ev.isTickAcquired, Ev.isTickStarted] at hinv ⊢
    try omega
  case runFrameDelta now =>
    simp only [step] at hstep
    split_ifs at hstep with h
    simp only [Option.some.injEq] at hstep
    subst hstep
    subst h
    simp [Inv, sumTick, sumFrame, tickInFlight, renderInFlight, mainHoldsTick, mainHoldsFrame, inRun, inTeardown, ticksAcquired, ticksStarted, Engine.emit, release, List.countP_append, List.countP_cons, Ev.isTickAcquired, Ev.isTickStarted] at hinv ⊢
    try omega
  case tickProbe now =>
    simp only [step] at hstep
    split_ifs at hstep with h hprobe
    · subst h
      cases hq : e.m_tickInput.wantsQuit
      · rcases Nat.eq_zero_or_pos e.m_mainTickSemaphore with h0 | hpos
        · rw [Engine.tickEnter_busy e hq h0] at hstep
          simp only [Option.some.injEq] at hstep
          subst hstep
          simp [Inv, sumTick, sumFrame, tickInFlight, renderInFlight, mainHoldsTick, mainHoldsFrame, inRun, inTeardown, ticksAcquired, ticksStarted, Engine.emit, release, List.countP_append, List.countP_cons, Ev.isTickAcquired, Ev.isTickStarted, h0] at hinv ⊢
          try omega
        · rw [Engine.tickEnter_acquired e hq hpos] at hstep
          simp only [Option.some.injEq] at hstep
          subst hstep
          simp [Inv, sumTick, sumFrame, tickInFlight, renderInFlight, mainHoldsTick, mainHoldsFrame, inRun, inTeardown, ticksAcquired, ticksStarted, Engine.emit, release, List.countP_append, List.countP_cons, Ev.isTickAcquired, Ev.isTickStarted] at hinv ⊢
          omega
      · rw [Engine.tickEnter_quit e hq] at hstep
        simp only [Option.some.injEq] at hstep
        subst hstep
        simp [Inv, sumTick, sumFrame, tickInFlight, renderInFlight, mainHoldsTick, mainHoldsFrame, inRun, inTeardown, ticksAcquired, ticksStarted, Engine.emit, release, List.countP_append, List.countP_cons, Ev.isTickAcquired, Ev.isTickStarted] at hinv ⊢
        try omega
    · simp only [Option.some.injEq] at hstep
      subst hstep
      subst h
      simp [Inv, sumTick, sumFrame, tickInFlight, renderInFlight, mainHoldsTick, mainHoldsFrame, inRun, inTeardown, ticksAcquired, ticksStarted, Engine.emit, release, List.countP_append, List.countP_cons, Ev.isTickAcquired, Ev.isTickStarted] at hinv ⊢
      try omega
  case tickArm a b =>
    simp only [step] at hstep
    split_ifs at hstep with h
    simp only [Option.some.injEq] at hstep
    subst hstep
    subst h
    obtain ⟨h1, h2, h3, h4, h5, h6⟩ := obs_fields _ (Engine.obs_tickArm e a b)
    simp [Inv, sumTick, sumFrame, tickInFlight, renderInFlight, mainHoldsTick, mainHoldsFrame, inRun, inTeardown, ticksAcquired, ticksStarted, Engine.emit, release, List.countP_append, List.countP_cons, Ev.isTickAcquired, Ev.isTickStarted, h1, h2, h3, h4, h5, h6] at hinv ⊢
    try omega
  case frameProbe now =>
    simp only [step] at hstep
    split_ifs at hstep with h hprobe
    · subst h
      rcases Nat.eq_zero_or_pos e.m_mainFrameSemaphore with h0 | hpos
      · rw [Engine.frameEnter_busy e h0] at hstep
        simp only [Option.some.injEq] at hstep
        subst hstep
        simp [Inv, sumTick, sumFrame, tickInFlight, renderInFlight, mainHoldsTick, mainHoldsFrame, inRun, inTeardown, ticksAcquired, ticksStarted, Engine.emit, release, List.countP_append, List.countP_cons, Ev.isTickAcquired, Ev.isTickStarted, h0] at hinv ⊢
        try omega
      · rw [Engine.frameEnter_acquired e hpos] at hstep
        simp only [Option.some.injEq] at hstep
        subst hstep
        simp [Inv, sumTick, sumFrame, tickInFlight, renderInFlight, mainHoldsTick, mainHoldsFrame, inRun, inTeardown, ticksAcquired, ticksStarted, Engine.emit, release, List.countP_append, List.countP_cons, Ev.isTickAcquired, Ev.isTickStarted] at hinv ⊢
        omega
    · simp only [Option.some.injEq] at hstep
      subst hstep
      subst h
      simp [Inv, sumTick, sumFrame, tickInFlight, renderInFlight, mainHoldsTick, mainHoldsFrame, inRun, inTeardown, ticksAcquired, ticksStarted, Engine.emit, release, List.countP_append, List.countP_cons, Ev.isTickAcquired, Ev.isTickStarted] at hinv ⊢
      try omega
  case frameCollect now events =>
    simp only [step] at hstep
    split_ifs at hstep with h
    simp only [Option.some.injEq] at hstep
    subst hstep
    subst h
    obtain ⟨h1, h2, h3, h4, h5, h6⟩ := obs_fields _ (Engine.obs_frameCollect e now events)
    simp [Inv, sumTick, sumFrame, tickInFlight, renderInFlight, mainHoldsTick, mainHoldsFrame, inRun, inTeardown, ticksAcquired, ticksStarted, Engine.emit, release, List.countP_append, List.countP_cons, Ev.isTickAcquired, Ev.isTickStarted, h1, h2, h3, h4, h5, h6] at hinv ⊢
    try omega
  case frameFinish =>
    simp only [step] at hstep
    split_ifs at hstep with h
    simp only [Option.some.injEq] at hstep
    subst hstep
    subst h
    obtain ⟨h1, h2, h3, h4, h5, h6⟩ := obs_fields _ (Engine.obs_frameFinish e)
    simp [Inv, sumTick, sumFrame, tickInFlight, renderInFlight, mainHoldsTick, mainHoldsFrame, inRun, inTeardown, ticksAcquired, ticksStarted, Engine.emit, release, List.countP_append, List.countP_cons, Ev.isTickAcquired, Ev.isTickStarted, h1, h2, h3, h4, h5, h6] at hinv ⊢
    try omega
  case sleep =>
    simp only [step] at hstep
    split_ifs at hstep with h
    simp only [Option.some.injEq] at hstep
    subst hstep
    subst h
    simp [Inv, sumTick, sumFrame, tickInFlight, renderInFlight, mainHoldsTick, mainHoldsFrame, inRun, inTeardown, ticksAcquired, ticksStarted, Engine.emit, release, List.countP_append, List.countP_cons, Ev.isTickAcquired, Ev.isTickStarted] at hinv ⊢
    try omega
  case dtorRequestStopTick =>
    simp only [step] at hstep
    split_ifs at hstep with h
    simp only [Option.some.injEq] at hstep
    subst hstep
    subst h
    simp [Inv, sumTick, sumFrame, tickInFlight, renderInFlight, mainHoldsTick, mainHoldsFrame, inRun, inTeardown, ticksAcquired, ticksStarted, Engine.emit, release, List.countP_append, List.countP_cons, Ev.isTickAcquired, Ev.isTickStarted] at hinv ⊢
    try omega
  case dtorReleaseTick =>
    simp only [step] at hstep
    split_ifs at hstep with h
    simp only [Option.some.injEq] at hstep
    subst hstep
    subst h
    simp [Inv, sumTick, sumFrame, tickInFlight, renderInFlight, mainHoldsTick, mainHoldsFrame, inRun, inTeardown, ticksAcquired, ticksStarted, Engine.emit, release, List.countP_append, List.countP_cons, Ev.isTickAcquired, Ev.isTickStarted] at hinv ⊢
    try omega
  case dtorRequestStopRender =>
    simp only [step] at hstep
    split_ifs at hstep with h
    simp only [Option.some.injEq] at hstep
    subst hstep
    subst h
    simp [Inv, sumTick, sumFrame, tickInFlight, renderInFlight, mainHoldsTick, mainHoldsFrame, inRun, inTeardown, ticksAcquired, ticksStarted, Engine.emit, release, List.countP_append, List.countP_cons, Ev.isTickAcquired, Ev.isTickStarted] at hinv ⊢
    try omega
  case dtorReleaseFrame =>
    simp only [step] at hstep
    split_ifs at hstep with h
    simp only [Option.some.injEq] at hstep
    subst hstep
    subst h
    simp [Inv, sumTick, sumFrame, tickInFlight, renderInFlight, mainHoldsTick, mainHoldsFrame, inRun, inTeardown, ticksAcquired, ticksStarted, Engine.emit, release, List.countP_append, List.countP_cons, Ev.isTickAcquired, Ev.isTickStarted] at hinv ⊢
    try omega
  case dtorWaitForIdle =>
    simp only [step] at hstep
    split_ifs at hstep with h
    simp only [Option.some.injEq] at hstep
    subst hstep
    subst h
    simp [Inv, sumTick, sumFrame, tickInFlight, renderInFlight, mainHoldsTick, mainHoldsFrame, inRun, inTeardown, ticksAcquired, ticksStarted, Engine.emit, release, List.countP_append, List.countP_cons, Ev.isTickAcquired, Ev.isTickStarted] at hinv ⊢
    try omega
  case dtorJoinTick =>
    simp only [step] at hstep
    split_ifs at hstep with h
    obtain ⟨h, hx⟩ := h
    simp only [Option.some.injEq] at hstep
    subst hstep
    subst h
    subst hx
    simp [Inv, sumTick, sumFrame, tickInFlight, renderInFlight, mainHoldsTick, mainHoldsFrame, inRun, inTeardown, ticksAcquired, ticksStarted, Engine.emit, release, List.countP_append, List.countP_cons, Ev.isTickAcquired, Ev.isTickStarted] at hinv ⊢
  case dtorJoinRender =>
    simp only [step] at hstep
    split_ifs at hstep with h
    obtain ⟨h, hx⟩ := h
    simp only [Option.some.injEq] at hstep
    subst hstep
    subst h
    subst hx
    simp [Inv, sumTick, sumFrame, tickInFlight, renderInFlight, mainHoldsTick, mainHoldsFrame, inRun, inTeardown, ticksAcquired, ticksStarted, Engine.emit, release, List.countP_append, List.countP_cons, Ev.isTickAcquired, Ev.isTickStarted] at hinv ⊢
  case tickLoop =>
    simp only [step] at hstep
    split_ifs at hstep with h h2 <;>
      (simp only [Option.some.injEq] at hstep
       subst hstep
       subst h
       simp [Inv, sumTick, sumFrame, tickInFlight, renderInFlight, mainHoldsTick, mainHoldsFrame, inRun, inTeardown, ticksAcquired, ticksStarted, Engine.emit, release, List.countP_append, List.countP_cons, Ev.isTickAcquired, Ev.isTickStarted] at hinv ⊢
       exact hinv)
  case tickAcquire =>
    simp only [step] at hstep
    split_ifs at hstep with h
    subst h
    rcases Nat.eq_zero_or_pos e.m_threadTickSemaphore with h0 | hpos
    · simp [Engine.TickThreadAcquire, h0] at hstep
    · rw [Engine.tickThreadAcquire_pos e hpos] at hstep
      simp only [Option.map_some', Option.some.injEq] at hstep
      subst hstep
      cases main <;>
        (simp [Inv, sumTick, sumFrame, tickInFlight, renderInFlight, mainHoldsTick, mainHoldsFrame, inRun, inTeardown, ticksAcquired, ticksStarted, Engine.emit, release, List.countP_append, List.countP_cons, Ev.isTickAcquired, Ev.isTickStarted] at hinv ⊢
         try omega)
  case tickWork =>
    simp only [step] at hstep
    split_ifs at hstep with h
    simp only [Option.some.injEq] at hstep
    subst hstep
    subst h
    obtain ⟨h1, h2, h3, h4, h5, h6⟩ := obs_fields _ (Engine.obs_tickThreadWork e)
    cases main <;>
      (simp [Inv, sumTick, sumFrame, tickInFlight, renderInFlight, mainHoldsTick, mainHoldsFrame, inRun, inTeardown, ticksAcquired, ticksStarted, Engine.emit, release, List.countP_append, List.countP_cons, Ev.isTickAcquired, Ev.isTickStarted, h1, h2, h3, h4, h5, h6] at hinv ⊢
       try omega)
  case tickClear =>
    simp only [step] at hstep
    split_ifs at hstep with h
    simp only [Option.some.injEq] at hstep
    subst hstep
    subst h
    obtain ⟨h1, h2, h3, h4, h5, h6⟩ := obs_fields _ (Engine.obs_tickThreadClear e)
    cases main <;>
      (simp [Inv, sumTick, sumFrame, tickInFlight, renderInFlight, mainHoldsTick, mainHoldsFrame, inRun, inTeardown, ticksAcquired, ticksStarted, Engine.emit, release, List.countP_append, List.countP_cons, Ev.isTickAcquired, Ev.isTickStarted, h1, h2, h3, h4, h5, h6] at hinv ⊢
       try omega)
  case tickRelease =>
    simp only [step] at hstep
    split_ifs at hstep with h
    simp only [Option.some.injEq] at hstep
    subst hstep
    subst h
    obtain ⟨h1, h2, h3, h4, h5, h6⟩ := obs_fields _ (Engine.obs_tickThreadRelease e)
    cases main <;>
      (simp [Inv, sumTick, sumFrame, tickInFlight, renderInFlight, mainHoldsTick, mainHoldsFrame, inRun, inTeardown, ticksAcquired, ticksStarted, Engine.emit, release, List.countP_append, List.countP_cons, Ev.isTickAcquired, Ev.isTickStarted, h1, h2, h3, h4, h5, h6] at hinv ⊢
       try omega)
  case renderLoop =>
    simp only [step] at hstep
    split_ifs at hstep with h h2 <;>
      (simp only [Option.some.injEq] at hstep
       subst hstep
       subst h
       simp [Inv, sumTick, sumFrame, tickInFlight, renderInFlight, mainHoldsTick, mainHoldsFrame, inRun, inTeardown, ticksAcquired, ticksStarted, Engine.emit, release, List.countP_append, List.countP_cons, Ev.isTickAcquired, Ev.isTickStarted] at hinv ⊢
       exact hinv)
  case renderAcquire =>
    simp only [step] at hstep
    split_ifs at hstep with h
    subst h
    rcases Nat.eq_zero_or_pos e.m_threadFrameSemaphore with h0 | hpos
    · simp [Engine.RenderThreadAcquire, h0] at hstep
    · rw [Engine.renderThreadAcquire_pos e hpos] at hstep
      simp only [Option.map_some', Option.some.injEq] at hstep
      subst hstep
      cases main <;>
        (simp [Inv, sumTick, sumFrame, tickInFlight, renderInFlight, mainHoldsTick, mainHoldsFrame, inRun, inTeardown, ticksAcquired, ticksStarted, Engine.emit, release, List.countP_append, List.countP_cons, Ev.isTickAcquired, Ev.isTickStarted] at hinv ⊢
         try omega)
  case renderBody m a b =>
    simp only [step] at hstep
    split_ifs at hstep with h
    simp only [Option.some.injEq] at hstep
    subst hstep
    subst h
    obtain ⟨h1, h2, h3, h4, h5, h6⟩ := obs_fields _ (Engine.obs_renderThreadBody e m a b)
    cases main <;>
      (simp [Inv, sumTick, sumFrame, tickInFlight, renderInFlight, mainHoldsTick, mainHoldsFrame, inRun, inTeardown, ticksAcquired, ticksStarted, Engine.emit, release, List.countP_append, List.countP_cons, Ev.isTickAcquired, Ev.isTickStarted, h1, h2, h3, h4, h5, h6] at hinv ⊢
       try omega)
  case renderRelease =>
    simp only [step] at hstep
    split_ifs at hstep with h
    simp only [Option.some.injEq] at hstep
    subst hstep
    subst h
    obtain ⟨h1, h2, h3, h4, h5, h6⟩ := obs_fields _ (Engine.obs_renderThreadRelease e)
    cases main <;>
      (simp [Inv, sumTick, sumFrame, tickInFlight, renderInFlight, mainHoldsTick, mainHoldsFrame, inRun, inTeardown, ticksAcquired, ticksStarted, Engine.emit, release, List.countP_append, List.countP_cons, Ev.isTickAcquired, Ev.isTickStarted, h1, h2, h3, h4, h5, h6] at hinv ⊢
       try omega)

theorem inv_run (acts : List Action) :
    ∀ (s s' : Sched), s.Inv → s.run acts = some s' → s'.Inv := by
  induction acts with
  | nil =>
    intro s s' hinv hrun
    simp only [run, Option.some.injEq] at hrun
    exact hrun ▸ hinv
  | cons a rest ih =>
    intro s s' hinv hrun
    simp only [run] at hrun
    cases hstep : s.step a with
    | none => simp [hstep] at hrun
    | some s1 =>
      rw [hstep] at hrun
      exact ih s1 s' (inv_step s s1 a hinv hstep) hrun

theorem inv_start (fps : Nat) (now : Rat) (systems : Nat) (sky : Option Sky) :
    (start (Engine.constructed fps now systems sky)).Inv := by
  simp [Inv, start, Engine.constructed, sumTick, sumFrame, tickInFlight, renderInFlight,
    mainHoldsTick, mainHoldsFrame, inRun, inTeardown, ticksAcquired, ticksStarted]

theorem inv_of_reachable (s : Sched) (h : s.Reachable) : s.Inv := by
  obtain ⟨fps, now, systems, sky, acts, hrun⟩ := h
  exact inv_run acts _ _ (inv_start fps now systems sky) hrun

theorem enterTick_run :
    (start (Engine.constructed 60 0 1 none)).run enterTick = some insideTick := by
  simp [enterTick, insideTick, run, step, start, Engine.sample, Engine.constructed,
    Engine.RunPreamble, Engine.TickEnter, Engine.emit, release, try_acquire,
    Time.TimeToEngineTick, Time.TimeSinceEngineTick, Time.UpdateTickDelta,
    Time.UpdateFrameDelta, Time.TickInterval, Time.TickRate, WindowInput.Clear,
    WindowInput.new, Time.SetStart, Time.SetFrameRate, Time.initial]
  norm_num

theorem insideTick_reachable : insideTick.Reachable :=
  ⟨60, 0, 1, none, enterTick, enterTick_run⟩

end Sched

/-- C1, the claim as stated fails: after the preamble of `Run`, once
`Engine::Tick` has acquired `mainTick` (line 177) and before it releases
`threadTick` (line 193), both counts are 0 and the worker is still blocked in its
`acquire`, so the three-term sum is 0, not 1. -/
theorem C1_no_token_inside_Tick :
    (Sched.start (Engine.constructed 60 0 1 none)).run Sched.enterTick = some Sched.insideTick ∧
    Sched.insideTick.inRun = true ∧ Sched.insideTick.tick = .waiting ∧
    Sched.insideTick.eng.m_mainTickSemaphore + Sched.insideTick.eng.m_threadTickSemaphore
      + Sched.insideTick.tickInFlight = 0 ∧
    Sched.insideTick.eng.m_mainTickSemaphore + Sched.insideTick.eng.m_threadTickSemaphore
      + Sched.insideTick.tickInFlight ≠ 1 := by
  refine ⟨Sched.enterTick_run, rfl, rfl, ?_, ?_⟩ <;> decide

/-- C1 (amended). In every state reachable after the two initial releases of `Run`
and before teardown, count(mainTick) + count(threadTick) + (1 if the tick worker
is between its acquire of `threadTick` and its release of `mainTick`) + (1 if the
main thread is inside `Engine::Tick` between its `try_acquire` of `mainTick` and
its release of `threadTick`) = 1, and likewise for the frame handshake. Hence
when `Engine::Tick` is about to release `threadTick` no tick is pending or
executing, and when `Engine::Frame` is about to release `threadFrame` no frame is
pending or being rendered. -/
theorem C1_at_most_one_in_flight (s : Sched) (hreach : s.Reachable) (hrun : s.inRun = true) :
    (s.eng.m_mainTickSemaphore + s.eng.m_threadTickSemaphore + s.tickInFlight
        + s.mainHoldsTick = 1 ∧
      s.eng.m_mainFrameSemaphore + s.eng.m_threadFrameSemaphore + s.renderInFlight
        + s.mainHoldsFrame = 1) ∧
    (s.main = .tickHeld → s.eng.m_threadTickSemaphore = 0 ∧ s.tickInFlight = 0) ∧
    (s.main = .frameHeld ∨ s.main = .frameCollected →
      s.eng.m_threadFrameSemaphore = 0 ∧ s.renderInFlight = 0) := by
  have h := (Sched.inv_of_reachable s hreach).2.2.1 hrun
  simp only [Sched.sumTick, Sched.sumFrame] at h
  refine ⟨h, ?_, ?_⟩
  · intro hm
    have : s.mainHoldsTick = 1 := by simp [Sched.mainHoldsTick, hm]
    omega
  · intro hm
    have : s.mainHoldsFrame = 1 := by simp [Sched.mainHoldsFrame, hm]
    omega

/-- C1 (amended), a concrete case: the state inside `Engine::Tick`. -/
theorem C1_at_most_one_in_flight_witness :
    (Sched.insideTick.Reachable ∧ Sched.insideTick.inRun = true) ∧
    Sched.insideTick.eng.m_mainTickSemaphore + Sched.insideTick.eng.m_threadTickSemaphore
      + Sched.insideTick.tickInFlight + Sched.insideTick.mainHoldsTick = 1 :=
  ⟨⟨Sched.insideTick_reachable, rfl⟩,
   (C1_at_most_one_in_flight Sched.insideTick Sched.insideTick_reachable rfl).1.1⟩

/-! ## Drop-not-queue and delivery of input to the tick phase -/

theorem land_lor_self (a c : Nat) : a &&& (c ||| a) = a := by
  apply Nat.eq_of_testBit_eq
  intro i
  simp only [Nat.testBit_and, Nat.testBit_or]
  cases a.testBit i <;> cases c.testBit i <;> rfl

theorem land_lor_of_land (a b c : Nat) (h : a &&& b = a) : a &&& (b ||| c) = a := by
  apply Nat.eq_of_testBit_eq
  intro i
  have hi := congrArg (fun n => n.testBit i) h
  simp only [Nat.testBit_and, Nat.testBit_or] at hi ⊢
  cases ha : a.testBit i <;> cases hb : b.testBit i <;> cases hc : c.testBit i <;> simp_all

/-- What a fold of `Aggregate` over samples keeps: every request flag and key
flag of the start value and of each sample, and the sums of the deltas. -/
theorem foldl_aggregate (l : List WindowInput) :
    ∀ t : WindowInput,
      ((t.wantsQuit = true → (l.foldl WindowInput.Aggregate t).wantsQuit = true) ∧
       (t.wantsResize = true → (l.foldl WindowInput.Aggregate t).wantsResize = true) ∧
       t.keyFlags &&& (l.foldl WindowInput.Aggregate t).keyFlags = t.keyFlags) ∧
      (∀ x ∈ l,
        (x.wantsQuit = true → (l.foldl WindowInput.Aggregate t).wantsQuit = true) ∧
        (x.wantsResize = true → (l.foldl WindowInput.Aggregate t).wantsResize = true) ∧
        x.keyFlags &&& (l.foldl WindowInput.Aggregate t).keyFlags = x.keyFlags) ∧
      (l.foldl WindowInput.Aggregate t).mouse =
        { x := t.mouse.x + (l.map fun x => x.mouse.x).sum
          y := t.mouse.y + (l.map fun x => x.mouse.y).sum } ∧
      (l.foldl WindowInput.Aggregate t).scroll =
        { x := t.scroll.x + (l.map fun x => x.scroll.x).sum
          y := t.scroll.y + (l.map fun x => x.scroll.y).sum } := by
  induction l with
  | nil =>
    intro t
    simp
  | cons hd tl ih =>
    intro t
    obtain ⟨⟨hq, hr, hk⟩, hmem, hm, hs⟩ := ih (t.Aggregate hd)
    simp only [List.foldl_cons]
    refine ⟨⟨?_, ?_, ?_⟩, ?_, ?_, ?_⟩
    · intro h
      exact hq (by simp [WindowInput.Aggregate, h])
    · intro h
      exact hr (by simp [WindowInput.Aggregate, h])
    · have h1 : t.keyFlags &&& (t.Aggregate hd).keyFlags = t.keyFlags := by
        simp only [WindowInput.Aggregate]
        rw [Nat.lor_comm]
        exact land_lor_self _ _
      have h2 := hk
      apply Nat.eq_of_testBit_eq
      intro i
      have e1 := congrArg (fun n => n.testBit i) h1
      have e2 := congrArg (fun n => n.testBit i) h2
      simp only [Nat.testBit_and] at e1 e2 ⊢
      cases ha : t.keyFlags.testBit i <;>
        cases hb : (t.Aggregate hd).keyFlags.testBit i <;>
        cases hc : (List.foldl WindowInput.Aggregate (t.Aggregate hd) tl).keyFlags.testBit i <;>
        simp_all
    · intro x hx
      rcases List.mem_cons.mp hx with rfl | hx
      · refine ⟨fun h => hq (by simp [WindowInput.Aggregate, h]),
          fun h => hr (by simp [WindowInput.Aggregate, h]), ?_⟩
        have h1 : x.keyFlags &&& (t.Aggregate x).keyFlags = x.keyFlags := by
          simp only [WindowInput.Aggregate]
          exact land_lor_self _ _
        apply Nat.eq_of_testBit_eq
        intro i
        have e1 := congrArg (fun n => n.testBit i) h1
        have e2 := congrArg (fun n => n.testBit i) hk
        simp only [Nat.testBit_and] at e1 e2 ⊢
        cases ha : x.keyFlags.testBit i <;>
          cases hb : (t.Aggregate x).keyFlags.testBit i <;>
          cases hc : (List.foldl WindowInput.Aggregate (t.Aggregate x) tl).keyFlags.testBit i <;>
          simp_all
      · exact hmem x hx
    · rw [hm]
      simp [WindowInput.Aggregate, ivec2.add, add_assoc]
    · rw [hs]
      simp [WindowInput.Aggregate, ivec2.add, add_assoc]

theorem raceTrace_run :
    ((Sched.start (Engine.constructed 60 0 1 none)).run Sched.raceTrace).map
      (fun s => (s.eng.log, s.eng.m_tickInput, s.main, s.tick)) =
      some (Sched.raceLog, WindowInput.new, .frameCollected, .cleared) := by
  decide!


theorem mergesOf_append (a b : List Ev) : mergesOf (a ++ b) = mergesOf a ++ mergesOf b := by
  induction a with
  | nil => rfl
  | cons hd tl ih => cases hd <;> simp [mergesOf, ih]

theorem mergesOf_quiet (evs : List Ev) (h : evs.all Ev.isQuiet = true) :
    mergesOf evs = [] ∧ Ev.tickInputClear ∉ evs := by
  induction evs with
  | nil => exact ⟨rfl, by simp⟩
  | cons hd tl ih =>
    rw [List.all_cons, Bool.and_eq_true] at h
    obtain ⟨hm, hc⟩ := ih h.2
    have hhd := h.1
    cases hd <;> simp_all [mergesOf, Ev.isQuiet]

theorem all_quiet_onFrame (n : Nat) :
    ((List.range n).map Ev.systemOnFrame).all Ev.isQuiet = true := by
  rw [List.all_eq_true]
  intro ev hev
  obtain ⟨i, _, hi⟩ := List.mem_map.mp hev
  subst hi
  rfl

theorem all_quiet_onTick (n : Nat) :
    ((List.range n).map Ev.systemOnTick).all Ev.isQuiet = true := by
  rw [List.all_eq_true]
  intro ev hev
  obtain ⟨i, _, hi⟩ := List.mem_map.mp hev
  subst hi
  rfl

namespace Engine

theorem delivers_refl (e : Engine) : e.Delivers e :=
  ⟨[], by simp, by simp, rfl⟩

theorem delivers_trans {a b c : Engine} (h1 : a.Delivers b) (h2 : b.Delivers c) :
    a.Delivers c := by
  obtain ⟨e1, hl1, hc1, ht1⟩ := h1
  obtain ⟨e2, hl2, hc2, ht2⟩ := h2
  refine ⟨e1 ++ e2, ?_, ?_, ?_⟩
  · rw [hl2, hl1, List.append_assoc]
  · simp [hc1, hc2]
  · rw [ht2, ht1, mergesOf_append, List.foldl_append]

theorem delivers_of_quiet (e e1 : Engine) (ht : e1.m_tickInput = e.m_tickInput)
    (h : ∃ evs, e1.log = e.log ++ evs ∧ evs.all Ev.isQuiet = true) : e.Delivers e1 := by
  obtain ⟨evs, hl, hq⟩ := h
  obtain ⟨hm, hc⟩ := mergesOf_quiet evs hq
  exact ⟨evs, hl, hc, by rw [hm, ht]; rfl⟩

theorem delivers_emit (e : Engine) (ev : Ev) (h : ev.isQuiet = true) :
    e.Delivers (e.emit ev) :=
  delivers_of_quiet _ _ rfl ⟨[ev], rfl, by simp [h]⟩

theorem delivers_tickArm (e : Engine) (a b : Rat) : e.Delivers (e.TickArm a b) := by
  apply delivers_of_quiet
  · rw [tickArm_eq]
  · rw [tickArm_eq]
    simp only [List.append_assoc]
    refine ⟨_, rfl, ?_⟩
    split_ifs <;> simp [Ev.isQuiet, List.all_append, all_quiet_onFrame, all_quiet_onTick]

theorem delivers_frameCollect (e : Engine) (now : Rat) (events : List SDL_Event) :
    e.Delivers (e.FrameCollect now events) :=
  ⟨[.UpdateFrameDelta, .windowAggregateInput,
      .tickInputAggregate (Window.AggregateInput e.mouseGrabbed e.m_frameInput events).2],
    by simp [FrameCollect, UpdateInput, emit], by simp, rfl⟩

theorem delivers_frameFinish (e : Engine) : e.Delivers e.FrameFinish := by
  apply delivers_of_quiet
  · exact frameFinish_tickInput e
  · simp only [FrameFinish, ToggleWindow, emit, emitAll]
    split_ifs <;>
      (simp only [List.append_assoc]
       refine ⟨_, rfl, ?_⟩
       simp [Ev.isQuiet, List.all_append, all_quiet_onFrame, all_quiet_onTick])

theorem delivers_tickThreadWork (e : Engine) : e.Delivers e.TickThreadWork := by
  apply delivers_of_quiet
  · rw [tickThreadWork_eq]
  · rw [tickThreadWork_eq]
    simp only [List.append_assoc]
    refine ⟨_, rfl, ?_⟩
    split_ifs <;> simp [Ev.isQuiet, List.all_append, all_quiet_onFrame, all_quiet_onTick]

theorem delivers_renderThreadBody (e : Engine) (m : Bool) (a b : Rat) :
    e.Delivers (e.RenderThreadBody m a b) := by
  apply delivers_of_quiet
  · simp only [RenderThreadBody, emit, emitAll]
    split_ifs <;> rfl
  · simp only [RenderThreadBody, emit, emitAll]
    split_ifs <;>
      (simp only [List.append_assoc]
       refine ⟨_, rfl, ?_⟩
       simp [Ev.isQuiet, List.all_append, all_quiet_onFrame, all_quiet_onTick])

end Engine


namespace Sched

theorem step_delivers (s s' : Sched) (a : Action) (hstep : s.step a = some s')
    (hpc : s.tick ≠ .worked) (ha : a ≠ .tickWork) :
    s'.tick ≠ .worked ∧ s.eng.Delivers s'.eng := by
  rcases s with ⟨e, main, tick, render, ts, rs⟩
  simp only at hpc
  cases a
  case runReleaseFrame =>
    simp only [step] at hstep
    split_ifs at hstep with h
    simp only [Option.some.injEq] at hstep
    subst hstep
    exact ⟨hpc, Engine.delivers_of_quiet _ _ rfl ⟨[_], rfl, rfl⟩⟩
  case runReleaseTick =>
    simp only [step] at hstep
    split_ifs at hstep with h
    simp only [Option.some.injEq] at hstep
    subst hstep
    exact ⟨hpc, Engine.delivers_of_quiet _ _ rfl ⟨[_], rfl, rfl⟩⟩
  case runTickDelta now =>
    simp only [step] at hstep
    split_ifs at hstep with h
    simp only [Option.some.injEq] at hstep
    subst hstep
    exact ⟨hpc, Engine.delivers_of_quiet _ _ rfl ⟨[_], rfl, rfl⟩⟩
  case runFrameDelta now =>
    simp only [step] at hstep
    split_ifs at hstep with h
    simp only [Option.some.injEq] at hstep
    subst hstep
    exact ⟨hpc, Engine.delivers_of_quiet _ _ rfl ⟨[_], rfl, rfl⟩⟩
  case dtorReleaseTick =>
    simp only [step] at hstep
    split_ifs at hstep with h
    simp only [Option.some.injEq] at hstep
    subst hstep
    exact ⟨hpc, Engine.delivers_of_quiet _ _ rfl ⟨[_], rfl, rfl⟩⟩
  case dtorReleaseFrame =>
    simp only [step] at hstep
    split_ifs at hstep with h
    simp only [Option.some.injEq] at hstep
    subst hstep
    exact ⟨hpc, Engine.delivers_of_quiet _ _ rfl ⟨[_], rfl, rfl⟩⟩
  case dtorWaitForIdle =>
    simp only [step] at hstep
    split_ifs at hstep with h
    simp only [Option.some.injEq] at hstep
    subst hstep
    exact ⟨hpc, Engine.delivers_of_quiet _ _ rfl ⟨[_], rfl, rfl⟩⟩
  case sleep =>
    simp only [step] at hstep
    split_ifs at hstep with h
    simp only [Option.some.injEq] at hstep
    subst hstep
    exact ⟨hpc, Engine.delivers_refl _⟩
  case dtorRequestStopTick =>
    simp only [step] at hstep
    split_ifs at hstep with h
    simp only [Option.some.injEq] at hstep
    subst hstep
    exact ⟨hpc, Engine.delivers_refl _⟩
  case dtorJoinTick =>
    simp only [step] at hstep
    split_ifs at hstep with h
    simp only [Option.some.injEq] at hstep
    subst hstep
    exact ⟨hpc, Engine.delivers_refl _⟩
  case dtorRequestStopRender =>
    simp only [step] at hstep
    split_ifs at hstep with h
    simp only [Option.some.injEq] at hstep
    subst hstep
    exact ⟨hpc, Engine.delivers_refl _⟩
  case dtorJoinRender =>
    simp only [step] at hstep
    split_ifs at hstep with h
    simp only [Option.some.injEq] at hstep
    subst hstep
    exact ⟨hpc, Engine.delivers_refl _⟩
  case tickProbe now =>
    simp only [step] at hstep
    split_ifs at hstep with h hprobe
    · cases hq : e.m_tickInput.wantsQuit
      · rcases Nat.eq_zero_or_pos e.m_mainTickSemaphore with h0 | hpos
        · rw [Engine.tickEnter_busy e hq h0] at hstep
          simp only [Option.some.injEq] at hstep
          subst hstep
          exact ⟨hpc, Engine.delivers_of_quiet _ _ rfl ⟨[_], rfl, rfl⟩⟩
        · rw [Engine.tickEnter_acquired e hq hpos] at hstep
          simp only [Option.some.injEq] at hstep
          subst hstep
          exact ⟨hpc, Engine.delivers_of_quiet _ _ rfl ⟨[_], rfl, rfl⟩⟩
      · rw [Engine.tickEnter_quit e hq] at hstep
        simp only [Option.some.injEq] at hstep
        subst hstep
        exact ⟨hpc, Engine.delivers_refl _⟩
    · simp only [Option.some.injEq] at hstep
      subst hstep
      exact ⟨hpc, Engine.delivers_refl _⟩
  case tickArm a b =>
    simp only [step] at hstep
    split_ifs at hstep with h
    simp only [Option.some.injEq] at hstep
    subst hstep
    exact ⟨hpc, Engine.delivers_tickArm e a b⟩
  case frameProbe now =>
    simp only [step] at hstep
    split_ifs at hstep with h hprobe
    · rcases Nat.eq_zero_or_pos e.m_mainFrameSemaphore with h0 | hpos
      · rw [Engine.frameEnter_busy e h0] at hstep
        simp only [Option.some.injEq] at hstep
        subst hstep
        exact ⟨hpc, Engine.delivers_of_quiet _ _ rfl ⟨[_], rfl, rfl⟩⟩
      · rw [Engine.frameEnter_acquired e hpos] at hstep
        simp only [Option.some.injEq] at hstep
        subst hstep
        exact ⟨hpc, Engine.delivers_of_quiet _ _ rfl ⟨[_], rfl, rfl⟩⟩
    · simp only [Option.some.injEq] at hstep
      subst hstep
      exact ⟨hpc, Engine.delivers_refl _⟩
  case frameCollect now events =>
    simp only [step] at hstep
    split_ifs at hstep with h
    simp only [Option.some.injEq] at hstep
    subst hstep
    exact ⟨hpc, Engine.delivers_frameCollect e now events⟩
  case frameFinish =>
    simp only [step] at hstep
    split_ifs at hstep with h
    simp only [Option.some.injEq] at hstep
    subst hstep
    exact ⟨hpc, Engine.delivers_frameFinish e⟩
  case tickLoop =>
    simp only [step] at hstep
    split_ifs at hstep with h h2 <;>
      (simp only [Option.some.injEq] at hstep
       subst hstep
       exact ⟨by simp, Engine.delivers_refl _⟩)
  case tickAcquire =>
    simp only [step] at hstep
    split_ifs at hstep with h
    rcases Nat.eq_zero_or_pos e.m_threadTickSemaphore with h0 | hpos
    · simp [Engine.TickThreadAcquire, h0] at hstep
    · rw [Engine.tickThreadAcquire_pos e hpos] at hstep
      simp only [Option.map_some', Option.some.injEq] at hstep
      subst hstep
      exact ⟨by simp, Engine.delivers_of_quiet _ _ rfl ⟨[_], rfl, rfl⟩⟩
  case tickWork => exact absurd rfl ha
  case tickClear =>
    simp only [step] at hstep
    split_ifs at hstep with h
    exact absurd h hpc
  case tickRelease =>
    simp only [step] at hstep
    split_ifs at hstep with h
    simp only [Option.some.injEq] at hstep
    subst hstep
    exact ⟨by simp, Engine.delivers_of_quiet _ _ rfl ⟨[_], rfl, rfl⟩⟩
  case renderLoop =>
    simp only [step] at hstep
    split_ifs at hstep with h h2 <;>
      (simp only [Option.some.injEq] at hstep
       subst hstep
       exact ⟨hpc, Engine.delivers_refl _⟩)
  case renderAcquire =>
    simp only [step] at hstep
    split_ifs at hstep with h
    rcases Nat.eq_zero_or_pos e.m_threadFrameSemaphore with h0 | hpos
    · simp [Engine.RenderThreadAcquire, h0] at hstep
    · rw [Engine.renderThreadAcquire_pos e hpos] at hstep
      simp only [Option.map_some', Option.some.injEq] at hstep
      subst hstep
      exact ⟨hpc, Engine.delivers_of_quiet _ _ rfl ⟨[_], rfl, rfl⟩⟩
  case renderBody m a b =>
    simp only [step] at hstep
    split_ifs at hstep with h
    simp only [Option.some.injEq] at hstep
    subst hstep
    exact ⟨hpc, Engine.delivers_renderThreadBody e m a b⟩
  case renderRelease =>
    simp only [step] at hstep
    split_ifs at hstep with h
    simp only [Option.some.injEq] at hstep
    subst hstep
    exact ⟨hpc, Engine.delivers_of_quiet _ _ rfl ⟨[_], rfl, rfl⟩⟩

theorem run_delivers (acts : List Action) :
    ∀ (s s' : Sched), s.run acts = some s' → s.tick ≠ .worked → Action.tickWork ∉ acts →
      s'.tick ≠ .worked ∧ s.eng.Delivers s'.eng := by
  induction acts with
  | nil =>
    intro s s' hrun hpc _
    simp only [run, Option.some.injEq] at hrun
    subst hrun
    exact ⟨hpc, Engine.delivers_refl _⟩
  | cons a rest ih =>
    intro s s' hrun hpc hno
    simp only [run] at hrun
    cases hstep : s.step a with
    | none => simp [hstep] at hrun
    | some s1 =>
      rw [hstep] at hrun
      have ha : a ≠ .tickWork := fun h => hno (h ▸ List.mem_cons_self _ _)
      obtain ⟨hpc1, hd1⟩ := step_delivers s s1 a hstep hpc ha
      obtain ⟨hpc2, hd2⟩ := ih s1 s' hrun hpc1 (fun h => hno (List.mem_cons_of_mem _ h))
      exact ⟨hpc2, Engine.delivers_trans hd1 hd2⟩

end Sched

theorem raceTraceOn_run :
    ((Sched.start (Engine.constructed 60 0 1 none)).run Sched.raceTraceOn).map
      (fun s => (s.main, s.eng.m_tickInput.wantsQuit)) = some (.tickHeld, false) := by
  decide!

/-- C9 (drop-not-queue). In every state reachable before teardown the tick worker
has started at most as many work units as `Engine::Tick` calls have acquired
`mainTick`, at most one acquired tick is not yet started, and `threadTick` holds
at most one pending request; a tick attempt that finds `mainTick` at 0 moves on
to the frame phase with `threadTick`, the counter of acquired ticks and every
engine field other than the log unchanged, so it leaves nothing pending. -/
theorem C9_drop_not_queue (s : Sched) (hreach : s.Reachable) (hbefore : s.inTeardown = false) :
    (s.ticksStarted ≤ s.ticksAcquired ∧ s.ticksAcquired ≤ s.ticksStarted + 1 ∧
      s.eng.m_threadTickSemaphore ≤ 1) ∧
    (∀ (now : Rat) (s' : Sched), s.main = .loopTick → s.eng.m_tickInput.wantsQuit = false →
      s.eng.m_mainTickSemaphore = 0 → s.step (.tickProbe now) = some s' →
      s'.main = .loopFrame ∧ s'.eng.m_threadTickSemaphore = s.eng.m_threadTickSemaphore ∧
      s'.ticksAcquired = s.ticksAcquired ∧
      { s'.eng with log := s.eng.log } = s.eng) := by
  have hinv := Sched.inv_of_reachable s hreach
  obtain ⟨h0, h1, h2, h3⟩ := hinv
  have hcount := h3 hbefore
  refine ⟨?_, ?_⟩
  · rcases s with ⟨e, main, tick, render, ts, rs⟩
    cases main <;>
      simp [Sched.sumTick, Sched.sumFrame, Sched.tickInFlight, Sched.mainHoldsTick,
        Sched.inRun, Sched.inTeardown, Sched.ticksAcquired, Sched.ticksStarted] at * <;>
      omega
  · intro now s' hm hq hz hstep
    simp only [Sched.step, hm, if_true] at hstep
    rw [Engine.tickEnter_busy _ hq hz] at hstep
    split_ifs at hstep <;>
      (simp only [Option.some.injEq] at hstep
       subst hstep
       simp [Sched.ticksAcquired, Engine.emit, List.countP_append, List.countP_cons,
         Ev.isTickAcquired])

/-- C9, a concrete case: the state inside `Engine::Tick`, one tick acquired and
none started. -/
theorem C9_drop_not_queue_witness :
    (Sched.insideTick.Reachable ∧ Sched.insideTick.inTeardown = false) ∧
    (Sched.insideTick.ticksStarted ≤ Sched.insideTick.ticksAcquired ∧
      Sched.insideTick.ticksAcquired ≤ Sched.insideTick.ticksStarted + 1 ∧
      Sched.insideTick.eng.m_threadTickSemaphore ≤ 1) :=
  ⟨⟨Sched.insideTick_reachable, rfl⟩,
   (C9_drop_not_queue Sched.insideTick Sched.insideTick_reachable rfl).1⟩

/-- C10, the code at the failing input: in the schedule `raceTrace` a frame cycle
merges a mouse motion and a quit request into `tickInput` after the worker's
fan-out and `World::Tick` and before its clear; the clear erases them (the log
shows merge and clear back to back, `tickInput` is all zero afterwards), and the
next `Engine::Tick` finds `wantsQuit` false and arms a new tick instead of
stopping. -/
theorem C10_input_erased_unobserved :
    ((Sched.start (Engine.constructed 60 0 1 none)).run Sched.raceTrace).map
      (fun s => (s.eng.log, s.eng.m_tickInput, s.main, s.tick)) =
      some (Sched.raceLog, WindowInput.new, .frameCollected, .cleared) ∧
    lostMerge false Sched.raceLog = true ∧
    ((Sched.start (Engine.constructed 60 0 1 none)).run Sched.raceTraceOn).map
      (fun s => (s.main, s.eng.m_tickInput.wantsQuit)) = some (.tickHeld, false) :=
  ⟨raceTrace_run, by decide, raceTraceOn_run⟩

/-- Along any interleaving that starts with the tick worker not between its
fan-out / `World::Tick` and its clear, and in which the worker does not start a
fan-out, `tickInput` is not cleared: it is its old value with every sample
merged by a frame cycle aggregated into it. -/
theorem Sched.merged_input_kept (s s' : Sched) (acts : List Action)
    (hrun : s.run acts = some s') (hpc : s.tick ≠ .worked)
    (hno : Action.tickWork ∉ acts) :
    ∃ evs, s'.eng.log = s.eng.log ++ evs ∧ Ev.tickInputClear ∉ evs ∧
      s'.eng.m_tickInput = (mergesOf evs).foldl WindowInput.Aggregate s.eng.m_tickInput ∧
      (∀ x ∈ mergesOf evs,
        (x.wantsQuit = true → s'.eng.m_tickInput.wantsQuit = true) ∧
        (x.wantsResize = true → s'.eng.m_tickInput.wantsResize = true) ∧
        x.keyFlags &&& s'.eng.m_tickInput.keyFlags = x.keyFlags) ∧
      s'.eng.m_tickInput.mouse =
        { x := s.eng.m_tickInput.mouse.x + ((mergesOf evs).map fun x => x.mouse.x).sum
          y := s.eng.m_tickInput.mouse.y + ((mergesOf evs).map fun x => x.mouse.y).sum } ∧
      s'.eng.m_tickInput.scroll =
        { x := s.eng.m_tickInput.scroll.x + ((mergesOf evs).map fun x => x.scroll.x).sum
          y := s.eng.m_tickInput.scroll.y + ((mergesOf evs).map fun x => x.scroll.y).sum } := by
  obtain ⟨_, evs, hlog, hclear, htick⟩ := Sched.run_delivers acts s s' hrun hpc hno
  obtain ⟨_, hmem, hmouse, hscroll⟩ := foldl_aggregate (mergesOf evs) s.eng.m_tickInput
  refine ⟨evs, hlog, hclear, htick, ?_, ?_, ?_⟩
  · rw [htick]
    exact hmem
  · rw [htick]
    exact hmouse
  · rw [htick]
    exact hscroll

/-! ## Clock, reset semantics, pacing, idle workers, shutdown -/

theorem frameDeltas_eq (readings : List Rat) :
    ∀ t : Time, t.frameDeltas readings =
      List.zipWith (fun now prev => now - prev) readings (t.prevFrame :: readings) := by
  induction readings with
  | nil => intro t; rfl
  | cons now rest ih =>
    intro t
    simp only [Time.frameDeltas, List.zipWith_cons_cons]
    rw [ih]
    rfl

theorem tickDeltas_eq (readings : List Rat) :
    ∀ t : Time, t.tickDeltas readings =
      List.zipWith (fun now prev => now - prev) readings (t.prevTick :: readings) := by
  induction readings with
  | nil => intro t; rfl
  | cons now rest ih =>
    intro t
    simp only [Time.tickDeltas, List.zipWith_cons_cons]
    rw [ih]
    rfl

/-- C11 (clock deltas). `UpdateFrameDelta` stores `now - prevFrame` (old value) in
`DeltaFrame`, then `now` in `prevFrame`, and leaves every other clock field as it
was; `UpdateTickDelta` does the same on the tick fields. Fed a list of readings,
the k-th call stores the k-th reading minus the one before it (minus the initial
`prevFrame` for the first): from the initial clock the readings 0, 0.016, 0.033
give the deltas 0, 0.016, 0.017. -/
theorem C11_clock_deltas (t : Time) (now : Rat) (readings : List Rat) :
    (t.UpdateFrameDelta now =
      { t with DeltaFrame := now - t.prevFrame, prevFrame := now } ∧
     (t.UpdateFrameDelta now).DeltaFrame = now - t.prevFrame ∧
     (t.UpdateFrameDelta now).prevFrame = now ∧
     (t.UpdateFrameDelta now).prevTick = t.prevTick ∧
     (t.UpdateFrameDelta now).DeltaTick = t.DeltaTick ∧
     (t.UpdateFrameDelta now).DeltaRender = t.DeltaRender ∧
     (t.UpdateFrameDelta now).FrameInterval = t.FrameInterval ∧
     (t.UpdateFrameDelta now).startTime = t.startTime) ∧
    ((t.UpdateTickDelta now).DeltaTick = now - t.prevTick ∧
     (t.UpdateTickDelta now).prevTick = now ∧
     (t.UpdateTickDelta now).prevFrame = t.prevFrame ∧
     (t.UpdateTickDelta now).DeltaFrame = t.DeltaFrame ∧
     (t.UpdateTickDelta now).DeltaRender = t.DeltaRender ∧
     (t.UpdateTickDelta now).FrameInterval = t.FrameInterval ∧
     (t.UpdateTickDelta now).startTime = t.startTime) ∧
    (t.frameDeltas readings =
       List.zipWith (fun now prev => now - prev) readings (t.prevFrame :: readings) ∧
     t.tickDeltas readings =
       List.zipWith (fun now prev => now - prev) readings (t.prevTick :: readings)) ∧
    Time.initial.frameDeltas [0, 16 / 1000, 33 / 1000] = [0, 16 / 1000, 17 / 1000] := by
  refine ⟨⟨rfl, rfl, rfl, rfl, rfl, rfl, rfl, rfl⟩, ⟨rfl, rfl, rfl, rfl, rfl, rfl, rfl⟩,
    ⟨frameDeltas_eq readings t, tickDeltas_eq readings t⟩, ?_⟩
  rw [frameDeltas_eq]
  simp [Time.initial]
  norm_num

/-- C16 (reset semantics). A newly constructed `WindowInput` has every field zero
(it is what `Clear(true)` leaves of any record); `Clear()` with the default
argument zeroes `wantsQuit`, `wantsResize`, `mouse` and `scroll` and keeps
`keyFlags`; `Clear(true)` zeroes `keyFlags` as well. -/
theorem C16_reset_semantics (w : WindowInput) :
    (WindowInput.new.wantsQuit = false ∧ WindowInput.new.wantsResize = false ∧
     WindowInput.new.keyFlags = 0 ∧ WindowInput.new.mouse = { x := 0, y := 0 } ∧
     WindowInput.new.scroll = { x := 0, y := 0 }) ∧
    w.Clear true = WindowInput.new ∧
    ((w.Clear false).wantsQuit = false ∧ (w.Clear false).wantsResize = false ∧
     (w.Clear false).mouse = { x := 0, y := 0 } ∧ (w.Clear false).scroll = { x := 0, y := 0 } ∧
     (w.Clear false).keyFlags = w.keyFlags) ∧
    ((w.Clear true).wantsQuit = false ∧ (w.Clear true).wantsResize = false ∧
     (w.Clear true).mouse = { x := 0, y := 0 } ∧ (w.Clear true).scroll = { x := 0, y := 0 } ∧
     (w.Clear true).keyFlags = 0) :=
  ⟨⟨rfl, rfl, rfl, rfl, rfl⟩, rfl, ⟨rfl, rfl, rfl, rfl, rfl⟩, ⟨rfl, rfl, rfl, rfl, rfl⟩⟩



namespace Engine

theorem frameFinish_time (e : Engine) : e.FrameFinish.time = e.time := by
  simp only [FrameFinish, ToggleWindow, emit, emitAll]
  split_ifs <;> rfl

theorem frame_frameInterval (e : Engine) (now : Rat) (events : List SDL_Event) :
    (e.Frame now events).time.FrameInterval = e.time.FrameInterval := by
  rcases Nat.eq_zero_or_pos e.m_mainFrameSemaphore with h | h
  · simp [Frame, frameEnter_busy e h, emit]
  · rw [frame_acquired e now events h, frameFinish_time]
    rfl

theorem tick_time_frame (e : Engine) (a b : Rat) :
    (e.Tick a b).2.time.prevFrame = e.time.prevFrame ∧
    (e.Tick a b).2.time.FrameInterval = e.time.FrameInterval := by
  cases hq : e.m_tickInput.wantsQuit
  · rcases Nat.eq_zero_or_pos e.m_mainTickSemaphore with h | h
    · simp [Tick, tickEnter_busy e hq h, emit]
    · rw [tick_acquired e a b hq h, tickArm_eq]
      exact ⟨rfl, rfl⟩
  · simp [Tick, tickEnter_quit e hq]

end Engine

namespace Engine

theorem runTickPhase_some (e e2 : Engine) (a b c tt : Rat)
    (h : e.RunTickPhase a b c = some (e2, tt)) :
    tt = (if e.time.TimeToEngineTick a ≤ 0 then Time.TickInterval
      else e.time.TimeToEngineTick a) ∧
    e2.time.prevFrame = e.time.prevFrame ∧ e2.time.FrameInterval = e.time.FrameInterval := by
  simp only [RunTickPhase] at h
  split_ifs at h with hdue
  · have htime := tick_time_frame e b c
    rcases hT : e.Tick b c with ⟨r, e3⟩
    rw [hT] at h htime
    cases r
    · simp at h
    · simp only [Option.some.injEq, Prod.mk.injEq] at h
      obtain ⟨h1, h2⟩ := h
      subst h1
      exact ⟨by rw [if_pos hdue]; exact h2.symm, htime⟩
  · simp only [Option.some.injEq, Prod.mk.injEq] at h
    obtain ⟨h1, h2⟩ := h
    subst h1
    exact ⟨by rw [if_neg hdue]; exact h2.symm, rfl, rfl⟩

theorem runFramePhase_snd (e : Engine) (a b : Rat) (events : List SDL_Event) :
    (e.RunFramePhase a b events).2 =
      (if e.time.TimeToEngineFrame a ≤ 0 then e.time.FrameInterval
        else e.time.TimeToEngineFrame a) := by
  simp only [RunFramePhase]
  split_ifs
  · exact frame_frameInterval e b events
  · rfl

end Engine

/-- C20 (pacing of `Run`). In a loop iteration that does not leave the loop, with
`toTick = TickInterval` if `Tick` was called and else the positive reading of
`TimeToEngineTick`, and `toFrame` likewise, the main thread yields when
`min(toTick, toFrame) < 0.0001` and otherwise sleeps for exactly
`min(toTick, toFrame) - 0.0001` seconds; a requested sleep is never negative and,
when the probe reading is not before `prevTick`, never above
`TickInterval - 0.0001`. -/
theorem C20_pacing (e e1 : Engine) (p : Pace)
    (tProbeTick tSince tUpdate tProbeFrame tNow : Rat) (events : List SDL_Event)
    (h : e.RunIteration tProbeTick tSince tUpdate tProbeFrame tNow events = some (e1, p)) :
    (p =
      (let toTick := if e.time.TimeToEngineTick tProbeTick ≤ 0 then Time.TickInterval
          else e.time.TimeToEngineTick tProbeTick
       let toFrame := if e.time.TimeToEngineFrame tProbeFrame ≤ 0 then e.time.FrameInterval
          else e.time.TimeToEngineFrame tProbeFrame
       if min toTick toFrame < 1 / 10000 then Pace.yield
       else Pace.sleep_for (min toTick toFrame - 1 / 10000))) ∧
    (∀ d, p = .sleep_for d →
      0 ≤ d ∧ (e.time.prevTick ≤ tProbeTick → d ≤ Time.TickInterval - 1 / 10000)) ∧
    (¬ e.time.TimeToEngineTick tProbeTick ≤ 0 → 0 < e.time.TimeToEngineTick tProbeTick) := by
  simp only [Engine.RunIteration] at h
  rcases hT : e.RunTickPhase tProbeTick tSince tUpdate with _ | ⟨e2, tt⟩
  · rw [hT] at h
    simp at h
  rw [hT] at h
  simp only [Option.map_some', Option.some.injEq, Prod.mk.injEq] at h
  obtain ⟨_, hp⟩ := h
  obtain ⟨htt, hpf, hfi⟩ := Engine.runTickPhase_some e e2 _ _ _ tt hT
  have hff := Engine.runFramePhase_snd e2 tProbeFrame tNow events
  have hprobe : e2.time.TimeToEngineFrame tProbeFrame = e.time.TimeToEngineFrame tProbeFrame := by
    simp only [Time.TimeToEngineFrame, Time.TimeSinceEngineFrame, hpf, hfi]
  rw [hprobe, hfi] at hff
  have hle : e.time.prevTick ≤ tProbeTick → tt ≤ Time.TickInterval := by
    intro hmono
    rw [htt]
    split_ifs
    · exact le_refl _
    · simp only [Time.TimeToEngineTick, Time.TimeSinceEngineTick]
      linarith
  have hpace : p = if min tt (e2.RunFramePhase tProbeFrame tNow events).2 < 1 / 10000
      then Pace.yield
      else Pace.sleep_for (min tt (e2.RunFramePhase tProbeFrame tNow events).2 - 1 / 10000) := by
    rw [← hp]
    rfl
  refine ⟨?_, ?_, fun hn => lt_of_not_le hn⟩
  · rw [hpace, hff, htt]
  · intro d hd
    rw [hpace] at hd
    by_cases hlow : min tt (e2.RunFramePhase tProbeFrame tNow events).2 < 1 / 10000
    · rw [if_pos hlow] at hd
      cases hd
    · rw [if_neg hlow] at hd
      simp only [Pace.sleep_for.injEq] at hd
      subst hd
      refine ⟨by linarith [not_lt.mp hlow], ?_⟩
      intro hmono
      have h1 := hle hmono
      have h2 := min_le_left tt (e2.RunFramePhase tProbeFrame tNow events).2
      linarith


namespace Sched

theorem idle_step (s s' : Sched) (a : Action) (hinv : s.IdleInv)
    (hstep : s.step a = some s') : s'.IdleInv := by
  rcases s with ⟨e, main, tick, render, ts, rs⟩
  cases a
  case runReleaseFrame =>
    simp only [step] at hstep
    split_ifs at hstep with h
    simp only [Option.some.injEq] at hstep
    subst hstep
    simp [IdleInv, beforeLoop, Engine.emit, release, List.all_append, Ev.isPreamble] at hinv ⊢
    try simp_all
  case runReleaseTick =>
    simp only [step] at hstep
    split_ifs at hstep with h
    simp only [Option.some.injEq] at hstep
    subst hstep
    simp [IdleInv, beforeLoop, Engine.emit, release, List.all_append, Ev.isPreamble] at hinv ⊢
    try simp_all
  case runTickDelta now =>
    simp only [step] at hstep
    split_ifs at hstep with h
    simp only [Option.some.injEq] at hstep
    subst hstep
    simp [IdleInv, beforeLoop, Engine.emit, release, List.all_append, Ev.isPreamble] at hinv ⊢
    try simp_all
  case runFrameDelta now =>
    simp only [step] at hstep
    split_ifs at hstep with h
    simp only [Option.some.injEq] at hstep
    subst hstep
    simp [IdleInv, beforeLoop]
  case tickProbe now =>
    simp only [step] at hstep
    split_ifs at hstep with h hprobe
    · subst h
      rcases hT : e.TickEnter with ⟨r, e2⟩
      rw [hT] at hstep
      cases r <;>
        (simp only [Option.some.injEq] at hstep
         subst hstep
         simp [IdleInv, beforeLoop])
    · simp only [Option.some.injEq] at hstep
      subst hstep
      simp [IdleInv, beforeLoop]
  case tickArm a b =>
    simp only [step] at hstep
    split_ifs at hstep with h
    simp only [Option.some.injEq] at hstep
    subst hstep
    simp [IdleInv, beforeLoop]
  case frameProbe now =>
    simp only [step] at hstep
    split_ifs at hstep with h hprobe
    · subst h
      rcases hT : e.FrameEnter with ⟨r, e2⟩
      rw [hT] at hstep
      cases r <;>
        (simp only [Option.some.injEq] at hstep
         subst hstep
         simp [IdleInv, beforeLoop])
    · simp only [Option.some.injEq] at hstep
      subst hstep
      simp [IdleInv, beforeLoop]
  case frameCollect now events =>
    simp only [step] at hstep
    split_ifs at hstep with h
    simp only [Option.some.injEq] at hstep
    subst hstep
    simp [IdleInv, beforeLoop]
  case frameFinish =>
    simp only [step] at hstep
    split_ifs at hstep with h
    simp only [Option.some.injEq] at hstep
    subst hstep
    simp [IdleInv, beforeLoop]
  case sleep =>
    simp only [step] at hstep
    split_ifs at hstep with h
    simp only [Option.some.injEq] at hstep
    subst hstep
    simp [IdleInv, beforeLoop]
  case dtorRequestStopTick =>
    simp only [step] at hstep
    split_ifs at hstep with h
    simp only [Option.some.injEq] at hstep
    subst hstep
    simp [IdleInv, beforeLoop]
  case dtorReleaseTick =>
    simp only [step] at hstep
    split_ifs at hstep with h
    simp only [Option.some.injEq] at hstep
    subst hstep
    simp [IdleInv, beforeLoop]
  case dtorJoinTick =>
    simp only [step] at hstep
    split_ifs at hstep with h
    simp only [Option.some.injEq] at hstep
    subst hstep
    simp [IdleInv, beforeLoop]
  case dtorRequestStopRender =>
    simp only [step] at hstep
    split_ifs at hstep with h
    simp only [Option.some.injEq] at hstep
    subst hstep
    simp [IdleInv, beforeLoop]
  case dtorReleaseFrame =>
    simp only [step] at hstep
    split_ifs at hstep with h
    simp only [Option.some.injEq] at hstep
    subst hstep
    simp [IdleInv, beforeLoop]
  case dtorJoinRender =>
    simp only [step] at hstep
    split_ifs at hstep with h
    simp only [Option.some.injEq] at hstep
    subst hstep
    simp [IdleInv, beforeLoop]
  case dtorWaitForIdle =>
    simp only [step] at hstep
    split_ifs at hstep with h
    simp only [Option.some.injEq] at hstep
    subst hstep
    simp [IdleInv, beforeLoop]
  case tickLoop =>
    simp only [step] at hstep
    split_ifs at hstep with h h2 <;>
      (simp only [Option.some.injEq] at hstep
       subst hstep
       intro hb
       have hb0 : beforeLoop ⟨e, main, tick, render, ts, rs⟩ = true := hb
       obtain ⟨h1, h2, ht, hr, h5, h6, h7⟩ := hinv hb0
       simp_all)
  case renderLoop =>
    simp only [step] at hstep
    split_ifs at hstep with h h2 <;>
      (simp only [Option.some.injEq] at hstep
       subst hstep
       intro hb
       have hb0 : beforeLoop ⟨e, main, tick, render, ts, rs⟩ = true := hb
       obtain ⟨h1, h2, ht, hr, h5, h6, h7⟩ := hinv hb0
       simp_all)
  case tickAcquire =>
    simp only [step] at hstep
    split_ifs at hstep with h
    by_cases hb0 : beforeLoop ⟨e, main, tick, render, ts, rs⟩ = true
    · obtain ⟨h1, h2, _⟩ := hinv hb0
      simp only at h1 h2
      simp [Engine.TickThreadAcquire, h1, h2] at hstep
    · rcases hA : e.TickThreadAcquire with _ | e2
      · simp [hA] at hstep
      · rw [hA] at hstep
        simp only [Option.map_some', Option.some.injEq] at hstep
        subst hstep
        intro hb
        exact absurd hb hb0
  case renderAcquire =>
    simp only [step] at hstep
    split_ifs at hstep with h
    by_cases hb0 : beforeLoop ⟨e, main, tick, render, ts, rs⟩ = true
    · obtain ⟨h1, h2, _⟩ := hinv hb0
      simp only at h1 h2
      simp [Engine.RenderThreadAcquire, h1, h2] at hstep
    · rcases hA : e.RenderThreadAcquire with _ | e2
      · simp [hA] at hstep
      · rw [hA] at hstep
        simp only [Option.map_some', Option.some.injEq] at hstep
        subst hstep
        intro hb
        exact absurd hb hb0
  case tickWork =>
    simp only [step] at hstep
    split_ifs at hstep with h
    simp only [Option.some.injEq] at hstep
    subst hstep
    intro hb
    have hb0 : beforeLoop ⟨e, main, tick, render, ts, rs⟩ = true := hb
    obtain ⟨_, _, ht, hr, _⟩ := hinv hb0
    simp_all
  case tickClear =>
    simp only [step] at hstep
    split_ifs at hstep with h
    simp only [Option.some.injEq] at hstep
    subst hstep
    intro hb
    have hb0 : beforeLoop ⟨e, main, tick, render, ts, rs⟩ = true := hb
    obtain ⟨_, _, ht, hr, _⟩ := hinv hb0
    simp_all
  case tickRelease =>
    simp only [step] at hstep
    split_ifs at hstep with h
    simp only [Option.some.injEq] at hstep
    subst hstep
    intro hb
    have hb0 : beforeLoop ⟨e, main, tick, render, ts, rs⟩ = true := hb
    obtain ⟨_, _, ht, hr, _⟩ := hinv hb0
    simp_all
  case renderBody m a b =>
    simp only [step] at hstep
    split_ifs at hstep with h
    simp only [Option.some.injEq] at hstep
    subst hstep
    intro hb
    have hb0 : beforeLoop ⟨e, main, tick, render, ts, rs⟩ = true := hb
    obtain ⟨_, _, ht, hr, _⟩ := hinv hb0
    simp_all
  case renderRelease =>
    simp only [step] at hstep
    split_ifs at hstep with h
    simp only [Option.some.injEq] at hstep
    subst hstep
    intro hb
    have hb0 : beforeLoop ⟨e, main, tick, render, ts, rs⟩ = true := hb
    obtain ⟨_, _, ht, hr, _⟩ := hinv hb0
    simp_all

theorem idle_run (acts : List Action) :
    ∀ (s s' : Sched), s.IdleInv → s.run acts = some s' → s'.IdleInv := by
  induction acts with
  | nil =>
    intro s s' hinv hrun
    simp only [run, Option.some.injEq] at hrun
    exact hrun ▸ hinv
  | cons a rest ih =>
    intro s s' hinv hrun
    simp only [run] at hrun
    cases hstep : s.step a with
    | none => simp [hstep] at hrun
    | some s1 =>
      rw [hstep] at hrun
      exact ih s1 s' (idle_step s s1 a hinv hstep) hrun

theorem idle_of_reachable (s : Sched) (h : s.Reachable) : s.IdleInv := by
  obtain ⟨fps, now, systems, sky, acts, hrun⟩ := h
  refine idle_run acts _ _ ?_ hrun
  simp [IdleInv, start, Engine.constructed]

end Sched


/-- C20, a concrete case: on the sample engine at time 0 neither phase is due, and
the loop sleeps for `1/60 - 0.0001` seconds. -/
theorem C20_pacing_witness :
    Engine.sample.RunIteration 0 0 0 0 0 [] =
      some (Engine.sample, .sleep_for (1 / 60 - 1 / 10000)) ∧
    (0 : Rat) ≤ 1 / 60 - 1 / 10000 ∧ (1 / 60 - 1 / 10000 : Rat) ≤ Time.TickInterval - 1 / 10000 :=
  have htime : Engine.sample.time.TimeToEngineTick 0 = 1 / 60 ∧
      Engine.sample.time.TimeToEngineFrame 0 = 1 / 60 := by
    simp [Engine.sample, Engine.RunPreamble, Engine.constructed, Engine.emit,
      Time.TimeToEngineTick, Time.TimeSinceEngineTick, Time.TimeToEngineFrame,
      Time.TimeSinceEngineFrame, Time.UpdateTickDelta, Time.UpdateFrameDelta, Time.TickInterval,
      Time.TickRate, Time.SetStart, Time.SetFrameRate, Time.initial]
  have h : Engine.sample.RunIteration 0 0 0 0 0 [] =
      some (Engine.sample, .sleep_for (1 / 60 - 1 / 10000)) := by
    norm_num [Engine.RunIteration, Engine.RunTickPhase, Engine.RunFramePhase, htime.1, htime.2,
      Engine.pace, Engine.sleepThreshold]
  have hb := (C20_pacing Engine.sample Engine.sample _ 0 0 0 0 0 [] h).2.1 _ rfl
  ⟨h, hb.1, hb.2 (by simp [Engine.sample, Engine.RunPreamble, Engine.emit, Time.UpdateTickDelta,
    Time.UpdateFrameDelta])⟩

theorem preRunSample_reachable : Sched.preRunSample.Reachable :=
  ⟨60, 0, 1, none, [.runReleaseFrame, .tickLoop, .renderLoop], rfl⟩

/-- C17 (workers stay idle until `Run`). In every reachable state in which the
preamble of `Run` is not yet over (not both releases and both delta samples
done), `threadTick` and `threadFrame` are 0, each worker is at its loop test or
blocked in its `acquire`, which cannot succeed, and the log holds only entries of
the preamble: no `OnTick`, no `World::Tick`, no clear of `tickInput`, no renderer
call, no worker acquire. -/
theorem C17_workers_idle_until_run (s : Sched) (hreach : s.Reachable)
    (hpre : s.beforeLoop = true) :
    (s.eng.m_threadTickSemaphore = 0 ∧ s.eng.m_threadFrameSemaphore = 0) ∧
    ((s.tick = .top ∨ s.tick = .waiting) ∧ (s.render = .top ∨ s.render = .waiting)) ∧
    (s.step .tickAcquire = none ∧ s.step .renderAcquire = none) ∧
    (∀ ev ∈ s.eng.log, ev.isPreamble = true) ∧
    (∀ ev ∈ s.eng.log,
      (∀ i, ev ≠ .systemOnTick i) ∧ ev ≠ .worldTick ∧ ev ≠ .tickInputClear ∧
      ev ≠ .StartRender ∧ ev ≠ .rendererBegin ∧ ev ≠ .rendererGetUBO ∧
      ev ≠ .rendererUpdateUBO ∧ ev ≠ .worldRender ∧ ev ≠ .uiRender ∧
      ev ≠ .rendererSubmit ∧ ev ≠ .rendererPresent ∧
      ev ≠ .acquire .threadTick ∧ ev ≠ .acquire .threadFrame) := by
  obtain ⟨h1, h2, ht, hr, _, _, hlog⟩ := Sched.idle_of_reachable s hreach hpre
  have hall : ∀ ev ∈ s.eng.log, ev.isPreamble = true := List.all_eq_true.mp hlog
  refine ⟨⟨h1, h2⟩, ⟨ht, hr⟩, ⟨?_, ?_⟩, hall, ?_⟩
  · simp [Sched.step, Engine.TickThreadAcquire, h1]
  · simp [Sched.step, Engine.RenderThreadAcquire, h2]
  · intro ev hev
    have hp := hall ev hev
    refine ⟨?_, ?_, ?_, ?_, ?_, ?_, ?_, ?_, ?_, ?_, ?_, ?_, ?_⟩
    · intro i hc
      subst hc
      simp [Ev.isPreamble] at hp
    all_goals
      intro hc
      subst hc
      simp [Ev.isPreamble] at hp

/-- C17, a concrete case: `mainFrame` released, `mainTick` not yet. -/
theorem C17_workers_idle_until_run_witness :
    (Sched.preRunSample.Reachable ∧ Sched.preRunSample.beforeLoop = true) ∧
    (Sched.preRunSample.eng.m_threadTickSemaphore = 0 ∧
      Sched.preRunSample.eng.m_threadFrameSemaphore = 0) :=
  ⟨⟨preRunSample_reachable, rfl⟩,
   (C17_workers_idle_until_run Sched.preRunSample preRunSample_reachable rfl).1⟩

theorem shutdownTrace_run :
    ((Sched.start (Engine.constructed 60 0 1 none)).run Sched.shutdownTrace).map
      (fun s => (s.main, s.tickStop, s.tick, s.eng.log)) =
      some (.dtorTickReleased, true, .cleared, Sched.shutdownLog) := by
  decide!

/-- C13, the claim as stated fails: in the schedule `shutdownTrace` the destructor
requests stop and releases `threadTick` while the worker is blocked in its
`acquire`; the worker wakes and, with stop already requested, still runs the
`OnTick` fan-out, `World::Tick` and the clear of `tickInput` (last three entries
of the log). -/
theorem C13_dead_tick_after_stop :
    ((Sched.start (Engine.constructed 60 0 1 none)).run Sched.shutdownTrace).map
      (fun s => (s.main, s.tickStop, s.tick, s.eng.log)) =
      some (.dtorTickReleased, true, .cleared, Sched.shutdownLog) ∧
    Sched.shutdownLog.drop 12 =
      [.release .threadTick, .acquire .threadTick, .systemOnTick 0, .worldTick,
        .tickInputClear] :=
  ⟨shutdownTrace_run, by decide⟩

/-- C13 (amended). The stop flag is tested only at the top of the worker's loop.
A tick worker that wakes from its `acquire` with stop already requested has
`OnTick` fan-out as its only next step; it performs one full unit of work
(fan-out, `World::Tick`, clear of `tickInput`, release of `mainTick`) and leaves
its loop at the following loop test, without starting another unit. -/
theorem C13_final_unit_after_stop (s : Sched) (hw : s.tick = .waiting)
    (hstop : s.tickStop = true) (hpos : 0 < s.eng.m_threadTickSemaphore) :
    (∃ s', s.run [.tickAcquire, .tickWork, .tickClear, .tickRelease, .tickLoop] = some s' ∧
      s'.tick = .exited ∧
      s'.eng.log = s.eng.log ++ [.acquire .threadTick] ++
        (List.range s.eng.m_systems).map Ev.systemOnTick ++
        (if s.eng.m_world then [Ev.worldTick] else []) ++
        [.tickInputClear, .release .mainTick]) ∧
    (∀ (a : Action) (s1 s2 : Sched), s.step .tickAcquire = some s1 →
      a.isTickWorker = true → s1.step a = some s2 → a = .tickWork) := by
  rcases s with ⟨e, main, tick, render, ts, rs⟩
  simp only at hw hstop hpos
  subst hw
  subst hstop
  refine ⟨?_, ?_⟩
  · refine ⟨⟨((({ e with m_threadTickSemaphore := e.m_threadTickSemaphore - 1 }.emit
        (.acquire .threadTick)).TickThreadWork).TickThreadClear).TickThreadRelease,
      main, .exited, render, true, rs⟩, ?_, rfl, ?_⟩
    · simp [Sched.run, Sched.step, Engine.tickThreadAcquire_pos e hpos]
    · rw [Engine.tickThreadWork_eq]
      simp [Engine.TickThreadRelease, Engine.TickThreadClear, Engine.emit]
  · intro a s1 s2 h1 ha h2
    simp only [Sched.step, if_true, Engine.tickThreadAcquire_pos e hpos, Option.map_some',
      Option.some.injEq] at h1
    subst h1
    cases a <;> simp [Action.isTickWorker] at ha <;> simp [Sched.step] at h2 ⊢

/-- C13 (amended), a concrete case: stop requested and `threadTick` released while
the worker is blocked. -/
theorem C13_final_unit_after_stop_witness :
    (Sched.stopRequestedSample.tick = .waiting ∧ Sched.stopRequestedSample.tickStop = true ∧
      0 < Sched.stopRequestedSample.eng.m_threadTickSemaphore) ∧
    ∃ s', Sched.stopRequestedSample.run
        [.tickAcquire, .tickWork, .tickClear, .tickRelease, .tickLoop] = some s' ∧
      s'.tick = .exited :=
  ⟨⟨rfl, rfl, by decide⟩,
   (C13_final_unit_after_stop Sched.stopRequestedSample rfl rfl (by decide)).1.imp
     fun _ h => ⟨h.1, h.2.1⟩⟩

/-! ## One-shot keys, construction failures, world and physics -/

theorem Key.toNat_injective (a b : Key) (h : a.toNat = b.toNat) : a = b := by
  cases a <;> cases b <;> first | rfl | (exact absurd h (by decide))

theorem Key.toNat_lt (k : Key) : k.toNat < 64 := by
  cases k <;> decide

theorem land_two_pow_eq_iff (x n : Nat) : x &&& 2 ^ n = 2 ^ n ↔ x.testBit n = true := by
  constructor
  · intro h
    have := congrArg (fun y => y.testBit n) h
    simpa [Nat.testBit_two_pow_self] using this
  · intro h
    apply Nat.eq_of_testBit_eq
    intro i
    rw [Nat.testBit_and, Nat.testBit_two_pow]
    by_cases hi : n = i
    · subst hi
      simp [h]
    · simp [hi]

namespace WindowInput

/-- Source `HasKey` reads the bit of the key. -/
theorem hasKey_eq_testBit (w : WindowInput) (k : Key) :
    w.HasKey k = w.keyFlags.testBit k.toNat := by
  unfold HasKey KeyToFlag
  rw [Nat.one_shiftLeft]
  cases h : w.keyFlags.testBit k.toNat
  · rw [beq_eq_false_iff_ne]
    intro hc
    rw [land_two_pow_eq_iff] at hc
    rw [hc] at h
    exact Bool.noConfusion h
  · rw [beq_iff_eq, land_two_pow_eq_iff]
    exact h

theorem hasKey_keyDown (w : WindowInput) (j k : Key) :
    (w.KeyDown j).HasKey k = (w.HasKey k || decide (j = k)) := by
  rw [hasKey_eq_testBit, hasKey_eq_testBit]
  simp only [KeyDown, KeyToFlag, Nat.one_shiftLeft, Nat.testBit_or, Nat.testBit_two_pow]
  congr 1
  by_cases h : j = k
  · subst h
    simp
  · have : j.toNat ≠ k.toNat := fun hc => h (Key.toNat_injective _ _ hc)
    simp [h, this]

theorem hasKey_keyUp (w : WindowInput) (j k : Key) :
    (w.KeyUp j).HasKey k = (w.HasKey k && !decide (j = k)) := by
  rw [hasKey_eq_testBit, hasKey_eq_testBit]
  simp only [KeyUp, KeyToFlag, Nat.one_shiftLeft, Nat.testBit_and, ULLONG_MAX]
  congr 1
  have hlt : 2 ^ j.toNat < 2 ^ 64 := Nat.pow_lt_pow_right (by decide) (Key.toNat_lt j)
  have hsub : 2 ^ 64 - 1 - 2 ^ j.toNat = 2 ^ 64 - (2 ^ j.toNat + 1) := by omega
  rw [hsub, Nat.testBit_two_pow_sub_succ hlt, Nat.testBit_two_pow]
  have hk := Key.toNat_lt k
  by_cases h : j = k
  · subst h
    simp
  · have : j.toNat ≠ k.toNat := fun hc => h (Key.toNat_injective _ _ hc)
    simp [h, this, hk]

theorem hasKey_clear_true (w : WindowInput) (k : Key) : (w.Clear true).HasKey k = false := by
  rw [hasKey_eq_testBit]
  simp [Clear]

theorem hasKey_clear_false (w : WindowInput) (k : Key) :
    (w.Clear false).HasKey k = w.HasKey k := rfl

end WindowInput


namespace Engine

theorem countP_action_onFrame (key : Key) (n : Nat) :
    ((List.range n).map Ev.systemOnFrame).countP (Ev.isActionOf key) = 0 :=
  countP_map_of_false _ _ (fun _ => by cases key <;> rfl) _

theorem frameFinish_actions_grab (e : Engine) :
    e.FrameFinish.actions .KEY_MOUSE_GRAB =
      e.actions .KEY_MOUSE_GRAB + (if e.m_frameInput.HasKey .KEY_MOUSE_GRAB then 1 else 0) := by
  simp only [actions, FrameFinish, ToggleWindow, emit, emitAll]
  split_ifs <;>
    simp_all [List.countP_append, List.countP_cons, Ev.isActionOf, countP_action_onFrame,
      WindowInput.hasKey_clear_true]

theorem frameFinish_actions_debug (e : Engine) :
    e.FrameFinish.actions .KEY_WINDOW_DEBUG =
      e.actions .KEY_WINDOW_DEBUG +
        (if e.m_frameInput.HasKey .KEY_MOUSE_GRAB = false ∧
            e.m_frameInput.HasKey .KEY_WINDOW_DEBUG = true then 1 else 0) := by
  simp only [actions, FrameFinish, ToggleWindow, emit, emitAll]
  split_ifs <;>
    simp_all [List.countP_append, List.countP_cons, Ev.isActionOf, countP_action_onFrame,
      WindowInput.hasKey_clear_true]

theorem frameFinish_actions_demo (e : Engine) :
    e.FrameFinish.actions .KEY_WINDOW_DEMO =
      e.actions .KEY_WINDOW_DEMO +
        (if e.m_frameInput.HasKey .KEY_MOUSE_GRAB = false ∧
            e.m_frameInput.HasKey .KEY_WINDOW_DEMO = true then 1 else 0) := by
  simp only [actions, FrameFinish, ToggleWindow, emit, emitAll]
  split_ifs <;>
    simp_all [List.countP_append, List.countP_cons, Ev.isActionOf, countP_action_onFrame,
      WindowInput.hasKey_clear_true, WindowInput.hasKey_keyUp]

end Engine


theorem WindowInput.hasKey_congr (a b : WindowInput) (k : Key) (h : a.keyFlags = b.keyFlags) :
    a.HasKey k = b.HasKey k := by
  unfold WindowInput.HasKey
  rw [h]

/-- One pass of the loop of `Window::AggregateInput` keeps the bit of a key unset
unless the event is a key-down for that key. -/
theorem aggregateInput_cons_hasKey_false (K : Key) (ev : SDL_Event) (rest : List SDL_Event)
    (grabbed : Bool) (input : WindowInput) (h : input.HasKey K = false)
    (hev : ev.type = .SDL_KEYDOWN → ev.key ≠ K) :
    (Window.AggregateInput grabbed input (ev :: rest)).2.HasKey K = false ∨
    ∃ (g : Bool) (w : WindowInput), w.HasKey K = false ∧
      Window.AggregateInput grabbed input (ev :: rest) = Window.AggregateInput g w rest := by
  rcases ev with ⟨type, sizeChanged, key, button, xrel, yrel, capK, capM⟩
  cases type
  case SDL_QUIT =>
    left
    simp only [Window.AggregateInput, if_true]
    exact h
  case SDL_KEYDOWN =>
    right
    have hk : key ≠ K := hev rfl
    simp only [Window.AggregateInput]
    refine ⟨_, _, ?_, rfl⟩
    cases capK <;> cases capM <;> cases grabbed <;>
      simp [WindowInput.hasKey_keyDown, h, hk]
  case SDL_KEYUP =>
    right
    simp only [Window.AggregateInput]
    refine ⟨_, _, ?_, rfl⟩
    cases capK <;> cases capM <;> cases grabbed <;>
      simp [WindowInput.hasKey_keyUp, h]
  all_goals
    right
    simp only [Window.AggregateInput]
    refine ⟨_, _, ?_, rfl⟩
    cases capK <;> cases capM <;> cases grabbed <;> cases sizeChanged <;>
      (simp
       try split_ifs
       all_goals exact h)

/-- Source `Window::AggregateInput` sets the bit of a key only on a key-down event for
that key. -/
theorem aggregateInput_hasKey_false (K : Key) (events : List SDL_Event) :
    ∀ (grabbed : Bool) (input : WindowInput), input.HasKey K = false →
      (∀ ev ∈ events, ev.type = .SDL_KEYDOWN → ev.key ≠ K) →
      (Window.AggregateInput grabbed input events).2.HasKey K = false := by
  induction events with
  | nil =>
    intro grabbed input h _
    exact h
  | cons ev rest ih =>
    intro grabbed input h hev
    rcases aggregateInput_cons_hasKey_false K ev rest grabbed input h
        (hev ev (List.mem_cons_self _ _)) with hdone | ⟨g, w, hw, heq⟩
    · exact hdone
    · rw [heq]
      exact ih g w hw (fun x hx => hev x (List.mem_cons_of_mem _ hx))


namespace Engine

theorem collected_actions (e : Engine) (now : Rat) (events : List SDL_Event) (key : Key) :
    (({ e with m_mainFrameSemaphore := e.m_mainFrameSemaphore - 1 }.emit
      (.tryAcquire .mainFrame true)).FrameCollect now events).actions key = e.actions key := by
  cases key <;>
    simp [actions, FrameCollect, UpdateInput, emit, List.countP_append, List.countP_cons,
      Ev.isActionOf]

theorem frameFinish_hasKey (e : Engine) (k : Key) :
    e.FrameFinish.m_frameInput.HasKey k =
      (if e.m_frameInput.HasKey .KEY_MOUSE_GRAB then false
       else if e.m_frameInput.HasKey .KEY_WINDOW_DEBUG then
         (e.m_frameInput.HasKey k && !decide (Key.KEY_WINDOW_DEBUG = k))
       else e.m_frameInput.HasKey k) := by
  rw [frameFinish_frameInput]
  split_ifs with hg hd
  · rw [WindowInput.hasKey_eq_testBit]
    simp
  · rw [← WindowInput.hasKey_keyUp]
    exact WindowInput.hasKey_congr _ _ _ rfl
  · exact WindowInput.hasKey_congr _ _ _ rfl

end Engine

/-- C14 (amended). In a frame cycle that acquired `mainFrame`, with the flags as
they stand after input collection: the mouse-grab toggle is performed once if
`KEY_MOUSE_GRAB` is set, the debug toggle once if `KEY_WINDOW_DEBUG` is set and
`KEY_MOUSE_GRAB` is not, the demo toggle once if `KEY_WINDOW_DEMO` is set and
`KEY_MOUSE_GRAB` is not, and none of them otherwise. Handling `KEY_MOUSE_GRAB`
clears every key flag; handling `KEY_WINDOW_DEBUG` clears its own bit and no
other. For `KEY_MOUSE_GRAB` and `KEY_WINDOW_DEBUG`, a following frame cycle that
starts from the `frameInput` this one left and receives no key-down event for
the key does not perform its action again. -/
theorem C14_one_shot_keys (e : Engine) (now : Rat) (events : List SDL_Event)
    (h : 0 < e.m_mainFrameSemaphore) :
    ((e.Frame now events).actions .KEY_MOUSE_GRAB = e.actions .KEY_MOUSE_GRAB +
        (if (Window.AggregateInput e.mouseGrabbed e.m_frameInput events).2.HasKey
            .KEY_MOUSE_GRAB = true then 1 else 0) ∧
     (e.Frame now events).actions .KEY_WINDOW_DEBUG = e.actions .KEY_WINDOW_DEBUG +
        (if (Window.AggregateInput e.mouseGrabbed e.m_frameInput events).2.HasKey
              .KEY_MOUSE_GRAB = false ∧
            (Window.AggregateInput e.mouseGrabbed e.m_frameInput events).2.HasKey
              .KEY_WINDOW_DEBUG = true then 1 else 0) ∧
     (e.Frame now events).actions .KEY_WINDOW_DEMO = e.actions .KEY_WINDOW_DEMO +
        (if (Window.AggregateInput e.mouseGrabbed e.m_frameInput events).2.HasKey
              .KEY_MOUSE_GRAB = false ∧
            (Window.AggregateInput e.mouseGrabbed e.m_frameInput events).2.HasKey
              .KEY_WINDOW_DEMO = true then 1 else 0)) ∧
    ((Window.AggregateInput e.mouseGrabbed e.m_frameInput events).2.HasKey .KEY_MOUSE_GRAB = true →
      ∀ k, (e.Frame now events).m_frameInput.HasKey k = false) ∧
    ((Window.AggregateInput e.mouseGrabbed e.m_frameInput events).2.HasKey .KEY_MOUSE_GRAB = false →
      (Window.AggregateInput e.mouseGrabbed e.m_frameInput events).2.HasKey .KEY_WINDOW_DEBUG = true →
      (e.Frame now events).m_frameInput.HasKey .KEY_WINDOW_DEBUG = false ∧
      ∀ k, k ≠ .KEY_WINDOW_DEBUG → (e.Frame now events).m_frameInput.HasKey k =
        (Window.AggregateInput e.mouseGrabbed e.m_frameInput events).2.HasKey k) ∧
    (∀ (K : Key) (e2 : Engine) (now2 : Rat) (events2 : List SDL_Event),
      K = .KEY_MOUSE_GRAB ∨ K = .KEY_WINDOW_DEBUG →
      (Window.AggregateInput e.mouseGrabbed e.m_frameInput events).2.HasKey K = true →
      e2.m_frameInput = (e.Frame now events).m_frameInput → 0 < e2.m_mainFrameSemaphore →
      (∀ ev ∈ events2, ev.type = .SDL_KEYDOWN → ev.key ≠ K) →
      (e2.Frame now2 events2).actions K = e2.actions K) := by
  have hF := Engine.frame_acquired e now events h
  have hact := Engine.collected_actions e now events
  have hin := Engine.frameCollect_frameInput
    ({ e with m_mainFrameSemaphore := e.m_mainFrameSemaphore - 1 }.emit
      (.tryAcquire .mainFrame true)) now events
  have hin2 : (({ e with m_mainFrameSemaphore := e.m_mainFrameSemaphore - 1 }.emit
      (.tryAcquire .mainFrame true)).FrameCollect now events).m_frameInput =
      (Window.AggregateInput e.mouseGrabbed e.m_frameInput events).2 := hin
  refine ⟨⟨?_, ?_, ?_⟩, ?_, ?_, ?_⟩
  · rw [hF, Engine.frameFinish_actions_grab, hact, hin2]
  · rw [hF, Engine.frameFinish_actions_debug, hact, hin2]
  · rw [hF, Engine.frameFinish_actions_demo, hact, hin2]
  · intro hg k
    rw [hF, Engine.frameFinish_hasKey, hin2, hg]
    rfl
  · intro hg hd
    refine ⟨?_, ?_⟩
    · rw [hF, Engine.frameFinish_hasKey, hin2, hg, hd]
      simp
    · intro k hk
      rw [hF, Engine.frameFinish_hasKey, hin2, hg, hd]
      have : Key.KEY_WINDOW_DEBUG ≠ k := fun hc => hk hc.symm
      simp [this]
  · intro K e2 now2 events2 hK hset hsame hpos hno
    have hclear : e2.m_frameInput.HasKey K = false := by
      rw [hsame, hF, Engine.frameFinish_hasKey, hin2]
      rcases hK with rfl | rfl
      · rw [hset]
        rfl
      · cases hg : (Window.AggregateInput e.mouseGrabbed e.m_frameInput events).2.HasKey
          .KEY_MOUSE_GRAB <;> simp [hset]
    have hsample := aggregateInput_hasKey_false K events2 e2.mouseGrabbed e2.m_frameInput
      hclear hno
    have hF2 := Engine.frame_acquired e2 now2 events2 hpos
    have hact2 := Engine.collected_actions e2 now2 events2
    have hin3 : (({ e2 with m_mainFrameSemaphore := e2.m_mainFrameSemaphore - 1 }.emit
        (.tryAcquire .mainFrame true)).FrameCollect now2 events2).m_frameInput =
        (Window.AggregateInput e2.mouseGrabbed e2.m_frameInput events2).2 := rfl
    rcases hK with rfl | rfl
    · rw [hF2, Engine.frameFinish_actions_grab, hact2, hin3, hsample]
      simp
    · rw [hF2, Engine.frameFinish_actions_debug, hact2, hin3, hsample]
      simp


/-- C14, the claim as stated fails. (a) On the sample engine a frame cycle with `F3`
going down toggles the demo window and leaves the `KEY_WINDOW_DEMO` bit set (its
handler calls `Clear()` with `clearKeys = false`), so the next frame cycle, with no
event at all, toggles it again. (b) A frame cycle in which both `F1` and `F2` go
down toggles the mouse grab and then finds no flag left (that handler calls
`Clear(true)`): the debug toggle, whose flag was set after input collection, is
not performed. -/
theorem C14_demo_retriggers_grab_swallows :
    (Engine.sampleDemo.actions .KEY_WINDOW_DEMO = 1 ∧
      Engine.sampleDemo.m_frameInput.HasKey .KEY_WINDOW_DEMO = true ∧
      Engine.sampleDemoRendered.m_frameInput = Engine.sampleDemo.m_frameInput ∧
      0 < Engine.sampleDemoRendered.m_mainFrameSemaphore ∧
      (Engine.sampleDemoRendered.Frame 2 []).actions .KEY_WINDOW_DEMO = 2) ∧
    ((Window.AggregateInput Engine.sample.mouseGrabbed Engine.sample.m_frameInput
        [SDL_Event.keyDown .KEY_MOUSE_GRAB, SDL_Event.keyDown .KEY_WINDOW_DEBUG]).2.HasKey
        .KEY_WINDOW_DEBUG = true ∧
      Engine.sampleGrabDebug.actions .KEY_MOUSE_GRAB = 1 ∧
      Engine.sampleGrabDebug.actions .KEY_WINDOW_DEBUG = 0 ∧
      Engine.sampleGrabDebug.showDebug = Engine.sample.showDebug) := by
  decide

/-- C14 (amended), a concrete case: `F2` goes down in a frame cycle of the sample
engine. -/
theorem C14_one_shot_keys_witness :
    0 < Engine.sample.m_mainFrameSemaphore ∧
    (Engine.sample.Frame 1 [SDL_Event.keyDown .KEY_WINDOW_DEBUG]).actions .KEY_WINDOW_DEBUG =
      Engine.sample.actions .KEY_WINDOW_DEBUG +
        (if (Window.AggregateInput Engine.sample.mouseGrabbed Engine.sample.m_frameInput
              [SDL_Event.keyDown .KEY_WINDOW_DEBUG]).2.HasKey .KEY_MOUSE_GRAB = false ∧
            (Window.AggregateInput Engine.sample.mouseGrabbed Engine.sample.m_frameInput
              [SDL_Event.keyDown .KEY_WINDOW_DEBUG]).2.HasKey .KEY_WINDOW_DEBUG = true
          then 1 else 0) :=
  ⟨by decide,
   (C14_one_shot_keys Engine.sample 1 [SDL_Event.keyDown .KEY_WINDOW_DEBUG] (by decide)).1.2.1⟩


/-- C12, the code at the failing inputs (the four arguments are the result of
`SDL_Init`, whether `SDL_CreateWindow` returns null, the result of
`SDL_GetWindowWMInfo`, whether the renderer throws): when `SDL_Init` fails, when
`SDL_CreateWindow` returns null and when `SDL_GetWindowWMInfo` fails, the
`const char*` thrown by `Window::Window` is not caught by the handler for
`std::exception&` and propagates out of `LEGS_Init`; a `std::runtime_error` from
the renderer is caught and turned into -1. -/
theorem C12_window_failure_escapes :
    LEGS_Init ⟨-1, false, true, false⟩ = .error .const_char_ptr ∧
    LEGS_Init ⟨0, true, true, false⟩ = .error .const_char_ptr ∧
    LEGS_Init ⟨0, false, false, false⟩ = .error .const_char_ptr ∧
    LEGS_Init ⟨0, false, true, true⟩ = .ok (-1) ∧
    LEGS_Init ⟨0, false, true, false⟩ = .ok 0 :=
  ⟨rfl, rfl, rfl, rfl, rfl⟩

/-- C15, the code at the failing input: while `World::Tick` holds `m_worldMutex`
and its loop stands at position 0, an `AddEntity` from another thread is enabled
and appends to `m_entities`; and `AddEntity` is enabled in every state, locked or
not. -/
theorem C15_add_during_tick :
    World.sample.run [.tickUpdate, .tickLock, .AddEntity { id := 2, kind := .MeshEntity }] =
      some
        { m_entities := [{ id := 1, kind := .MeshEntity }, { id := 2, kind := .MeshEntity }],
          m_sky := true,
          m_worldMutex := true,
          tickAt := some (0, 1),
          calls := [.physicsUpdate, .lock, .OnSpawn { id := 2, kind := .MeshEntity }] } ∧
    (∀ (w : World) (ent : EntityPtr), ∃ w', w.step (.AddEntity ent) = some w' ∧
      w'.m_entities = w.m_entities ++ [ent] ∧ w'.m_worldMutex = w.m_worldMutex ∧
      w'.tickAt = w.tickAt) :=
  ⟨by decide, fun w ent => ⟨_, rfl, rfl, rfl, rfl⟩⟩

/-- C18, the code for every input: `SetBodyVelocity` and `SetBodyAngularVelocity`
both overwrite the body's position with the vector and leave its linear and
angular velocity as they were; each is the same function as `SetBodyPosition`. -/
theorem C18_velocity_setters_move_body (p : Physics) (id : Nat) (v : vec3) :
    (((p.SetBodyVelocity id v).body id).position = v ∧
      ((p.SetBodyVelocity id v).body id).linearVelocity = (p.body id).linearVelocity) ∧
    (((p.SetBodyAngularVelocity id v).body id).position = v ∧
      ((p.SetBodyAngularVelocity id v).body id).angularVelocity =
        (p.body id).angularVelocity) ∧
    (p.SetBodyVelocity id v = p.SetBodyPosition id v ∧
      p.SetBodyAngularVelocity id v = p.SetBodyPosition id v) ∧
    ((Physics.atRest.SetBodyVelocity 7 { x := 1, y := 2, z := 3 }).body 7).position =
      { x := 1, y := 2, z := 3 } ∧
    ((Physics.atRest.SetBodyVelocity 7 { x := 1, y := 2, z := 3 }).body 7).linearVelocity =
      { x := 0, y := 0, z := 0 } := by
  refine ⟨⟨?_, ?_⟩, ⟨?_, ?_⟩, ⟨rfl, rfl⟩, ?_, ?_⟩ <;>
    simp [Physics.SetBodyVelocity, Physics.SetBodyAngularVelocity, Physics.SetPosition,
      Physics.atRest]

/-- C19, the code for every world: `World::Render` draws the sky first when one is
set and then calls `Render` on every entity of the list, in order, mesh-capable
or not; in a world holding a mesh entity and a camera, the camera gets a `Render`
call. -/
theorem C19_render_calls_every_entity (w : World) :
    w.Render = (if w.m_sky then [WorldEv.skyRender] else []) ++ w.m_entities.map WorldEv.Render ∧
    World.Render
        { m_entities := [{ id := 1, kind := .MeshEntity }, { id := 2, kind := .Camera }],
          m_sky := true, m_worldMutex := false, tickAt := none, calls := [] } =
      [.skyRender, .Render { id := 1, kind := .MeshEntity },
        .Render { id := 2, kind := .Camera }] ∧
    EntityKind.Camera.isMeshEntity = false := by
  refine ⟨?_, by decide, rfl⟩
  simp only [World.Render, static_pointer_cast_MeshEntity]
  congr 1
  induction w.m_entities with
  | nil => rfl
  | cons hd tl ih => simp [List.filterMap_cons, ih]

/-! ## Key bits, staged sun fields, World::Tick, transforms, frame interval, sub-steps, teardown -/

theorem KeyToFlag_eq_two_pow (k : Key) : KeyToFlag k = 2 ^ k.toNat := by
  unfold KeyToFlag
  rw [Nat.one_shiftLeft]

theorem KeyToFlag_injective (a b : Key) (h : KeyToFlag a = KeyToFlag b) : a = b := by
  rw [KeyToFlag_eq_two_pow, KeyToFlag_eq_two_pow] at h
  exact Key.toNat_injective a b (Nat.pow_right_injective (le_refl 2) h)

/-- A key-down event whose scancode maps to `KEY_NONE` leaves `HasKey` of every
other key as it was. -/
theorem aggregateInput_keyDown_none (w : WindowInput) (grabbed : Bool) (a : Key)
    (ha : a ≠ .KEY_NONE) :
    (Window.AggregateInput grabbed w [SDL_Event.keyDown .KEY_NONE]).2.HasKey a = w.HasKey a := by
  have hne : ¬ (Key.KEY_NONE = a) := fun hc => ha hc.symm
  cases grabbed <;>
    simp [Window.AggregateInput, SDL_Event.keyDown, WindowInput.hasKey_keyDown, hne]

/-- C29. `KeyDown(k)` sets and `KeyUp(k)` clears the bit of `k`; for a different
key `k'` both leave `HasKey(k')` as it was, and both leave every field other than
`keyFlags` as it was; `KeyToFlag` gives the single bit `2 ^ k` and distinct keys
get distinct flags; a key-down event whose scancode `InputSettings` maps to
`KEY_NONE` (bit 0) changes `HasKey` of no other key. -/
theorem C29_key_flags_independent (w : WindowInput) (k k' : Key) (h : k ≠ k') :
    ((w.KeyDown k).HasKey k = true ∧ (w.KeyUp k).HasKey k = false) ∧
    ((w.KeyDown k).HasKey k' = w.HasKey k' ∧ (w.KeyUp k).HasKey k' = w.HasKey k') ∧
    ({ w.KeyDown k with keyFlags := w.keyFlags } = w ∧
      { w.KeyUp k with keyFlags := w.keyFlags } = w) ∧
    (KeyToFlag k = 2 ^ k.toNat ∧ KeyToFlag k' = 2 ^ k'.toNat ∧ KeyToFlag k ≠ KeyToFlag k') ∧
    (∀ (scan : SDL_Scancode) (grabbed : Bool) (a : Key),
      InputSettings.GetKeyFromSDL scan = .KEY_NONE → a ≠ .KEY_NONE →
      (Window.AggregateInput grabbed w
        [SDL_Event.keyDown (InputSettings.GetKeyFromSDL scan)]).2.HasKey a = w.HasKey a) := by
  refine ⟨⟨?_, ?_⟩, ⟨?_, ?_⟩, ⟨rfl, rfl⟩, ⟨KeyToFlag_eq_two_pow k, KeyToFlag_eq_two_pow k', ?_⟩, ?_⟩
  · simp [WindowInput.hasKey_keyDown]
  · simp [WindowInput.hasKey_keyUp]
  · simp [WindowInput.hasKey_keyDown, h]
  · simp [WindowInput.hasKey_keyUp, h]
  · exact fun hc => h (KeyToFlag_injective k k' hc)
  · intro scan grabbed a hscan ha
    rw [hscan]
    exact aggregateInput_keyDown_none w grabbed a ha

/-- C29, a concrete case: `W` and `F1` on a fresh record. -/
theorem C29_key_flags_independent_witness :
    Key.KEY_MOVE_FORWARD ≠ Key.KEY_MOUSE_GRAB ∧
    ((WindowInput.new.KeyDown .KEY_MOVE_FORWARD).HasKey .KEY_MOVE_FORWARD = true ∧
      (WindowInput.new.KeyUp .KEY_MOVE_FORWARD).HasKey .KEY_MOVE_FORWARD = false) ∧
    ((WindowInput.new.KeyDown .KEY_MOVE_FORWARD).HasKey .KEY_MOUSE_GRAB =
        WindowInput.new.HasKey .KEY_MOUSE_GRAB ∧
      (WindowInput.new.KeyUp .KEY_MOVE_FORWARD).HasKey .KEY_MOUSE_GRAB =
        WindowInput.new.HasKey .KEY_MOUSE_GRAB) :=
  ⟨by decide,
   (C29_key_flags_independent WindowInput.new .KEY_MOVE_FORWARD .KEY_MOUSE_GRAB (by decide)).1,
   (C29_key_flags_independent WindowInput.new .KEY_MOVE_FORWARD .KEY_MOUSE_GRAB (by decide)).2.1⟩

/-- C24. In a render-worker cycle on a window that is not minimized, the code up
to the call `UpdateUBO` (which is the last entry of its log) leaves in the
staging struct the sun direction and colour of the world's sky, or two zero
vectors when there is no world or no sky; what follows `UpdateUBO` does not
write them; and the staged values do not depend on what the two fields held
before the cycle. -/
theorem C24_sun_fields_defined (e : Engine) (tStart tStop : Rat) :
    e.RenderThreadBody false tStart tStop =
      (e.RenderThreadStage tStart).RenderThreadDraw tStop ∧
    (e.RenderThreadStage tStart).log.getLast? = some Ev.rendererUpdateUBO ∧
    ((e.RenderThreadStage tStart).sunDir, (e.RenderThreadStage tStart).sunColor) = e.skySun ∧
    ((e.RenderThreadBody false tStart tStop).sunDir,
      (e.RenderThreadBody false tStart tStop).sunColor) = e.skySun ∧
    (∀ d c : vec3, ({ e with sunDir := d, sunColor := c } : Engine).skySun = e.skySun) := by
  refine ⟨?_, ?_, ?_, ?_, fun _ _ => rfl⟩
  · cases hw : e.m_world <;> cases hc : e.m_camera <;> cases hs : e.sky <;>
      simp [Engine.RenderThreadBody, Engine.RenderThreadStage, Engine.RenderThreadDraw,
        Engine.emit, Engine.emitAll, hw, hc, hs]
  · cases hw : e.m_world <;> cases hc : e.m_camera <;>
      simp [Engine.RenderThreadStage, Engine.emit, Engine.emitAll, hw, hc]
  · cases hw : e.m_world <;> cases hc : e.m_camera <;> cases hs : e.sky <;>
      simp [Engine.RenderThreadStage, Engine.skySun, Engine.emit, Engine.emitAll, hw, hc, hs]
  · cases hw : e.m_world <;> cases hc : e.m_camera <;> cases hs : e.sky <;>
      simp [Engine.RenderThreadBody, Engine.skySun, Engine.emit, Engine.emitAll, hw, hc, hs]

theorem mutexAt_onTick (held : Bool) (l : List EntityPtr) (rest : List WorldEv) :
    World.mutexAt held (l.map WorldEv.OnTick ++ rest) =
      l.map (fun ent => (WorldEv.OnTick ent, held)) ++ World.mutexAt held rest := by
  induction l with
  | nil => rfl
  | cons hd tl ih => simp [World.mutexAt, ih]

/-- C21, the code for every world: `World::Tick` calls `Physics::Update` first and
takes `m_worldMutex` after it; the mutex is not held during the physics update
and is held during every `OnTick` of the fan-out. -/
theorem C21_physics_update_outside_lock (w : World) :
    w.Tick.calls =
      w.calls ++ [.physicsUpdate, .lock] ++ w.m_entities.map WorldEv.OnTick ++ [.unlock] ∧
    World.mutexAt false (w.Tick.calls.drop w.calls.length) =
      [(.physicsUpdate, false), (.lock, false)] ++
        w.m_entities.map (fun ent => (WorldEv.OnTick ent, true)) ++ [(.unlock, true)] ∧
    World.mutexAt false World.sample.Tick.calls =
      [(.physicsUpdate, false), (.lock, false),
        (.OnTick { id := 1, kind := .MeshEntity }, true), (.unlock, true)] := by
  have hcalls : w.Tick.calls =
      w.calls ++ ([.physicsUpdate, .lock] ++ (w.m_entities.map WorldEv.OnTick ++ [.unlock])) := by
    simp [World.Tick]
  refine ⟨by simp [World.Tick], ?_, by decide⟩
  rw [hcalls, List.drop_left]
  simp [World.mutexAt, mutexAt_onTick]

/-- C28, the code for every body and transform: `SetBodyTransform` followed by
`GetBodyTransform` gives back the position, and the quaternion with its `z` and
`w` components exchanged; so does `SetBodyRotation`; the `JPH::Quat` they build is
`(x, y, w, z)` where `ICollider::CreateBody` builds `(x, y, z, w)`. The identity
rotation `(0, 0, 0, 1)` reads back as `(0, 0, 1, 0)`. -/
theorem C28_rotation_round_trip_swaps (p : Physics) (id : Nat) (t t0 : STransform) (q : quat) :
    ((p.SetBodyTransform id t).GetBodyTransform id t0).position = t.position ∧
    ((p.SetBodyTransform id t).GetBodyTransform id t0).rotation_quaternion =
      { x := t.rotation_quaternion.x, y := t.rotation_quaternion.y,
        z := t.rotation_quaternion.w, w := t.rotation_quaternion.z } ∧
    ((p.SetBodyRotation id q).GetBodyTransform id t0).rotation_quaternion =
      { x := q.x, y := q.y, z := q.w, w := q.z } ∧
    ((p.SetBodyTransform id t).body id).rotation =
      JoltQuat.mk t.rotation_quaternion.x t.rotation_quaternion.y
        t.rotation_quaternion.w t.rotation_quaternion.z ∧
    ICollider.CreateBody_rotation t =
      JoltQuat.mk t.rotation_quaternion.x t.rotation_quaternion.y
        t.rotation_quaternion.z t.rotation_quaternion.w ∧
    ((Physics.atRest.SetBodyTransform 7 STransform.identity).GetBodyTransform 7
        STransform.identity).rotation_quaternion = { x := 0, y := 0, z := 1, w := 0 } := by
  refine ⟨?_, ?_, ?_, ?_, rfl, ?_⟩ <;>
    simp [Physics.SetBodyTransform, Physics.GetBodyTransform, Physics.SetBodyRotation,
      Physics.SetPositionAndRotation, Physics.SetRotation, Physics.GetPositionAndRotation,
      STransform.identity]

/-- C30, the code at the failing input: a display mode that does not specify a
refresh rate makes `GetRefreshRate` return 0; `SetFrameRate(0)` stores
`1.0 / 0` = +infinity in `FrameInterval`, so `TimeToEngineFrame() <= 0` is false
at every reading of the clock and `Run` never attempts a frame. For every other
rate the interval is the finite positive number `1 / fps` and a frame is due one
interval after the previous one. -/
theorem C30_zero_refresh_rate_never_frames (t : Time) (now : Rat) (fps : Nat) :
    Window.GetRefreshRate 0 0 0 = 0 ∧
    Time.FrameIntervalOf 0 = .inf ∧
    Time.frameDue 0 t now = false ∧
    (Time.FrameIntervalOf (fps + 1) = .finite (t.SetFrameRate (fps + 1)).FrameInterval ∧
      0 < (t.SetFrameRate (fps + 1)).FrameInterval) ∧
    Time.frameDue (fps + 1) t (t.prevFrame + 1 / ((fps : Rat) + 1)) = true := by
  refine ⟨by decide, rfl, rfl, ⟨?_, ?_⟩, ?_⟩
  · simp [Time.FrameIntervalOf, Time.SetFrameRate]
  · simp only [Time.SetFrameRate]
    positivity
  · simp [Time.frameDue, Time.TimeToEngineFrameOf, Time.FrameIntervalOf, Double.sub,
      Double.le_zero, Time.TimeSinceEngineFrame]

theorem roundHalfEven_le (x : Rat) (N : Int) (h : x ≤ N) : roundHalfEven x ≤ N := by
  have hfl : ⌊x⌋ ≤ N := Int.floor_le_iff.2 (lt_of_le_of_lt h (by exact_mod_cast Int.lt_succ N))
  have hlt : 0 < x - ⌊x⌋ → ⌊x⌋ + 1 ≤ N := by
    intro hpos
    have h1 : ((⌊x⌋ : Int) : Rat) < N := by linarith
    have h2 : ⌊x⌋ < N := by exact_mod_cast h1
    omega
  unfold roundHalfEven
  split_ifs with h1 h2 h3
  · exact hfl
  · exact hlt (by linarith)
  · exact hfl
  · exact hlt (by linarith)

theorem lt_roundHalfEven (x : Rat) (N : Int) (h : (N : Rat) + 1 / 2 < x) :
    N < roundHalfEven x := by
  have hfl : N ≤ ⌊x⌋ := Int.le_floor.2 (by linarith)
  have hx := Int.floor_le x
  unfold roundHalfEven
  split_ifs with h1 h2 h3
  · have h4 : (N : Rat) < ⌊x⌋ := by linarith
    exact_mod_cast h4
  · omega
  · have h4 : (N : Rat) < ⌊x⌋ := by linarith
    exact_mod_cast h4
  · omega

theorem roundHalfEven_intCast (n : Int) : roundHalfEven (n : Rat) = n := by
  unfold roundHalfEven
  simp

theorem Double.ulp_pos (q : Rat) : 0 < Double.ulp q := by
  unfold Double.ulp
  positivity

theorem Double.isDouble_multiple {d : Rat} (h : Double.IsDouble d) :
    ∃ a : Int, d = a * Double.ulp d := by
  unfold Double.IsDouble Double.round at h
  simp only at h
  split_ifs at h
  exact ⟨_, (Option.some.inj h).symm⟩

/-- The exponent of a positive number below `2 ^ (z + 1)` is at most `z`. -/
theorem Double.exponent_le {q : Rat} {z : Int} (h0 : 0 < q) (h : q < 2 ^ (z + 1))
    (hz : -1022 ≤ z) : Double.exponent q ≤ z := by
  unfold Double.exponent
  rw [abs_of_pos h0]
  have h1 : Int.log 2 q < z + 1 :=
    (Int.lt_zpow_iff_log_lt (by norm_num) h0).1 (by simpa using h)
  exact max_le (by omega) hz

theorem Double.exponent_ge (q : Rat) : -1022 ≤ Double.exponent q := le_max_right _ _

/-- A positive number is below twice two to its exponent. -/
theorem Double.lt_two_zpow_exponent {q : Rat} : q < 2 ^ (Double.exponent q + 1) := by
  have h1 := Int.lt_zpow_succ_log_self (b := 2) (by norm_num) |q|
  have h2 : ((2 : Nat) : Rat) ^ (Int.log 2 |q| + 1) ≤ (2 : Rat) ^ (Double.exponent q + 1) := by
    simp only [Nat.cast_ofNat]
    exact zpow_le_zpow_right₀ (by norm_num) (by unfold Double.exponent; omega)
  exact lt_of_le_of_lt (le_abs_self q) (lt_of_lt_of_le h1 h2)

theorem two_zpow_toNat_mul (z : Int) (c : Int) (h : z ≤ c) :
    ((2 : Rat) ^ (c - z).toNat) * (2 : Rat) ^ z = (2 : Rat) ^ c := by
  rw [← zpow_natCast, ← zpow_add₀ (by norm_num : (2 : Rat) ≠ 0),
    Int.toNat_of_nonneg (by omega)]
  congr 1
  omega

/-- The quotient `DeltaTick / m_maxDeltaTime` of a positive `double` up to
`2 ^ 29 * m_maxDeltaTime`, rounded to a `double`, has the ceiling of the exact
quotient. -/
theorem Physics.round_quotient (d : Rat) (hd : Double.IsDouble d) (h0 : 0 < d)
    (hmax : d ≤ 8947849) :
    ∃ x, Double.round (d / Physics.m_maxDeltaTime) = some x ∧
      ⌈x⌉ = ⌈d / Physics.m_maxDeltaTime⌉ := by
  have hm : Physics.m_maxDeltaTime = 8947849 / 536870912 := rfl
  have hmpos : 0 < Physics.m_maxDeltaTime := by rw [hm]; norm_num
  set x := d / Physics.m_maxDeltaTime with hx
  have hdx : d = x * Physics.m_maxDeltaTime := by
    rw [hx, div_mul_cancel₀ _ hmpos.ne']
  have hx0 : 0 < x := div_pos h0 hmpos
  have hx29 : x ≤ 2 ^ 29 := by
    rw [hx, div_le_iff₀ hmpos, hm]; norm_num; linarith
  set k := ⌈x⌉ with hkdef
  have hxk : x ≤ k := Int.le_ceil x
  have hjx : ((k - 1 : Int) : Rat) < x := by
    have := Int.ceil_lt_add_one x
    push_cast
    linarith
  have hk1 : 1 ≤ k := Int.one_le_ceil_iff.2 hx0
  have hk29 : (k : Rat) ≤ 2 ^ 29 := by
    have : k ≤ 2 ^ 29 := Int.ceil_le.2 (by exact_mod_cast hx29)
    exact_mod_cast this
  -- exponents
  have hE : Double.exponent x ≤ 29 :=
    Double.exponent_le hx0 (lt_of_le_of_lt hx29 (by norm_num)) (by norm_num)
  have hED : Double.exponent d ≤ 23 :=
    Double.exponent_le h0 (lt_of_le_of_lt hmax (by norm_num)) (by norm_num)
  have hEED : Double.exponent x ≤ Double.exponent d + 6 := by
    refine Double.exponent_le hx0 ?_ (by have := Double.exponent_ge d; omega)
    have h1 : d < 2 ^ (Double.exponent d + 1) := Double.lt_two_zpow_exponent
    have h2 : x < 64 * d := by
      rw [hx, div_lt_iff₀ hmpos, hm]; linarith
    have h3 : (2 : Rat) ^ (Double.exponent d + 6 + 1) = 64 * 2 ^ (Double.exponent d + 1) := by
      rw [show Double.exponent d + 6 + 1 = 6 + (Double.exponent d + 1) by ring,
        zpow_add₀ (by norm_num : (2 : Rat) ≠ 0)]
      norm_num
    rw [h3]; linarith
  -- the grid at the quotient
  have hu : 0 < Double.ulp x := Double.ulp_pos x
  have hpu : ((2 : Rat) ^ (52 - Double.exponent x).toNat) * Double.ulp x = 1 := by
    have := two_zpow_toNat_mul (Double.exponent x - 52) 0 (by omega)
    simpa [Double.ulp] using this
  have hpos2 : (0 : Rat) < (2 : Rat) ^ (52 - Double.exponent x).toNat := by positivity
  -- the grid at the dividend
  obtain ⟨a, ha⟩ := Double.isDouble_multiple hd
  have huD : 0 < Double.ulp d := Double.ulp_pos d
  have hpD : ((2 : Rat) ^ (23 - Double.exponent d).toNat) * Double.ulp d = 2 ^ (-29 : Int) := by
    have := two_zpow_toNat_mul (Double.exponent d - 52) (-29) (by omega)
    have e : (-29 - (Double.exponent d - 52)) = 23 - Double.exponent d := by ring
    rw [e] at this
    simpa [Double.ulp] using this
  have huu : Double.ulp x ≤ 64 * Double.ulp d := by
    unfold Double.ulp
    have h1 : (2 : Rat) ^ (Double.exponent x - 52) ≤ 2 ^ (Double.exponent d + 6 - 52) :=
      zpow_le_zpow_right₀ (by norm_num) (by omega)
    have h2 : (2 : Rat) ^ (Double.exponent d + 6 - 52) = 64 * 2 ^ (Double.exponent d - 52) := by
      rw [show Double.exponent d + 6 - 52 = 6 + (Double.exponent d - 52) by ring,
        zpow_add₀ (by norm_num : (2 : Rat) ≠ 0)]
      norm_num
    rw [h2] at h1; exact h1
  -- the dividend is at least one step of its grid above `(k - 1) * m`
  have hgap : Double.ulp d ≤ d - ((k - 1 : Int) : Rat) * Physics.m_maxDeltaTime := by
    have hb : ((k - 1 : Int) : Rat) * Physics.m_maxDeltaTime =
        (((k - 1) * 8947849 * 2 ^ (23 - Double.exponent d).toNat : Int) : Rat) * Double.ulp d := by
      push_cast
      rw [mul_assoc, mul_assoc, hpD, hm]
      norm_num
    have hlt : ((k - 1 : Int) : Rat) * Physics.m_maxDeltaTime < d := by
      rw [hdx]; exact mul_lt_mul_of_pos_right hjx hmpos
    rw [hb] at hlt ⊢
    have hlt2 : (((k - 1) * 8947849 * 2 ^ (23 - Double.exponent d).toNat : Int) : Rat)
        * Double.ulp d < (a : Rat) * Double.ulp d := by linarith
    have h1 : (((k - 1) * 8947849 * 2 ^ (23 - Double.exponent d).toNat : Int) : Rat) < a :=
      lt_of_mul_lt_mul_right hlt2 huD.le
    have h2 : ((k - 1) * 8947849 * 2 ^ (23 - Double.exponent d).toNat : Int) + 1 ≤ a := by
      exact_mod_cast h1
    have h3 : ((((k - 1) * 8947849 * 2 ^ (23 - Double.exponent d).toNat : Int) + 1 : Int) : Rat)
        ≤ a := by exact_mod_cast h2
    have h4 := mul_le_mul_of_nonneg_right h3 huD.le
    rw [Int.cast_add, Int.cast_one, add_mul, one_mul] at h4
    linarith
  have hhalf : ((k - 1 : Int) : Rat) + Double.ulp x / 2 < x := by
    have h1 : d - ((k - 1 : Int) : Rat) * Physics.m_maxDeltaTime =
        (x - ((k - 1 : Int) : Rat)) * Physics.m_maxDeltaTime := by rw [hdx]; ring
    rw [h1] at hgap
    have h2 : (x - ((k - 1 : Int) : Rat)) * Physics.m_maxDeltaTime ≤
        (x - ((k - 1 : Int) : Rat)) * (1 / 59) := by
      apply mul_le_mul_of_nonneg_left _ (by linarith)
      rw [hm]; norm_num
    linarith
  -- the rounded quotient
  have hupper : roundHalfEven (x / Double.ulp x) ≤ k * 2 ^ (52 - Double.exponent x).toNat := by
    apply roundHalfEven_le
    rw [div_le_iff₀ hu]
    push_cast
    rw [mul_assoc, hpu, mul_one]
    exact hxk
  have hlower : (k - 1) * 2 ^ (52 - Double.exponent x).toNat < roundHalfEven (x / Double.ulp x) := by
    apply lt_roundHalfEven
    rw [lt_div_iff₀ hu]
    push_cast
    rw [add_mul, mul_assoc, hpu, mul_one]
    push_cast at hhalf
    linarith
  set r : Rat := (roundHalfEven (x / Double.ulp x) : Rat) * Double.ulp x with hr
  have hrk : r ≤ k := by
    have h1 : ((roundHalfEven (x / Double.ulp x) : Int) : Rat) ≤
        ((k * 2 ^ (52 - Double.exponent x).toNat : Int) : Rat) := by exact_mod_cast hupper
    have h2 := mul_le_mul_of_nonneg_right h1 hu.le
    push_cast at h2
    rw [mul_assoc, hpu, mul_one] at h2
    exact h2
  have hrj : ((k - 1 : Int) : Rat) < r := by
    have h0 : (k - 1) * 2 ^ (52 - Double.exponent x).toNat + 1 ≤
        roundHalfEven (x / Double.ulp x) := hlower
    have h1 : (((k - 1) * 2 ^ (52 - Double.exponent x).toNat + 1 : Int) : Rat) ≤
        ((roundHalfEven (x / Double.ulp x) : Int) : Rat) := by exact_mod_cast h0
    have h2 := mul_le_mul_of_nonneg_right h1 hu.le
    push_cast at h2 ⊢
    rw [add_mul, mul_assoc, hpu, mul_one] at h2
    linarith
  refine ⟨r, ?_, ?_⟩
  · unfold Double.round
    simp only
    rw [if_pos]
    have hr0 : 0 < r := lt_of_le_of_lt (by exact_mod_cast (by omega : 0 ≤ k - 1)) hrj
    rw [abs_of_pos hr0]
    exact lt_of_le_of_lt (hrk.trans hk29) (by norm_num)
  · rw [Int.ceil_eq_iff]
    refine ⟨?_, hrk⟩
    push_cast at hrj
    exact hrj

theorem m_maxDeltaTime_pos : 0 < Physics.m_maxDeltaTime := by
  unfold Physics.m_maxDeltaTime
  norm_num

theorem two_pow_mul_maxDeltaTime : (2 : Rat) ^ 29 * Physics.m_maxDeltaTime = 8947849 := by
  unfold Physics.m_maxDeltaTime
  norm_num

theorem Double.round_zero : Double.round 0 = some 0 := by
  unfold Double.round
  have h : roundHalfEven (0 / Double.ulp 0) = 0 := by
    rw [zero_div]
    exact_mod_cast roundHalfEven_intCast 0
  simp only [h, Int.cast_zero, zero_mul, abs_zero]
  rw [if_pos (by positivity)]

/-- The exponent of a number between `2 ^ e` and `2 ^ (e + 1)`. -/
theorem Double.exponent_eq {q : Rat} {e : Int} (h0 : 0 < q) (h1 : 2 ^ e ≤ q)
    (h2 : q < 2 ^ (e + 1)) (he : -1022 ≤ e) : Double.exponent q = e := by
  unfold Double.exponent
  rw [abs_of_pos h0]
  have h3 : Int.log 2 q < e + 1 :=
    (Int.lt_zpow_iff_log_lt (by norm_num) h0).1 (by simpa using h2)
  have h4 : e ≤ Int.log 2 q :=
    (Int.zpow_le_iff_le_log (by norm_num) h0).1 (by simpa using h1)
  omega

/-- Rounding a positive number whose exponent is known. -/
theorem Double.round_eq {q r : Rat} {e n : Int} (h0 : 0 < q) (h1 : 2 ^ e ≤ q)
    (h2 : q < 2 ^ (e + 1)) (he : -1022 ≤ e)
    (hn : roundHalfEven (q / 2 ^ (e - 52)) = n) (hr : r = n * 2 ^ (e - 52))
    (hlt : |r| < 2 ^ 1024) : Double.round q = some r := by
  unfold Double.round Double.ulp
  rw [Double.exponent_eq h0 h1 h2 he]
  simp only [hn, ← hr]
  rw [if_pos hlt]

theorem update_steps_of_round {d x : Rat} {c : Int}
    (h : Double.round (d / Physics.m_maxDeltaTime) = some x) (hc : ⌈x⌉ = c) (h1 : 0 ≤ c)
    (h2 : c ≤ (UINT_MAX : Int)) : Physics.Update_steps d = some c.toNat := by
  unfold Physics.Update_steps
  rw [h]
  simp only [hc]
  rw [if_pos ⟨h1, h2⟩]

theorem update_steps_eq (d : Rat) (hd : Double.IsDouble d) (h0 : 0 ≤ d)
    (hmax : d ≤ 2 ^ 29 * Physics.m_maxDeltaTime) :
    Physics.Update_steps d = some ⌈d / Physics.m_maxDeltaTime⌉.toNat := by
  have hm := m_maxDeltaTime_pos
  rw [two_pow_mul_maxDeltaTime] at hmax
  have h1 : (0 : Int) ≤ ⌈d / Physics.m_maxDeltaTime⌉ := Int.ceil_nonneg (div_nonneg h0 hm.le)
  have h2 : ⌈d / Physics.m_maxDeltaTime⌉ ≤ (UINT_MAX : Int) := by
    rw [Int.ceil_le, div_le_iff₀ hm]
    have : d ≤ ((UINT_MAX : Int) : Rat) * Physics.m_maxDeltaTime := by
      refine hmax.trans ?_
      norm_num [UINT_MAX, Physics.m_maxDeltaTime]
    exact this
  rcases h0.eq_or_lt with h | hpos
  · subst h
    refine update_steps_of_round (x := 0) ?_ ?_ h1 h2
    · rw [zero_div]; exact Double.round_zero
    · rw [zero_div]
  · obtain ⟨x, hx, hc⟩ := Physics.round_quotient d hd hpos hmax
    exact update_steps_of_round hx hc h1 h2

theorem sampleLongDelta_isDouble : Double.IsDouble Physics.sampleLongDelta := by
  unfold Double.IsDouble
  have hq : Physics.sampleLongDelta = 4921316954473925 / 2 ^ 28 := rfl
  refine Double.round_eq (e := 24) (n := 4921316954473925) (by rw [hq]; norm_num)
    (by rw [hq]; norm_num) (by rw [hq]; norm_num) (by norm_num) ?_ (by rw [hq]; norm_num)
    (by rw [hq, abs_of_pos (by norm_num)]; norm_num)
  have : Physics.sampleLongDelta / 2 ^ ((24 : Int) - 52) = ((4921316954473925 : Int) : Rat) := by
    rw [hq]; norm_num
  rw [this]
  exact roundHalfEven_intCast _

theorem sampleLongDelta_steps : Physics.Update_steps Physics.sampleLongDelta = some 1100000001 := by
  have hq : Physics.sampleLongDelta / Physics.m_maxDeltaTime = 9842633908947850 / 8947849 := by
    unfold Physics.sampleLongDelta Physics.m_maxDeltaTime
    norm_num
  have hr : Double.round (Physics.sampleLongDelta / Physics.m_maxDeltaTime) = some 1100000001 := by
    rw [hq]
    refine Double.round_eq (e := 30) (n := 1100000001 * 2 ^ 22) (by norm_num) (by norm_num)
      (by norm_num) (by norm_num) ?_ (by norm_num) (by rw [abs_of_pos (by norm_num)]; norm_num)
    decide!
  exact update_steps_of_round (c := 1100000001) hr (by exact_mod_cast Int.ceil_intCast 1100000001)
    (by norm_num) (by norm_num [UINT_MAX])

/-- C22, the claim as stated fails: a tick delta equal to `m_maxDeltaTime`, the
`float` value of `1.0f / 60.0f`, lies above 1/60 s (and below 2/60 s), so the claim
asks for 2 collision steps, and the code asks for 1. And for the `double`
`0x1.17be964e605c5p+24`, which is below `UINT_MAX * m_maxDeltaTime`, the quotient
rounded to a `double` is a whole number, so the code asks for 1100000001 steps
where the ceiling of the exact quotient is 1100000002. -/
theorem C22_float_sixtieth_boundary :
    (Double.IsDouble Physics.m_maxDeltaTime ∧
      Physics.Update_steps Physics.m_maxDeltaTime = some 1 ∧
      Physics.stepsAtSixtieth Physics.m_maxDeltaTime = 2 ∧
      (1 : Rat) / 60 < Physics.m_maxDeltaTime ∧ Physics.m_maxDeltaTime ≤ 2 / 60) ∧
    (Double.IsDouble Physics.sampleLongDelta ∧
      0 ≤ Physics.sampleLongDelta ∧
      Physics.sampleLongDelta ≤ (UINT_MAX : Rat) * Physics.m_maxDeltaTime ∧
      Physics.Update_steps Physics.sampleLongDelta = some 1100000001 ∧
      ⌈Physics.sampleLongDelta / Physics.m_maxDeltaTime⌉ = 1100000002) :=
  ⟨by decide!, sampleLongDelta_isDouble, by decide!, by decide!, sampleLongDelta_steps,
    by decide!⟩

/-- C22 (amended). With `m = m_maxDeltaTime` the `float` value of `1.0f / 60.0f`
(8947849 / 2^29, a little above 1/60), and for every `double` `DeltaTick` from 0
up to `2 ^ 29 * m` (8947849 s), `Physics::Update` asks for exactly
`ceil(DeltaTick / m)` collision steps, the rounding of the quotient to a `double`
notwithstanding: 0 steps exactly for `DeltaTick = 0`, and `k + 1` steps exactly
for `k * m < DeltaTick <= (k + 1) * m`. A tick armed by `Engine::Tick` from the
loop of `Run`, with a clock that does not run backwards between the probe and
`UpdateTickDelta`, has `DeltaTick >= TickInterval` and gets at least 1 step. -/
theorem C22_substeps (d : Rat) (hd : Double.IsDouble d) (h0 : 0 ≤ d)
    (hmax : d ≤ 2 ^ 29 * Physics.m_maxDeltaTime) :
    Physics.Update_steps d = some ⌈d / Physics.m_maxDeltaTime⌉.toNat ∧
    (Physics.Update_steps d = some 0 ↔ d = 0) ∧
    (∀ k : Nat, Physics.Update_steps d = some (k + 1) ↔
      (k : Rat) * Physics.m_maxDeltaTime < d ∧ d ≤ ((k : Rat) + 1) * Physics.m_maxDeltaTime) ∧
    (∀ (e : Engine) (tProbe tSince tUpdate : Rat),
      e.time.TimeToEngineTick tProbe ≤ 0 → tProbe ≤ tUpdate →
      (e.TickArm tSince tUpdate).time.DeltaTick = d →
      Time.TickInterval ≤ d ∧ ∃ n, 1 ≤ n ∧ Physics.Update_steps d = some n) := by
  have hm := m_maxDeltaTime_pos
  have heq := update_steps_eq d hd h0 hmax
  have hc0 : (0 : Int) ≤ ⌈d / Physics.m_maxDeltaTime⌉ := Int.ceil_nonneg (div_nonneg h0 hm.le)
  refine ⟨heq, ?_, ?_, ?_⟩
  · rw [heq, Option.some.injEq, Int.toNat_eq_zero, Int.ceil_le, Int.cast_zero,
      div_le_iff₀ hm, zero_mul]
    exact ⟨fun h => le_antisymm h h0, fun h => h.le⟩
  · intro k
    rw [heq, Option.some.injEq]
    have hk : ⌈d / Physics.m_maxDeltaTime⌉.toNat = k + 1 ↔
        ⌈d / Physics.m_maxDeltaTime⌉ = ((k + 1 : Nat) : Int) := by
      constructor
      · intro h
        rw [← h, Int.toNat_of_nonneg hc0]
      · intro h
        rw [h, Int.toNat_natCast]
    rw [hk, Int.ceil_eq_iff, lt_div_iff₀ hm, div_le_iff₀ hm]
    push_cast
    constructor
    · rintro ⟨h1, h2⟩
      exact ⟨by linarith, h2⟩
    · rintro ⟨h1, h2⟩
      exact ⟨by linarith, h2⟩
  · intro e tProbe tSince tUpdate hdue hmono hd
    rw [Engine.tickArm_eq] at hd
    simp only [Time.UpdateTickDelta] at hd
    simp only [Time.TimeToEngineTick, Time.TimeSinceEngineTick] at hdue
    have hge : Time.TickInterval ≤ d := by linarith
    refine ⟨hge, ⌈d / Physics.m_maxDeltaTime⌉.toNat, ?_, heq⟩
    have hpos : 0 < d := lt_of_lt_of_le (by norm_num [Time.TickInterval, Time.TickRate]) hge
    have : 0 < ⌈d / Physics.m_maxDeltaTime⌉ := Int.ceil_pos.mpr (div_pos hpos hm)
    omega

/-- C22 (amended), a concrete case: a tick delta of 1/64 s. -/
theorem C22_substeps_witness :
    (Double.IsDouble (1 / 64) ∧ (0 : Rat) ≤ 1 / 64 ∧
      (1 : Rat) / 64 ≤ 2 ^ 29 * Physics.m_maxDeltaTime) ∧
    Physics.Update_steps (1 / 64) = some ⌈(1 / 64 : Rat) / Physics.m_maxDeltaTime⌉.toNat :=
  ⟨⟨by decide!, by norm_num, by norm_num [Physics.m_maxDeltaTime]⟩,
   (C22_substeps (1 / 64) (by decide!) (by norm_num)
      (by norm_num [Physics.m_maxDeltaTime])).1⟩

/-- Until the destructor starts, each of the four semaphore counts is 0 or 1. -/
theorem Sched.counts_le_one (s : Sched) (hreach : s.Reachable) (hbefore : s.inTeardown = false) :
    s.eng.m_mainTickSemaphore ≤ 1 ∧ s.eng.m_threadTickSemaphore ≤ 1 ∧
    s.eng.m_mainFrameSemaphore ≤ 1 ∧ s.eng.m_threadFrameSemaphore ≤ 1 := by
  have hinv := Sched.inv_of_reachable s hreach
  rcases s with ⟨e, main, tick, render, ts, rs⟩
  obtain ⟨h1, h2, h3, -⟩ := hinv
  show e.m_mainTickSemaphore ≤ 1 ∧ e.m_threadTickSemaphore ≤ 1 ∧
    e.m_mainFrameSemaphore ≤ 1 ∧ e.m_threadFrameSemaphore ≤ 1
  cases main <;> simp [Sched.inTeardown] at hbefore <;>
    simp [Sched.inRun, Sched.sumTick, Sched.sumFrame] at h1 h2 h3 <;> omega

/-- C27, the code at the failing inputs. In the ordinary shutdown `shutdownTrace`
the count of `mainTick` is 1 when the destructor wakes the blocked tick worker;
the worker's last unit of work ends with a release of `mainTick`, which takes
the count to 2. And when `Run` returns while an armed tick is still pending in
`threadTick`, the destructor's release takes the count of `threadTick` to 2. -/
theorem C27_release_beyond_one :
    ((Sched.start (Engine.constructed 60 0 1 none)).run Sched.shutdownTrace).map
        (fun s => (s.main, s.tick, s.eng.m_mainTickSemaphore)) =
      some (.dtorTickReleased, .cleared, 1) ∧
    ((Sched.start (Engine.constructed 60 0 1 none)).run Sched.teardownTrace).map
        (fun s => (s.main, s.tick, s.eng.m_mainTickSemaphore)) =
      some (.dtorTickReleased, .top, 2) ∧
    ((Sched.start (Engine.constructed 60 0 1 none)).run
        (Sched.teardownArmedTrace.take 12)).map
        (fun s => (s.main, s.tick, s.eng.m_threadTickSemaphore)) =
      some (.dtorTickStop, .top, 1) ∧
    ((Sched.start (Engine.constructed 60 0 1 none)).run Sched.teardownArmedTrace).map
        (fun s => (s.main, s.tick, s.eng.m_threadTickSemaphore)) =
      some (.dtorTickReleased, .top, 2) :=
  ⟨by decide!, by decide!, by decide!, by decide!⟩

/-! ## The tick clock under the handshake -/

theorem Engine.frameCollect_tickClock (e : Engine) (now : Rat) (events : List SDL_Event) :
    (e.FrameCollect now events).tickClock = e.tickClock := by
  simp [Engine.FrameCollect, Engine.UpdateInput, Engine.tickClock, Engine.emit,
    Time.UpdateFrameDelta]

theorem Engine.frameFinish_tickClock (e : Engine) : e.FrameFinish.tickClock = e.tickClock := by
  simp [Engine.tickClock, Engine.frameFinish_time, Engine.frameFinish_mainTick]

theorem Engine.renderThreadBody_tickClock (e : Engine) (m : Bool) (a b : Rat) :
    (e.RenderThreadBody m a b).tickClock = e.tickClock := by
  cases m <;> cases hw : e.m_world <;> cases hc : e.m_camera <;>
    simp [Engine.RenderThreadBody, Engine.tickClock, Engine.emit, Engine.emitAll,
      Time.StartRender, Time.StopRender, hw, hc]

theorem Engine.tickEnter_tickClock (e : Engine) (h : e.m_mainTickSemaphore = 0) :
    e.TickEnter.1 ≠ .acquired ∧ e.TickEnter.2.tickClock = e.tickClock := by
  cases hq : e.m_tickInput.wantsQuit
  · rw [Engine.tickEnter_busy e hq h]
    exact ⟨by simp, rfl⟩
  · rw [Engine.tickEnter_quit e hq]
    exact ⟨by simp, rfl⟩

theorem Engine.tickEnter_time (e : Engine) : e.TickEnter.2.time = e.time := by
  simp only [Engine.TickEnter]
  split_ifs
  · rfl
  · cases try_acquire e.m_mainTickSemaphore <;> rfl

theorem Engine.frameEnter_tickClock (e : Engine) : e.FrameEnter.2.tickClock = e.tickClock := by
  simp only [Engine.FrameEnter]
  cases try_acquire e.m_mainFrameSemaphore <;> rfl

theorem Engine.tickThreadAcquire_tickClock (e e2 : Engine) (h : e.TickThreadAcquire = some e2) :
    e2.tickClock = e.tickClock := by
  simp only [Engine.TickThreadAcquire] at h
  cases hc : try_acquire e.m_threadTickSemaphore
  · rw [hc] at h
    simp at h
  · rw [hc] at h
    simp only [Option.some.injEq] at h
    subst h
    rfl

theorem Engine.renderThreadAcquire_tickClock (e e2 : Engine)
    (h : e.RenderThreadAcquire = some e2) : e2.tickClock = e.tickClock := by
  simp only [Engine.RenderThreadAcquire] at h
  cases hc : try_acquire e.m_threadFrameSemaphore
  · rw [hc] at h
    simp at h
  · rw [hc] at h
    simp only [Option.some.injEq] at h
    subst h
    rfl

theorem Sched.armed_step (c : Rat × Rat) (s s' : Sched) (a : Action) (hq : s.ArmedInv c)
    (hstep : s.step a = some s') (ha : a ≠ .tickWork) : s'.ArmedInv c := by
  rcases s with ⟨e, main, tick, render, ts, rs⟩
  cases a
  case runReleaseFrame =>
    simp only [Sched.step] at hstep
    split_ifs at hstep with h
    simp only [Option.some.injEq] at hstep
    subst hstep
    subst h
    have hh := hq rfl
    simp [Sched.inRun, Sched.beforeLoop] at hh
  case runReleaseTick =>
    simp only [Sched.step] at hstep
    split_ifs at hstep with h
    simp only [Option.some.injEq] at hstep
    subst hstep
    subst h
    have hh := hq rfl
    simp [Sched.inRun, Sched.beforeLoop] at hh
  case runTickDelta now =>
    simp only [Sched.step] at hstep
    split_ifs at hstep with h
    simp only [Option.some.injEq] at hstep
    subst hstep
    subst h
    have hh := hq rfl
    simp [Sched.inRun, Sched.beforeLoop] at hh
  case runFrameDelta now =>
    simp only [Sched.step] at hstep
    split_ifs at hstep with h
    simp only [Option.some.injEq] at hstep
    subst hstep
    subst h
    have hh := hq rfl
    simp [Sched.inRun, Sched.beforeLoop] at hh
  case tickArm a b =>
    simp only [Sched.step] at hstep
    split_ifs at hstep with h
    simp only [Option.some.injEq] at hstep
    subst hstep
    subst h
    have hh := hq rfl
    simp [Sched.inRun, Sched.beforeLoop] at hh
  case frameCollect now events =>
    simp only [Sched.step] at hstep
    split_ifs at hstep with h
    simp only [Option.some.injEq] at hstep
    subst hstep
    subst h
    intro _
    obtain ⟨h1, -, -, -, h5, h6⟩ := hq rfl
    exact ⟨by rw [Engine.frameCollect_tickClock]; exact h1, rfl, rfl, by simp, h5, h6⟩
  case frameFinish =>
    simp only [Sched.step] at hstep
    split_ifs at hstep with h
    simp only [Option.some.injEq] at hstep
    subst hstep
    subst h
    intro _
    obtain ⟨h1, -, -, -, h5, h6⟩ := hq rfl
    exact ⟨by rw [Engine.frameFinish_tickClock]; exact h1, rfl, rfl, by simp, h5, h6⟩
  case sleep =>
    simp only [Sched.step] at hstep
    split_ifs at hstep with h
    simp only [Option.some.injEq] at hstep
    subst hstep
    subst h
    intro _
    obtain ⟨h1, -, -, -, h5, h6⟩ := hq rfl
    exact ⟨h1, rfl, rfl, by simp, h5, h6⟩
  case dtorRequestStopTick =>
    simp only [Sched.step] at hstep
    split_ifs at hstep with h
    simp only [Option.some.injEq] at hstep
    subst hstep
    subst h
    intro ht
    simp [Sched.inTeardown] at ht
  case dtorReleaseTick =>
    simp only [Sched.step] at hstep
    split_ifs at hstep with h
    simp only [Option.some.injEq] at hstep
    subst hstep
    subst h
    intro ht
    simp [Sched.inTeardown] at ht
  case dtorJoinTick =>
    simp only [Sched.step] at hstep
    split_ifs at hstep with h
    simp only [Option.some.injEq] at hstep
    subst hstep
    obtain ⟨h, hx⟩ := h
    subst h
    intro ht
    simp [Sched.inTeardown] at ht
  case dtorRequestStopRender =>
    simp only [Sched.step] at hstep
    split_ifs at hstep with h
    simp only [Option.some.injEq] at hstep
    subst hstep
    subst h
    intro ht
    simp [Sched.inTeardown] at ht
  case dtorReleaseFrame =>
    simp only [Sched.step] at hstep
    split_ifs at hstep with h
    simp only [Option.some.injEq] at hstep
    subst hstep
    subst h
    intro ht
    simp [Sched.inTeardown] at ht
  case dtorJoinRender =>
    simp only [Sched.step] at hstep
    split_ifs at hstep with h
    simp only [Option.some.injEq] at hstep
    subst hstep
    obtain ⟨h, hx⟩ := h
    subst h
    intro ht
    simp [Sched.inTeardown] at ht
  case dtorWaitForIdle =>
    simp only [Sched.step] at hstep
    split_ifs at hstep with h
    simp only [Option.some.injEq] at hstep
    subst hstep
    subst h
    intro ht
    simp [Sched.inTeardown] at ht
  case tickProbe now =>
    simp only [Sched.step] at hstep
    split_ifs at hstep with h hprobe
    · subst h
      obtain ⟨h1, -, -, -, h5, h6⟩ := hq rfl
      have hm : e.m_mainTickSemaphore = 0 := by
        simp only [Engine.tickClock, Prod.mk.injEq] at h1
        exact h1.2.2
      obtain ⟨hne, hclock⟩ := Engine.tickEnter_tickClock e hm
      rcases hT : e.TickEnter with ⟨r, e2⟩
      rw [hT] at hstep hne hclock
      cases r
      · simp only [Option.some.injEq] at hstep
        subst hstep
        intro _
        exact ⟨by rw [hclock]; exact h1, rfl, rfl, by simp, h5, h6⟩
      · simp only [Option.some.injEq] at hstep
        subst hstep
        intro _
        exact ⟨by rw [hclock]; exact h1, rfl, rfl, by simp, h5, h6⟩
      · exact absurd rfl hne
    · subst h
      simp only [Option.some.injEq] at hstep
      subst hstep
      intro _
      obtain ⟨h1, -, -, -, h5, h6⟩ := hq rfl
      exact ⟨h1, rfl, rfl, by simp, h5, h6⟩
  case frameProbe now =>
    simp only [Sched.step] at hstep
    split_ifs at hstep with h hprobe
    · subst h
      obtain ⟨h1, -, -, -, h5, h6⟩ := hq rfl
      have hclock := Engine.frameEnter_tickClock e
      rcases hT : e.FrameEnter with ⟨r, e2⟩
      rw [hT] at hstep hclock
      cases r <;>
        (simp only [Option.some.injEq] at hstep
         subst hstep
         intro _
         exact ⟨by rw [hclock]; exact h1, rfl, rfl, by simp, h5, h6⟩)
    · subst h
      simp only [Option.some.injEq] at hstep
      subst hstep
      intro _
      obtain ⟨h1, -, -, -, h5, h6⟩ := hq rfl
      exact ⟨h1, rfl, rfl, by simp, h5, h6⟩
  case tickLoop =>
    simp only [Sched.step] at hstep
    split_ifs at hstep with h h2 <;>
      (simp only [Option.some.injEq] at hstep
       subst hstep
       subst h
       intro ht
       obtain ⟨h1, h2, h3, h4, -, -⟩ := hq ht
       exact ⟨h1, h2, h3, h4, by simp, by simp⟩)
  case tickAcquire =>
    simp only [Sched.step] at hstep
    split_ifs at hstep with h
    subst h
    rcases hT : e.TickThreadAcquire with _ | e2
    · rw [hT] at hstep
      simp at hstep
    · rw [hT] at hstep
      simp only [Option.map_some', Option.some.injEq] at hstep
      subst hstep
      have hclock := Engine.tickThreadAcquire_tickClock e e2 hT
      intro ht
      obtain ⟨h1, h2, h3, h4, -, -⟩ := hq ht
      exact ⟨by rw [hclock]; exact h1, h2, h3, h4, by simp, by simp⟩
  case tickWork =>
    exact absurd rfl ha
  case tickClear =>
    simp only [Sched.step] at hstep
    split_ifs at hstep with h
    simp only [Option.some.injEq] at hstep
    subst hstep
    subst h
    intro ht
    exact absurd rfl (hq ht).2.2.2.2.1
  case tickRelease =>
    simp only [Sched.step] at hstep
    split_ifs at hstep with h
    simp only [Option.some.injEq] at hstep
    subst hstep
    subst h
    intro ht
    exact absurd rfl (hq ht).2.2.2.2.2
  case renderLoop =>
    simp only [Sched.step] at hstep
    split_ifs at hstep with h h2 <;>
      (simp only [Option.some.injEq] at hstep
       subst hstep
       exact hq)
  case renderAcquire =>
    simp only [Sched.step] at hstep
    split_ifs at hstep with h
    subst h
    rcases hT : e.RenderThreadAcquire with _ | e2
    · rw [hT] at hstep
      simp at hstep
    · rw [hT] at hstep
      simp only [Option.map_some', Option.some.injEq] at hstep
      subst hstep
      have hclock := Engine.renderThreadAcquire_tickClock e e2 hT
      intro ht
      obtain ⟨h1, h2, h3, h4, h5, h6⟩ := hq ht
      exact ⟨by rw [hclock]; exact h1, h2, h3, h4, h5, h6⟩
  case renderBody m a b =>
    simp only [Sched.step] at hstep
    split_ifs at hstep with h
    simp only [Option.some.injEq] at hstep
    subst hstep
    intro ht
    obtain ⟨h1, h2, h3, h4, h5, h6⟩ := hq ht
    exact ⟨by rw [Engine.renderThreadBody_tickClock]; exact h1, h2, h3, h4, h5, h6⟩
  case renderRelease =>
    simp only [Sched.step] at hstep
    split_ifs at hstep with h
    simp only [Option.some.injEq] at hstep
    subst hstep
    exact hq
theorem Engine.clock_of_tickClock (e e2 : Engine) (h : e2.tickClock = e.tickClock) :
    e2.time.DeltaTick = e.time.DeltaTick ∧ e2.time.prevTick = e.time.prevTick := by
  simp only [Engine.tickClock, Prod.mk.injEq] at h
  exact ⟨h.1, h.2.1⟩

theorem Engine.tickThreadWork_time (e : Engine) : e.TickThreadWork.time = e.time := by
  simp only [Engine.TickThreadWork, Engine.emitAll, Engine.emit]
  split_ifs <;> rfl

/-- A step changes `DeltaTick` or `prevTick` only if it is the `UpdateTickDelta` of
the preamble of `Run` or the armed part of `Engine::Tick`. -/
theorem Sched.clock_step (s s' : Sched) (a : Action) (hstep : s.step a = some s') :
    (s'.eng.time.DeltaTick = s.eng.time.DeltaTick ∧
      s'.eng.time.prevTick = s.eng.time.prevTick) ∨
    ((∃ now, a = .runTickDelta now) ∧ s.main = .runReleasedTick) ∨
    ((∃ x y, a = .tickArm x y) ∧ s.main = .tickHeld) := by
  rcases s with ⟨e, main, tick, render, ts, rs⟩
  cases a
  case runReleaseFrame =>
    simp only [Sched.step] at hstep
    split_ifs at hstep with h
    simp only [Option.some.injEq] at hstep
    subst hstep
    exact Or.inl ⟨rfl, rfl⟩
  case runReleaseTick =>
    simp only [Sched.step] at hstep
    split_ifs at hstep with h
    simp only [Option.some.injEq] at hstep
    subst hstep
    exact Or.inl ⟨rfl, rfl⟩
  case runFrameDelta now =>
    simp only [Sched.step] at hstep
    split_ifs at hstep with h
    simp only [Option.some.injEq] at hstep
    subst hstep
    exact Or.inl ⟨rfl, rfl⟩
  case sleep =>
    simp only [Sched.step] at hstep
    split_ifs at hstep with h
    simp only [Option.some.injEq] at hstep
    subst hstep
    exact Or.inl ⟨rfl, rfl⟩
  case dtorRequestStopTick =>
    simp only [Sched.step] at hstep
    split_ifs at hstep with h
    simp only [Option.some.injEq] at hstep
    subst hstep
    exact Or.inl ⟨rfl, rfl⟩
  case dtorReleaseTick =>
    simp only [Sched.step] at hstep
    split_ifs at hstep with h
    simp only [Option.some.injEq] at hstep
    subst hstep
    exact Or.inl ⟨rfl, rfl⟩
  case dtorJoinTick =>
    simp only [Sched.step] at hstep
    split_ifs at hstep with h
    simp only [Option.some.injEq] at hstep
    subst hstep
    exact Or.inl ⟨rfl, rfl⟩
  case dtorRequestStopRender =>
    simp only [Sched.step] at hstep
    split_ifs at hstep with h
    simp only [Option.some.injEq] at hstep
    subst hstep
    exact Or.inl ⟨rfl, rfl⟩
  case dtorReleaseFrame =>
    simp only [Sched.step] at hstep
    split_ifs at hstep with h
    simp only [Option.some.injEq] at hstep
    subst hstep
    exact Or.inl ⟨rfl, rfl⟩
  case dtorJoinRender =>
    simp only [Sched.step] at hstep
    split_ifs at hstep with h
    simp only [Option.some.injEq] at hstep
    subst hstep
    exact Or.inl ⟨rfl, rfl⟩
  case dtorWaitForIdle =>
    simp only [Sched.step] at hstep
    split_ifs at hstep with h
    simp only [Option.some.injEq] at hstep
    subst hstep
    exact Or.inl ⟨rfl, rfl⟩
  case tickLoop =>
    simp only [Sched.step] at hstep
    split_ifs at hstep with h h2 <;>
      (simp only [Option.some.injEq] at hstep
       subst hstep
       exact Or.inl ⟨rfl, rfl⟩)
  case tickClear =>
    simp only [Sched.step] at hstep
    split_ifs at hstep with h
    simp only [Option.some.injEq] at hstep
    subst hstep
    exact Or.inl ⟨rfl, rfl⟩
  case tickRelease =>
    simp only [Sched.step] at hstep
    split_ifs at hstep with h
    simp only [Option.some.injEq] at hstep
    subst hstep
    exact Or.inl ⟨rfl, rfl⟩
  case renderLoop =>
    simp only [Sched.step] at hstep
    split_ifs at hstep with h h2 <;>
      (simp only [Option.some.injEq] at hstep
       subst hstep
       exact Or.inl ⟨rfl, rfl⟩)
  case renderRelease =>
    simp only [Sched.step] at hstep
    split_ifs at hstep with h
    simp only [Option.some.injEq] at hstep
    subst hstep
    exact Or.inl ⟨rfl, rfl⟩
  case runTickDelta now =>
    simp only [Sched.step] at hstep
    split_ifs at hstep with h
    simp only [Option.some.injEq] at hstep
    subst hstep
    exact Or.inr (Or.inl ⟨⟨now, rfl⟩, h⟩)
  case tickArm x y =>
    simp only [Sched.step] at hstep
    split_ifs at hstep with h
    simp only [Option.some.injEq] at hstep
    subst hstep
    exact Or.inr (Or.inr ⟨⟨x, y, rfl⟩, h⟩)
  case frameCollect now events =>
    simp only [Sched.step] at hstep
    split_ifs at hstep with h
    simp only [Option.some.injEq] at hstep
    subst hstep
    exact Or.inl (Engine.clock_of_tickClock _ _ (Engine.frameCollect_tickClock e now events))
  case frameFinish =>
    simp only [Sched.step] at hstep
    split_ifs at hstep with h
    simp only [Option.some.injEq] at hstep
    subst hstep
    exact Or.inl (Engine.clock_of_tickClock _ _ (Engine.frameFinish_tickClock e))
  case renderBody m x y =>
    simp only [Sched.step] at hstep
    split_ifs at hstep with h
    simp only [Option.some.injEq] at hstep
    subst hstep
    exact Or.inl (Engine.clock_of_tickClock _ _ (Engine.renderThreadBody_tickClock e m x y))
  case tickWork =>
    simp only [Sched.step] at hstep
    split_ifs at hstep with h
    simp only [Option.some.injEq] at hstep
    subst hstep
    exact Or.inl ⟨by rw [Engine.tickThreadWork_time], by rw [Engine.tickThreadWork_time]⟩
  case tickProbe now =>
    simp only [Sched.step] at hstep
    split_ifs at hstep with h hprobe
    · have htime := Engine.tickEnter_time e
      rcases hT : e.TickEnter with ⟨r, e2⟩
      rw [hT] at hstep htime
      simp only at htime
      cases r <;>
        (simp only [Option.some.injEq] at hstep
         subst hstep
         exact Or.inl ⟨by rw [htime], by rw [htime]⟩)
    · simp only [Option.some.injEq] at hstep
      subst hstep
      exact Or.inl ⟨rfl, rfl⟩
  case frameProbe now =>
    simp only [Sched.step] at hstep
    split_ifs at hstep with h hprobe
    · have hclock := Engine.frameEnter_tickClock e
      rcases hT : e.FrameEnter with ⟨r, e2⟩
      rw [hT] at hstep hclock
      cases r <;>
        (simp only [Option.some.injEq] at hstep
         subst hstep
         exact Or.inl (Engine.clock_of_tickClock _ _ hclock))
    · simp only [Option.some.injEq] at hstep
      subst hstep
      exact Or.inl ⟨rfl, rfl⟩
  case tickAcquire =>
    simp only [Sched.step] at hstep
    split_ifs at hstep with h
    rcases hT : e.TickThreadAcquire with _ | e2
    · rw [hT] at hstep
      simp at hstep
    · rw [hT] at hstep
      simp only [Option.map_some', Option.some.injEq] at hstep
      subst hstep
      exact Or.inl (Engine.clock_of_tickClock _ _ (Engine.tickThreadAcquire_tickClock e e2 hT))
  case renderAcquire =>
    simp only [Sched.step] at hstep
    split_ifs at hstep with h
    rcases hT : e.RenderThreadAcquire with _ | e2
    · rw [hT] at hstep
      simp at hstep
    · rw [hT] at hstep
      simp only [Option.map_some', Option.some.injEq] at hstep
      subst hstep
      exact Or.inl (Engine.clock_of_tickClock _ _ (Engine.renderThreadAcquire_tickClock e e2 hT))

theorem Sched.armed_run (c : Rat × Rat) (acts : List Action) :
    ∀ s s' : Sched, s.ArmedInv c → s.run acts = some s' → Action.tickWork ∉ acts →
      s'.ArmedInv c := by
  induction acts with
  | nil =>
    intro s s' hq hrun _
    simp only [Sched.run, Option.some.injEq] at hrun
    subst hrun
    exact hq
  | cons a rest ih =>
    intro s s' hq hrun hno
    simp only [Sched.run] at hrun
    cases hstep : s.step a with
    | none => simp [hstep] at hrun
    | some s1 =>
      rw [hstep] at hrun
      have ha : a ≠ .tickWork := fun h => hno (h ▸ List.mem_cons_self _ _)
      exact ih s1 s' (Sched.armed_step c s s1 a hq hstep ha) hrun
        (fun h => hno (List.mem_cons_of_mem _ h))

/-- When `Engine::Tick` is past its `try_acquire` in a reachable state, no tick is
pending in `threadTick` and the worker is not in a unit of work. -/
theorem Sched.quiet_at_tickHeld (s : Sched) (hreach : s.Reachable) (hm : s.main = .tickHeld) :
    s.eng.m_mainTickSemaphore = 0 ∧ s.eng.m_threadTickSemaphore = 0 ∧ s.tickInFlight = 0 := by
  have hinv := Sched.inv_of_reachable s hreach
  rcases s with ⟨e, main, tick, render, ts, rs⟩
  simp only at hm
  subst hm
  obtain ⟨-, -, h3, -⟩ := hinv
  have h := (h3 rfl).1
  simp only [Sched.sumTick, Sched.mainHoldsTick, if_true] at h
  show e.m_mainTickSemaphore = 0 ∧ e.m_threadTickSemaphore = 0 ∧ _ = 0
  omega

/-- C23. In a reachable state in which `Engine::Tick` arms a tick, no tick is
pending or in flight; the call stores `DeltaTick = now - prevTick`; and along
every continuation that stays before teardown, up to and including the `OnTick`
fan-out and `World::Tick` of the worker for that tick, `DeltaTick` and `prevTick`
keep the values that call stored. A step that changes `DeltaTick` or `prevTick`
is `UpdateTickDelta` in the preamble of `Run` or in `Engine::Tick`, both on the
main thread, taken while no tick is pending in `threadTick` or in flight. -/
theorem C23_worker_sees_own_deltaTick (s0 s1 s2 : Sched) (tSince tUpdate : Rat)
    (mid : List Action) (hreach : s0.Reachable)
    (harm : s0.step (.tickArm tSince tUpdate) = some s1)
    (hrun : s1.run mid = some s2) (hno : Action.tickWork ∉ mid)
    (hbefore : s2.inTeardown = false) :
    (s0.eng.m_threadTickSemaphore = 0 ∧ s0.tickInFlight = 0) ∧
    s1.eng.time.DeltaTick = tUpdate - s0.eng.time.prevTick ∧
    (s2.eng.time.DeltaTick = s1.eng.time.DeltaTick ∧
      s2.eng.time.prevTick = s1.eng.time.prevTick) ∧
    (∀ s3, s2.step .tickWork = some s3 →
      s3.eng.time.DeltaTick = tUpdate - s0.eng.time.prevTick) ∧
    (∀ (s s' : Sched) (a : Action), s.Reachable → s.step a = some s' →
      (s'.eng.time.DeltaTick ≠ s.eng.time.DeltaTick ∨
        s'.eng.time.prevTick ≠ s.eng.time.prevTick) →
      ((∃ now, a = .runTickDelta now) ∨ ∃ x y, a = .tickArm x y) ∧
      s.eng.m_threadTickSemaphore = 0 ∧ s.tickInFlight = 0) := by
  have hheld : s0.main = .tickHeld := by
    rcases s0 with ⟨e, main, tick, render, ts, rs⟩
    simp only [Sched.step] at harm
    split_ifs at harm with h
    exact h
  obtain ⟨hm0, ht0, hf0⟩ := Sched.quiet_at_tickHeld s0 hreach hheld
  have hs1 : s1 = { s0 with main := .loopFrame, eng := s0.eng.TickArm tSince tUpdate } := by
    rcases s0 with ⟨e, main, tick, render, ts, rs⟩
    simp only at hheld
    subst hheld
    have h := harm
    simp only [Sched.step, if_true, Option.some.injEq] at h
    exact h.symm
  have hd1 : s1.eng.time.DeltaTick = tUpdate - s0.eng.time.prevTick := by
    rw [hs1]
    simp only [Engine.tickArm_eq, Time.UpdateTickDelta]
  have harmed : s1.ArmedInv (s1.eng.time.DeltaTick, s1.eng.time.prevTick) := by
    intro _
    refine ⟨?_, ?_, ?_, ?_, ?_, ?_⟩
    · rw [hs1]
      simp only [Engine.tickClock, Engine.tickArm_eq, hm0]
    · rw [hs1]
      rfl
    · rw [hs1]
      rfl
    · rw [hs1]
      simp
    · rw [hs1]
      intro hc
      simp only at hc
      simp [Sched.tickInFlight, hc] at hf0
    · rw [hs1]
      intro hc
      simp only at hc
      simp [Sched.tickInFlight, hc] at hf0
  have h2 := Sched.armed_run _ mid s1 s2 harmed hrun hno hbefore
  have hclock2 : s2.eng.time.DeltaTick = s1.eng.time.DeltaTick ∧
      s2.eng.time.prevTick = s1.eng.time.prevTick := by
    have := h2.1
    simp only [Engine.tickClock, Prod.mk.injEq] at this
    exact ⟨this.1, this.2.1⟩
  refine ⟨⟨ht0, hf0⟩, hd1, hclock2, ?_, ?_⟩
  · intro s3 h3
    rcases Sched.clock_step s2 s3 .tickWork h3 with h | ⟨⟨now, hc⟩, -⟩ | ⟨⟨x, y, hc⟩, -⟩
    · rw [h.1, hclock2.1, hd1]
    · cases hc
    · cases hc
  · intro s s' a hr hstep hchange
    rcases Sched.clock_step s s' a hstep with h | ⟨hex, hmain⟩ | ⟨hex, hmain⟩
    · rcases hchange with hc | hc
      · exact absurd h.1 hc
      · exact absurd h.2 hc
    · refine ⟨Or.inl hex, ?_⟩
      have hidle := Sched.idle_of_reachable s hr
      rcases s with ⟨e, main, tick, render, ts, rs⟩
      simp only at hmain
      subst hmain
      obtain ⟨h1, -, h3, -⟩ := hidle rfl
      refine ⟨h1, ?_⟩
      rcases h3 with h3 | h3 <;>
        (simp only at h3
         subst h3
         rfl)
    · refine ⟨Or.inr hex, ?_⟩
      exact (Sched.quiet_at_tickHeld s hr hmain).2

theorem armedSample_step :
    Sched.insideTick.step (.tickArm 1 1) = some Sched.armedSample := rfl

/-- C23, a concrete case: the tick armed at time 1 on the sample engine, and the
worker's `acquire` after it. -/
theorem C23_worker_sees_own_deltaTick_witness :
    (Sched.insideTick.Reachable ∧
      Sched.insideTick.step (.tickArm 1 1) = some Sched.armedSample ∧
      Action.tickWork ∉ [Action.tickAcquire]) ∧
    Sched.armedSample.eng.time.DeltaTick = 1 - Sched.insideTick.eng.time.prevTick :=
  ⟨⟨Sched.insideTick_reachable, rfl, by simp⟩,
   (C23_worker_sees_own_deltaTick Sched.insideTick Sched.armedSample
      { Sched.armedSample with
        tick := .acquired
        eng := { Sched.armedSample.eng with m_threadTickSemaphore := 0 }.emit
          (.acquire .threadTick) }
      1 1 [.tickAcquire] Sched.insideTick_reachable rfl (by decide!) (by simp) rfl).2.1⟩

/-! ## The icosphere keeps its sizes and its indices in range -/

/-! ## The icosphere -/

theorem lookup_some_mem {m : List ((Nat × Nat) × Nat)} {k : Nat × Nat} {v : Nat}
    (h : m.lookup k = some v) : (k, v) ∈ m := by
  induction m with
  | nil => simp at h
  | cons hd tl ih =>
    rcases hd with ⟨k', v'⟩
    rw [List.lookup_cons] at h
    by_cases hk : k = k'
    · subst hk
      simp at h
      subst h
      exact List.mem_cons_self _ _
    · have : (k == k') = false := by simpa using hk
      rw [this] at h
      exact List.mem_cons_of_mem _ (ih h)

theorem lookup_none_not_mem {m : List ((Nat × Nat) × Nat)} {k : Nat × Nat}
    (h : m.lookup k = none) : k ∉ m.map Prod.fst := by
  induction m with
  | nil => simp
  | cons hd tl ih =>
    rcases hd with ⟨k', v'⟩
    rw [List.lookup_cons] at h
    by_cases hk : k = k'
    · subst hk
      simp at h
    · have : (k == k') = false := by simpa using hk
      rw [this] at h
      simp only [List.map_cons, List.mem_cons, not_or]
      exact ⟨hk, ih h⟩

theorem lookup_of_mem {m : List ((Nat × Nat) × Nat)} {k : Nat × Nat} {v : Nat}
    (hnd : (m.map Prod.fst).Nodup) (h : (k, v) ∈ m) : m.lookup k = some v := by
  induction m with
  | nil => simp at h
  | cons hd tl ih =>
    rcases hd with ⟨k', v'⟩
    simp only [List.map_cons, List.nodup_cons] at hnd
    rw [List.lookup_cons]
    rcases List.mem_cons.mp h with heq | htl
    · simp only [Prod.mk.injEq] at heq
      obtain ⟨h1, h2⟩ := heq
      subst h1
      subst h2
      simp
    · have hk : k ≠ k' := by
        intro hc
        subst hc
        exact hnd.1 (List.mem_map_of_mem Prod.fst htl)
      have : (k == k') = false := by simpa using hk
      rw [this]
      exact ih hnd.2 htl

theorem lookup_isSome_iff {m : List ((Nat × Nat) × Nat)} {k : Nat × Nat} :
    (m.lookup k).isSome ↔ k ∈ m.map Prod.fst := by
  constructor
  · intro h
    rcases hl : m.lookup k with _ | v
    · rw [hl] at h
      simp at h
    · exact List.mem_map_of_mem Prod.fst (lookup_some_mem hl)
  · intro h
    rcases hl : m.lookup k with _ | v
    · exact absurd h (lookup_none_not_mem hl)
    · rfl

theorem EdgeKey_comm (a b : Nat) : EdgeKey a b = EdgeKey b a := by
  unfold EdgeKey
  split_ifs with h1 h2 h2
  · omega
  · rfl
  · rfl
  · have : a = b := by omega
    subst this
    rfl

theorem EdgeKey_eq_iff (a b c d : Nat) :
    EdgeKey a b = EdgeKey c d ↔ (a = c ∧ b = d) ∨ (a = d ∧ b = c) := by
  unfold EdgeKey
  split_ifs <;> simp only [Prod.mk.injEq] <;> omega

theorem edgeVertex_spec (m : List ((Nat × Nat) × Nat)) (p : List IcoVertex) (n a b : Nat)
    (hinv : EdgeMapInv m n p.length) (ha : a < p.length) (hb : b < p.length) :
    ∃ M p' v, EdgeVertex m p a b = some (M, p', v) ∧ EdgeMapInv M n p'.length ∧
      M.lookup (EdgeKey a b) = some v ∧
      (∀ k u, m.lookup k = some u → M.lookup k = some u) ∧ p.length ≤ p'.length ∧
      (∀ k, k ∈ M.map Prod.fst → k ∈ m.map Prod.fst ∨ k = EdgeKey a b) := by
  obtain ⟨hlen, hkeys, hvals, hbound⟩ := hinv
  rcases hl : m.lookup (EdgeKey a b) with _ | v
  · refine ⟨(EdgeKey a b, p.length) :: m, p ++ [IcoVertex.mid a b], p.length, ?_, ?_, ?_, ?_,
      ?_, ?_⟩
    · simp only [EdgeVertex, hl]
      rw [if_pos ⟨ha, hb⟩]
    · refine ⟨?_, ?_, ?_, ?_⟩
      · simp only [List.length_append, List.length_cons, List.length_nil]
        omega
      · simp only [List.map_cons, List.nodup_cons]
        exact ⟨lookup_none_not_mem hl, hkeys⟩
      · simp only [List.map_cons, List.nodup_cons]
        refine ⟨?_, hvals⟩
        intro hmem
        obtain ⟨entry, he, hv⟩ := List.mem_map.mp hmem
        have := (hbound entry he).2
        omega
      · intro entry he
        simp only [List.length_append, List.length_cons, List.length_nil]
        rcases List.mem_cons.mp he with heq | htl
        · subst heq
          simp only
          omega
        · have := hbound entry htl
          omega
    · simp [List.lookup_cons]
    · intro k u hk
      rw [List.lookup_cons]
      have hne : k ≠ EdgeKey a b := by
        intro hc
        subst hc
        rw [hl] at hk
        cases hk
      have : (k == EdgeKey a b) = false := by simpa using hne
      rw [this]
      exact hk
    · simp
    · intro k hk
      simp only [List.map_cons, List.mem_cons] at hk
      rcases hk with hk | hk
      · exact Or.inr hk
      · exact Or.inl hk
  · refine ⟨m, p, v, ?_, ⟨hlen, hkeys, hvals, hbound⟩, hl, fun _ _ h => h, le_refl _,
      fun k hk => Or.inl hk⟩
    simp only [EdgeVertex, hl]

theorem flat_append (A B : List (Nat × Nat × Nat)) : flat (A ++ B) = flat A ++ flat B := by
  induction A with
  | nil => rfl
  | cons hd tl ih =>
    rcases hd with ⟨a, b, c⟩
    simp [flat, ih]

theorem mem_allRots_cons (t : Nat × Nat × Nat) (T : List (Nat × Nat × Nat))
    (r : Nat × Nat × Nat) : r ∈ allRots (t :: T) ↔ r ∈ rots t ∨ r ∈ allRots T := by
  simp [allRots]

theorem subdivideLoop_spec (T : List (Nat × Nat × Nat)) :
    ∀ (m : List ((Nat × Nat) × Nat)) (p : List IcoVertex) (acc : List Nat) (n : Nat),
      EdgeMapInv m n p.length → (∀ r ∈ allRots T, r.1 < p.length) →
      ∃ M p', SubdivideLoop (flat T) m p acc =
          some (M, p', acc ++ flat (T.flatMap (subTris (mu M)))) ∧
        EdgeMapInv M n p'.length ∧
        (∀ k u, m.lookup k = some u → M.lookup k = some u) ∧
        p.length ≤ p'.length ∧
        (∀ r ∈ allRots T, (M.lookup (EdgeKey r.1 r.2.1)).isSome = true) ∧
        (∀ k, k ∈ M.map Prod.fst →
          k ∈ m.map Prod.fst ∨ ∃ r ∈ allRots T, k = EdgeKey r.1 r.2.1) := by
  induction T with
  | nil =>
    intro m p acc n hinv _
    exact ⟨m, p, by simp [flat, SubdivideLoop], hinv, fun _ _ h => h, le_refl _,
      by simp [allRots], fun k hk => Or.inl hk⟩
  | cons t rest ih =>
    intro m p acc n hinv hb
    rcases t with ⟨a, b, c⟩
    have ha : a < p.length := hb (a, b, c) (by simp [allRots, rots])
    have hbb : b < p.length := hb (b, c, a) (by simp [allRots, rots])
    have hc : c < p.length := hb (c, a, b) (by simp [allRots, rots])
    obtain ⟨M1, p1, v0, he1, hinv1, hl1, hext1, hle1, hdom1⟩ :=
      edgeVertex_spec m p n a b hinv ha hbb
    obtain ⟨M2, p2, v1, he2, hinv2, hl2, hext2, hle2, hdom2⟩ :=
      edgeVertex_spec M1 p1 n b c hinv1 (by omega) (by omega)
    obtain ⟨M3, p3, v2, he3, hinv3, hl3, hext3, hle3, hdom3⟩ :=
      edgeVertex_spec M2 p2 n c a hinv2 (by omega) (by omega)
    obtain ⟨M, p', hloop, hinvM, hextM, hleM, hsomeM, hdomM⟩ :=
      ih M3 p3 (acc ++ [a, v0, v2, b, v1, v0, c, v2, v1, v0, v1, v2]) n hinv3
        (fun r hr => by
          have := hb r ((mem_allRots_cons _ _ _).mpr (Or.inr hr))
          omega)
    have h0 : mu M a b = v0 := by
      simp only [mu, hextM _ _ (hext3 _ _ (hext2 _ _ hl1)), Option.getD_some]
    have h1 : mu M b c = v1 := by
      simp only [mu, hextM _ _ (hext3 _ _ hl2), Option.getD_some]
    have h2 : mu M c a = v2 := by
      simp only [mu, hextM _ _ hl3, Option.getD_some]
    refine ⟨M, p', ?_, hinvM, ?_, by omega, ?_, ?_⟩
    · simp only [flat, SubdivideLoop, he1, he2, he3, hloop]
      simp only [List.flatMap_cons, flat_append, subTris, flat, h0, h1, h2]
      simp [List.flatMap]
    · intro k u hk
      exact hextM _ _ (hext3 _ _ (hext2 _ _ (hext1 _ _ hk)))
    · intro r hr
      rcases (mem_allRots_cons _ _ _).mp hr with hr | hr
      · simp only [rots, List.mem_cons, List.mem_singleton, List.not_mem_nil, or_false] at hr
        rcases hr with rfl | rfl | rfl
        · simp [hextM _ _ (hext3 _ _ (hext2 _ _ hl1))]
        · simp [hextM _ _ (hext3 _ _ hl2)]
        · simp [hextM _ _ hl3]
      · exact hsomeM r hr
    · intro k hk
      rcases hdomM k hk with hk3 | ⟨r, hr, hkr⟩
      · rcases hdom3 k hk3 with hk2 | hk2
        · rcases hdom2 k hk2 with hk1 | hk1
          · rcases hdom1 k hk1 with hk0 | hk0
            · exact Or.inl hk0
            · exact Or.inr ⟨(a, b, c), by simp [allRots, rots], hk0⟩
          · exact Or.inr ⟨(b, c, a), by simp [allRots, rots], hk1⟩
        · exact Or.inr ⟨(c, a, b), by simp [allRots, rots], hk2⟩
      · exact Or.inr ⟨r, (mem_allRots_cons _ _ _).mpr (Or.inr hr), hkr⟩

theorem subdivide_spec (T : List (Nat × Nat × Nat)) (p : List IcoVertex)
    (hb : ∀ r ∈ allRots T, r.1 < p.length) :
    ∃ M p', Subdivide (p, flat T) = some (p', flat (T.flatMap (subTris (mu M)))) ∧
      EdgeMapInv M p.length p'.length ∧
      (∀ r ∈ allRots T, (M.lookup (EdgeKey r.1 r.2.1)).isSome = true) ∧
      (∀ k, k ∈ M.map Prod.fst → ∃ r ∈ allRots T, k = EdgeKey r.1 r.2.1) := by
  have h0 : EdgeMapInv [] p.length p.length := by
    refine ⟨by simp, by simp, by simp, by simp⟩
  obtain ⟨M, p', hloop, hinv, -, -, hsome, hdom⟩ := subdivideLoop_spec T [] p [] p.length h0 hb
  refine ⟨M, p', ?_, hinv, hsome, ?_⟩
  · simp only [Subdivide, hloop]
    simp
  · intro k hk
    rcases hdom k hk with h | h
    · simp at h
    · exact h

theorem midFn_of_edgeMap (M : List ((Nat × Nat) × Nat)) (T : List (Nat × Nat × Nat))
    (n n' : Nat) (hinv : EdgeMapInv M n n')
    (hsome : ∀ r ∈ allRots T, (M.lookup (EdgeKey r.1 r.2.1)).isSome = true) :
    MidFn (mu M) T n n' := by
  obtain ⟨-, hkeys, hvals, hbound⟩ := hinv
  have hget : ∀ r ∈ allRots T, (EdgeKey r.1 r.2.1, mu M r.1 r.2.1) ∈ M := by
    intro r hr
    have := hsome r hr
    rcases hl : M.lookup (EdgeKey r.1 r.2.1) with _ | v
    · rw [hl] at this
      simp at this
    · simp only [mu, hl, Option.getD_some]
      exact lookup_some_mem hl
  refine ⟨?_, ?_, ?_⟩
  · intro a b
    simp only [mu, EdgeKey_comm a b]
  · intro r hr
    exact hbound _ (hget r hr)
  · intro r hr r' hr' heq
    have h1 := hget r hr
    have h2 := hget r' hr'
    rw [← heq] at h2
    have hk : EdgeKey r.1 r.2.1 = EdgeKey r'.1 r'.2.1 := by
      have hinj := List.inj_on_of_nodup_map hvals h1 h2 rfl
      exact congrArg Prod.fst hinj
    exact (EdgeKey_eq_iff _ _ _ _).mp hk

theorem length_allRots (T : List (Nat × Nat × Nat)) : (allRots T).length = 3 * T.length := by
  induction T with
  | nil => rfl
  | cons t rest ih =>
    simp only [allRots, List.flatMap_cons, List.length_append, List.length_cons] at ih ⊢
    simp only [rots, List.length_cons, List.length_nil]
    omega

theorem length_flat (T : List (Nat × Nat × Nat)) : (flat T).length = 3 * T.length := by
  induction T with
  | nil => rfl
  | cons t rest ih =>
    rcases t with ⟨a, b, c⟩
    simp only [flat, List.length_cons, ih]
    omega

/-- On a closed oriented surface every undirected edge is the key of exactly two
directed edges. -/
theorem two_mul_card_keys (T : List (Nat × Nat × Nat)) (n : Nat) (h : MeshInv T n) :
    2 * ((allRots T).map fun r => EdgeKey r.1 r.2.1).toFinset.card = 3 * T.length := by
  obtain ⟨hB, hN, hS, -⟩ := h
  have hD : ((allRots T).map edgeOf).toFinset.card = 3 * T.length := by
    rw [List.toFinset_card_of_nodup hN, List.length_map, length_allRots]
  have hK : ((allRots T).map fun r => EdgeKey r.1 r.2.1).toFinset =
      ((allRots T).map edgeOf).toFinset.image (fun e => EdgeKey e.1 e.2) := by
    ext k
    simp only [List.mem_toFinset, List.mem_map, Finset.mem_image, edgeOf]
    constructor
    · rintro ⟨r, hr, rfl⟩
      exact ⟨(r.1, r.2.1), ⟨r, hr, rfl⟩, rfl⟩
    · rintro ⟨e, ⟨r, hr, rfl⟩, rfl⟩
      exact ⟨r, hr, rfl⟩
  rw [hK, ← hD, Finset.card_eq_sum_card_image (fun e => EdgeKey e.1 e.2)
    ((allRots T).map edgeOf).toFinset]
  rw [Finset.sum_const_nat (m := 2), mul_comm]
  intro k hk
  obtain ⟨e, he, rfl⟩ := Finset.mem_image.mp hk
  obtain ⟨r, hr, rfl⟩ := List.mem_map.mp (List.mem_toFinset.mp he)
  obtain ⟨r', hr', h1, h2⟩ := hS r hr
  have hne : r.1 ≠ r.2.1 := (hB r hr).2
  have hfilter : ((allRots T).map edgeOf).toFinset.filter
      (fun e => EdgeKey e.1 e.2 = EdgeKey (edgeOf r).1 (edgeOf r).2) =
      {(r.1, r.2.1), (r.2.1, r.1)} := by
    ext e
    simp only [Finset.mem_filter, List.mem_toFinset, Finset.mem_insert, Finset.mem_singleton,
      edgeOf, EdgeKey_eq_iff]
    constructor
    · rintro ⟨-, h | h⟩
      · exact Or.inl (Prod.ext h.1 h.2)
      · exact Or.inr (Prod.ext h.1 h.2)
    · rintro (rfl | rfl)
      · exact ⟨List.mem_map.mpr ⟨r, hr, rfl⟩, Or.inl ⟨rfl, rfl⟩⟩
      · refine ⟨List.mem_map.mpr ⟨r', hr', ?_⟩, Or.inr ⟨rfl, rfl⟩⟩
        simp only [edgeOf, h1, h2]
  rw [hfilter, Finset.card_pair]
  intro hc
  simp only [Prod.mk.injEq] at hc
  exact hne hc.1

/-- The number of positions `Subdivide` adds: one per undirected edge, which is
three for every two triangles. -/
theorem subdivide_count (T : List (Nat × Nat × Nat)) (p : List IcoVertex) (h : MeshInv T p.length) :
    ∃ M p', Subdivide (p, flat T) = some (p', flat (T.flatMap (subTris (mu M)))) ∧
      MidFn (mu M) T p.length p'.length ∧ 2 * p'.length = 2 * p.length + 3 * T.length := by
  have hb : ∀ r ∈ allRots T, r.1 < p.length := fun r hr => (h.1 r hr).1
  obtain ⟨M, p', hsub, hinv, hsome, hdom⟩ := subdivide_spec T p hb
  refine ⟨M, p', hsub, midFn_of_edgeMap M T _ _ hinv hsome, ?_⟩
  have hset : (M.map Prod.fst).toFinset =
      ((allRots T).map fun r => EdgeKey r.1 r.2.1).toFinset := by
    ext k
    simp only [List.mem_toFinset]
    constructor
    · intro hk
      obtain ⟨r, hr, rfl⟩ := hdom k hk
      exact List.mem_map.mpr ⟨r, hr, rfl⟩
    · intro hk
      obtain ⟨r, hr, rfl⟩ := List.mem_map.mp hk
      exact lookup_isSome_iff.mp (hsome r hr)
  have hcard : M.length = ((allRots T).map fun r => EdgeKey r.1 r.2.1).toFinset.card := by
    rw [← hset, List.toFinset_card_of_nodup hinv.2.1, List.length_map]
  have h2 := two_mul_card_keys T p.length h
  have hlen := hinv.1
  omega

theorem rot_mem {T : List (Nat × Nat × Nat)} {r : Nat × Nat × Nat} (h : r ∈ allRots T) :
    (r.2.1, r.2.2, r.1) ∈ allRots T := by
  simp only [allRots, List.mem_flatMap] at h ⊢
  obtain ⟨t, ht, hr⟩ := h
  refine ⟨t, ht, ?_⟩
  simp only [rots, List.mem_cons, List.mem_singleton, List.not_mem_nil, or_false] at hr ⊢
  rcases hr with rfl | rfl | rfl <;> simp

theorem mem_allRots_sub (f : Nat → Nat → Nat) (T : List (Nat × Nat × Nat))
    (F : Nat × Nat × Nat) :
    F ∈ allRots (T.flatMap (subTris f)) ↔ ∃ r ∈ allRots T, F ∈ newFaces f r := by
  simp only [allRots, List.mem_flatMap]
  constructor
  · rintro ⟨tri, ⟨t, ht, htri⟩, hF⟩
    simp only [subTris, List.mem_cons, List.mem_singleton, List.not_mem_nil, or_false] at htri
    rcases htri with rfl | rfl | rfl | rfl <;>
      simp only [rots, List.mem_cons, List.mem_singleton, List.not_mem_nil, or_false] at hF <;>
      rcases hF with rfl | rfl | rfl
    · exact ⟨(t.1, t.2.1, t.2.2), ⟨t, ht, by simp [rots]⟩, by simp [newFaces]⟩
    · exact ⟨(t.1, t.2.1, t.2.2), ⟨t, ht, by simp [rots]⟩, by simp [newFaces]⟩
    · exact ⟨(t.1, t.2.1, t.2.2), ⟨t, ht, by simp [rots]⟩, by simp [newFaces]⟩
    · exact ⟨(t.2.1, t.2.2, t.1), ⟨t, ht, by simp [rots]⟩, by simp [newFaces]⟩
    · exact ⟨(t.2.1, t.2.2, t.1), ⟨t, ht, by simp [rots]⟩, by simp [newFaces]⟩
    · exact ⟨(t.2.1, t.2.2, t.1), ⟨t, ht, by simp [rots]⟩, by simp [newFaces]⟩
    · exact ⟨(t.2.2, t.1, t.2.1), ⟨t, ht, by simp [rots]⟩, by simp [newFaces]⟩
    · exact ⟨(t.2.2, t.1, t.2.1), ⟨t, ht, by simp [rots]⟩, by simp [newFaces]⟩
    · exact ⟨(t.2.2, t.1, t.2.1), ⟨t, ht, by simp [rots]⟩, by simp [newFaces]⟩
    · exact ⟨(t.1, t.2.1, t.2.2), ⟨t, ht, by simp [rots]⟩, by simp [newFaces]⟩
    · exact ⟨(t.2.1, t.2.2, t.1), ⟨t, ht, by simp [rots]⟩, by simp [newFaces]⟩
    · exact ⟨(t.2.2, t.1, t.2.1), ⟨t, ht, by simp [rots]⟩, by simp [newFaces]⟩
  · rintro ⟨r, ⟨t, ht, hr⟩, hF⟩
    simp only [rots, List.mem_cons, List.mem_singleton, List.not_mem_nil, or_false] at hr
    rcases hr with rfl | rfl | rfl <;>
      simp only [newFaces, List.mem_cons, List.mem_singleton, List.not_mem_nil, or_false] at hF <;>
      rcases hF with rfl | rfl | rfl | rfl
    · exact ⟨_, ⟨t, ht, by simp only [subTris]; exact List.mem_cons_self _ _⟩, by simp [rots]⟩
    · exact ⟨_, ⟨t, ht, by simp only [subTris]; exact List.mem_cons_self _ _⟩, by simp [rots]⟩
    · exact ⟨_, ⟨t, ht, by simp only [subTris]; exact List.mem_cons_self _ _⟩, by simp [rots]⟩
    · exact ⟨(f t.1 t.2.1, f t.2.1 t.2.2, f t.2.2 t.1), ⟨t, ht, by simp [subTris]⟩,
        by simp [rots]⟩
    · exact ⟨(t.2.1, f t.2.1 t.2.2, f t.1 t.2.1), ⟨t, ht, by simp [subTris]⟩, by simp [rots]⟩
    · exact ⟨(t.2.1, f t.2.1 t.2.2, f t.1 t.2.1), ⟨t, ht, by simp [subTris]⟩, by simp [rots]⟩
    · exact ⟨(t.2.1, f t.2.1 t.2.2, f t.1 t.2.1), ⟨t, ht, by simp [subTris]⟩, by simp [rots]⟩
    · exact ⟨(f t.1 t.2.1, f t.2.1 t.2.2, f t.2.2 t.1), ⟨t, ht, by simp [subTris]⟩,
        by simp [rots]⟩
    · exact ⟨(t.2.2, f t.2.2 t.1, f t.2.1 t.2.2), ⟨t, ht, by simp [subTris]⟩, by simp [rots]⟩
    · exact ⟨(t.2.2, f t.2.2 t.1, f t.2.1 t.2.2), ⟨t, ht, by simp [subTris]⟩, by simp [rots]⟩
    · exact ⟨(t.2.2, f t.2.2 t.1, f t.2.1 t.2.2), ⟨t, ht, by simp [subTris]⟩, by simp [rots]⟩
    · exact ⟨(f t.1 t.2.1, f t.2.1 t.2.2, f t.2.2 t.1), ⟨t, ht, by simp [subTris]⟩,
        by simp [rots]⟩


/-- No pillow among the new faces. -/
theorem sub_noPillow (f : Nat → Nat → Nat) (T : List (Nat × Nat × Nat)) (n n' : Nat)
    (h : MeshInv T n) (hf : MidFn f T n n') (r r' : Nat × Nat × Nat)
    (hr : r ∈ allRots T) (hr' : r' ∈ allRots T) (F G : Nat × Nat × Nat)
    (hF : F ∈ newFaces f r) (hG : G ∈ newFaces f r')
    (h1 : G.1 = F.2.1) (h2 : G.2.1 = F.1) : G.2.2 ≠ F.2.2 := by
  rcases r with ⟨x, y, w⟩
  rcases r' with ⟨x2, y2, w2⟩
  have hr0 := hr
  have hr1 := rot_mem hr0
  have hr2 := rot_mem hr1
  have hq0 := hr'
  have hq1 := rot_mem hq0
  have hq2 := rot_mem hq1
  simp only at hr1 hr2 hq1 hq2
  have hb0 := h.1 _ hr0
  have hb1 := h.1 _ hr1
  have hb2 := h.1 _ hr2
  have hc0 := h.1 _ hq0
  have hc1 := h.1 _ hq1
  have hc2 := h.1 _ hq2
  have hf0 := hf.2.1 _ hr0
  have hf1 := hf.2.1 _ hr1
  have hf2 := hf.2.1 _ hr2
  have hg0 := hf.2.1 _ hq0
  have hg1 := hf.2.1 _ hq1
  have hg2 := hf.2.1 _ hq2
  simp only at hb0 hb1 hb2 hc0 hc1 hc2 hf0 hf1 hf2 hg0 hg1 hg2
  simp only [newFaces, List.mem_cons, List.mem_singleton, List.not_mem_nil, or_false] at hF hG
  rcases hF with rfl | rfl | rfl | rfl <;> rcases hG with rfl | rfl | rfl | rfl <;>
    simp only at h1 h2 ⊢ <;> first | omega | skip
  · have i1 := (hf.2.2 (x, y, w) hr0 (w2, x2, y2) hq2)
    have i2 := (hf.2.2 (w, x, y) hr2 (x2, y2, w2) hq0)
    have p1 := (h.2.2.2 (x, y, w) hr0 (w2, x2, y2) hq2)
    simp only at i1 i2 p1
    omega
  · have i1 := (hf.2.2 (x, y, w) hr0 (w2, x2, y2) hq2)
    have i2 := (hf.2.2 (w, x, y) hr2 (x2, y2, w2) hq0)
    have p1 := (h.2.2.2 (x, y, w) hr0 (w2, x2, y2) hq2)
    simp only at i1 i2 p1
    omega
  · have i1 := (hf.2.2 (x, y, w) hr0 (w2, x2, y2) hq2)
    have i2 := (hf.2.2 (w, x, y) hr2 (x2, y2, w2) hq0)
    have p1 := (h.2.2.2 (x, y, w) hr0 (w2, x2, y2) hq2)
    simp only at i1 i2 p1
    omega
  · have i1 := (hf.2.2 (y, w, x) hr1 (x2, y2, w2) hq0)
    have i2 := (hf.2.2 (x, y, w) hr0 (y2, w2, x2) hq1)
    have i3 := (hf.2.2 (w, x, y) hr2 (w2, x2, y2) hq2)
    have p1 := (h.2.2.2 (x, y, w) hr0 (y2, w2, x2) hq1)
    simp only at i1 i2 i3 p1
    omega

/-- Corners of the new faces are in range and differ along an edge. -/
theorem sub_bounds (f : Nat → Nat → Nat) (T : List (Nat × Nat × Nat)) (n n' : Nat)
    (h : MeshInv T n) (hf : MidFn f T n n') (r : Nat × Nat × Nat)
    (hr : r ∈ allRots T) (F : Nat × Nat × Nat) (hF : F ∈ newFaces f r) :
    F.1 < n' ∧ F.1 ≠ F.2.1 := by
  rcases r with ⟨x, y, w⟩
  have hr0 := hr
  have hr1 := rot_mem hr0
  have hr2 := rot_mem hr1
  simp only at hr1 hr2
  have hb0 := h.1 _ hr0
  have hb1 := h.1 _ hr1
  have hb2 := h.1 _ hr2
  have hf0 := hf.2.1 _ hr0
  have hf1 := hf.2.1 _ hr1
  have hf2 := hf.2.1 _ hr2
  have j01 := hf.2.2 (x, y, w) hr0 (y, w, x) hr1
  have j12 := hf.2.2 (y, w, x) hr1 (w, x, y) hr2
  have j20 := hf.2.2 (w, x, y) hr2 (x, y, w) hr0
  simp only at hb0 hb1 hb2 hf0 hf1 hf2 j01 j12 j20
  simp only [newFaces, List.mem_cons, List.mem_singleton, List.not_mem_nil, or_false] at hF
  rcases hF with rfl | rfl | rfl | rfl <;> simp only <;> omega

/-- The reverse of every directed edge of the new faces is an edge of a new face. -/
theorem sub_reverse (f : Nat → Nat → Nat) (T : List (Nat × Nat × Nat)) (n n' : Nat)
    (h : MeshInv T n) (hf : MidFn f T n n') (r : Nat × Nat × Nat)
    (hr : r ∈ allRots T) (F : Nat × Nat × Nat) (hF : F ∈ newFaces f r) :
    ∃ r' ∈ allRots T, ∃ G ∈ newFaces f r', G.1 = F.2.1 ∧ G.2.1 = F.1 := by
  rcases r with ⟨x, y, w⟩
  have hr1 := rot_mem hr
  have hr2 := rot_mem hr1
  simp only at hr1 hr2
  simp only [newFaces, List.mem_cons, List.mem_singleton, List.not_mem_nil, or_false] at hF
  rcases hF with rfl | rfl | rfl | rfl
  · obtain ⟨s, hs, hs1, hs2⟩ := h.2.2.1 _ hr
    simp only at hs1 hs2
    refine ⟨_, rot_mem hs, (f s.1 s.2.1, s.2.1, f s.2.1 s.2.2), by simp [newFaces], ?_, ?_⟩
    · simp only [hs1, hs2]; exact hf.1 _ _
    · simp only [hs2]
  · exact ⟨_, hr2, (f w x, f x y, f y w), by simp [newFaces], rfl, rfl⟩
  · obtain ⟨s, hs, hs1, hs2⟩ := h.2.2.1 _ hr2
    simp only at hs1 hs2
    refine ⟨_, hs, (s.1, f s.1 s.2.1, f s.2.2 s.1), by simp [newFaces], ?_, ?_⟩
    · simp only [hs1]
    · simp only [hs1, hs2]; exact hf.1 _ _
  · exact ⟨_, hr1, (f y w, f x y, y), by simp [newFaces], rfl, rfl⟩

/-- The directed edges of the four triangles written for `t` start at the directed
edges of `t`. -/
theorem edges_of_sub (f : Nat → Nat → Nat) (t : Nat × Nat × Nat) (e : Nat × Nat)
    (he : e ∈ ((subTris f t).flatMap rots).map edgeOf) : ∃ r ∈ rots t, e ∈ newEdges f r := by
  simp only [subTris, rots, edgeOf, List.flatMap_cons, List.flatMap_nil, List.append_nil,
    List.cons_append, List.nil_append, List.map_cons, List.map_nil, List.mem_cons,
    List.not_mem_nil, or_false] at he
  rcases he with rfl | rfl | rfl | rfl | rfl | rfl | rfl | rfl | rfl | rfl | rfl | rfl
  · exact ⟨(t.1, t.2.1, t.2.2), by simp [rots], by simp [newEdges]⟩
  · exact ⟨(t.1, t.2.1, t.2.2), by simp [rots], by simp [newEdges]⟩
  · exact ⟨(t.2.2, t.1, t.2.1), by simp [rots], by simp [newEdges]⟩
  · exact ⟨(t.2.1, t.2.2, t.1), by simp [rots], by simp [newEdges]⟩
  · exact ⟨(t.2.1, t.2.2, t.1), by simp [rots], by simp [newEdges]⟩
  · exact ⟨(t.1, t.2.1, t.2.2), by simp [rots], by simp [newEdges]⟩
  · exact ⟨(t.2.2, t.1, t.2.1), by simp [rots], by simp [newEdges]⟩
  · exact ⟨(t.2.2, t.1, t.2.1), by simp [rots], by simp [newEdges]⟩
  · exact ⟨(t.2.1, t.2.2, t.1), by simp [rots], by simp [newEdges]⟩
  · exact ⟨(t.1, t.2.1, t.2.2), by simp [rots], by simp [newEdges]⟩
  · exact ⟨(t.2.1, t.2.2, t.1), by simp [rots], by simp [newEdges]⟩
  · exact ⟨(t.2.2, t.1, t.2.1), by simp [rots], by simp [newEdges]⟩

/-- Two old directed edges whose new edges meet are the same directed edge. -/
theorem sub_edge_core (f : Nat → Nat → Nat) (T : List (Nat × Nat × Nat)) (n n' : Nat)
    (h : MeshInv T n) (hf : MidFn f T n n') (r r' : Nat × Nat × Nat)
    (hr : r ∈ allRots T) (hr' : r' ∈ allRots T) (e : Nat × Nat)
    (he : e ∈ newEdges f r) (he' : e ∈ newEdges f r') : edgeOf r = edgeOf r' := by
  rcases r with ⟨x, y, w⟩
  rcases r' with ⟨x2, y2, w2⟩
  have hr0 := hr
  have hr1 := rot_mem hr0
  have hr2 := rot_mem hr1
  have hq0 := hr'
  have hq1 := rot_mem hq0
  have hq2 := rot_mem hq1
  simp only at hr1 hr2 hq1 hq2
  have hb0 := h.1 _ hr0
  have hb1 := h.1 _ hr1
  have hb2 := h.1 _ hr2
  have hc0 := h.1 _ hq0
  have hc1 := h.1 _ hq1
  have hc2 := h.1 _ hq2
  have hf0 := hf.2.1 _ hr0
  have hf1 := hf.2.1 _ hr1
  have hf2 := hf.2.1 _ hr2
  have hg0 := hf.2.1 _ hq0
  have hg1 := hf.2.1 _ hq1
  have hg2 := hf.2.1 _ hq2
  simp only at hb0 hb1 hb2 hc0 hc1 hc2 hf0 hf1 hf2 hg0 hg1 hg2
  simp only [newEdges, List.mem_cons, List.mem_singleton, List.not_mem_nil, or_false] at he he'
  simp only [edgeOf, Prod.mk.injEq]
  rcases he with rfl | rfl | rfl | rfl <;> rcases he' with he' | he' | he' | he' <;>
    simp only [Prod.mk.injEq] at he' <;> first | omega | skip
  · have k0 := (hf.2.2 (x, y, w) hr0 (x2, y2, w2) hq0)
    simp only at k0
    omega
  · have k0 := (hf.2.2 (x, y, w) hr0 (x2, y2, w2) hq0)
    simp only at k0
    omega
  · have k0 := (hf.2.2 (x, y, w) hr0 (x2, y2, w2) hq0)
    have k1 := (hf.2.2 (w, x, y) hr2 (w2, x2, y2) hq2)
    simp only at k0 k1
    omega
  · have k0 := (hf.2.2 (x, y, w) hr0 (x2, y2, w2) hq0)
    have k1 := (hf.2.2 (w, x, y) hr2 (y2, w2, x2) hq1)
    have k2 := (h.2.2.2 (x, y, w) hr0 (x2, y2, w2) hq0)
    simp only at k0 k1 k2
    omega
  · have k0 := (hf.2.2 (x, y, w) hr0 (x2, y2, w2) hq0)
    have k1 := (hf.2.2 (y, w, x) hr1 (w2, x2, y2) hq2)
    have k2 := (h.2.2.2 (x, y, w) hr0 (x2, y2, w2) hq0)
    simp only at k0 k1 k2
    omega
  · have k0 := (hf.2.2 (x, y, w) hr0 (x2, y2, w2) hq0)
    have k1 := (hf.2.2 (y, w, x) hr1 (y2, w2, x2) hq1)
    simp only at k0 k1
    omega

/-- No directed edge occurs twice among the new faces. -/
theorem sub_nodup (f : Nat → Nat → Nat) (T : List (Nat × Nat × Nat)) (n n' : Nat)
    (h : MeshInv T n) (hf : MidFn f T n n') :
    ((allRots (T.flatMap (subTris f))).map edgeOf).Nodup := by
  have hN := h.2.1
  simp only [allRots, List.flatMap_assoc, List.map_flatMap] at hN ⊢
  rw [List.nodup_flatMap] at hN ⊢
  refine ⟨fun t ht => ?_, hN.2.imp_of_mem fun {t t'} ht ht' hd => ?_⟩
  · have hr : (t.1, t.2.1, t.2.2) ∈ allRots T := by
      simp only [allRots, List.mem_flatMap]
      exact ⟨t, ht, by simp [rots]⟩
    rcases t with ⟨x, y, w⟩
    have hr0 := hr
    have hr1 := rot_mem hr0
    have hr2 := rot_mem hr1
    simp only at hr0 hr1 hr2
    have hb0 := h.1 _ hr0
    have hb1 := h.1 _ hr1
    have hb2 := h.1 _ hr2
    have hf0 := hf.2.1 _ hr0
    have hf1 := hf.2.1 _ hr1
    have hf2 := hf.2.1 _ hr2
    have j01 := hf.2.2 (x, y, w) hr0 (y, w, x) hr1
    have j12 := hf.2.2 (y, w, x) hr1 (w, x, y) hr2
    have j20 := hf.2.2 (w, x, y) hr2 (x, y, w) hr0
    simp only at hb0 hb1 hb2 hf0 hf1 hf2 j01 j12 j20
    simp only [subTris, rots, edgeOf, List.flatMap_cons, List.flatMap_nil, List.append_nil,
      List.cons_append, List.nil_append, List.map_cons, List.map_nil, List.nodup_cons,
      List.mem_cons, List.not_mem_nil, or_false, not_false_eq_true, List.nodup_nil, and_true,
      Prod.mk.injEq, not_or, not_and]
    omega
  · intro e he he'
    obtain ⟨r, hr, her⟩ := edges_of_sub f t e he
    obtain ⟨r', hr', her'⟩ := edges_of_sub f t' e he'
    have hm : r ∈ allRots T := by
      simp only [allRots, List.mem_flatMap]; exact ⟨t, ht, hr⟩
    have hm' : r' ∈ allRots T := by
      simp only [allRots, List.mem_flatMap]; exact ⟨t', ht', hr'⟩
    have hc := sub_edge_core f T n n' h hf r r' hm hm' e her her'
    exact hd (List.mem_map_of_mem edgeOf hr) (hc ▸ List.mem_map_of_mem edgeOf hr')

/-- One pass of `Subdivide` keeps the mesh a closed oriented surface. -/
theorem meshInv_sub (f : Nat → Nat → Nat) (T : List (Nat × Nat × Nat)) (n n' : Nat)
    (h : MeshInv T n) (hf : MidFn f T n n') : MeshInv (T.flatMap (subTris f)) n' := by
  refine ⟨fun F hF => ?_, sub_nodup f T n n' h hf, fun F hF => ?_, fun F hF G hG => ?_⟩
  · obtain ⟨r, hr, hFr⟩ := (mem_allRots_sub f T F).1 hF
    exact sub_bounds f T n n' h hf r hr F hFr
  · obtain ⟨r, hr, hFr⟩ := (mem_allRots_sub f T F).1 hF
    obtain ⟨r', hr', G, hG, hG1, hG2⟩ := sub_reverse f T n n' h hf r hr F hFr
    exact ⟨G, (mem_allRots_sub f T G).2 ⟨r', hr', hG⟩, hG1, hG2⟩
  · obtain ⟨r, hr, hFr⟩ := (mem_allRots_sub f T F).1 hF
    obtain ⟨r', hr', hGr⟩ := (mem_allRots_sub f T G).1 hG
    exact sub_noPillow f T n n' h hf r r' hr hr' F G hFr hGr

theorem length_flatMap_subTris (f : Nat → Nat → Nat) (T : List (Nat × Nat × Nat)) :
    (T.flatMap (subTris f)).length = 4 * T.length := by
  induction T with
  | nil => rfl
  | cons t T ih =>
    simp only [List.flatMap_cons, List.length_append, ih, List.length_cons]
    simp only [subTris, List.length_cons, List.length_nil]
    omega

/-- The base icosahedron is a closed oriented surface on twelve vertices. -/
theorem meshInv_base : MeshInv baseTris 12 := by
  unfold MeshInv
  decide!

/-- The mesh after `k` subdivisions: a closed oriented surface of `20 * 4 ^ k`
triangles on `10 * 4 ^ k + 2` positions. -/
theorem subdivided_spec (k : Nat) :
    ∃ T p, subdivided k = some (p, flat T) ∧ MeshInv T p.length ∧
      T.length = 20 * 4 ^ k ∧ p.length = 10 * 4 ^ k + 2 := by
  induction k with
  | zero => exact ⟨baseTris, basePositions, rfl, meshInv_base, rfl, rfl⟩
  | succ k ih =>
    obtain ⟨T, p, hs, hT, hlen, hp⟩ := ih
    obtain ⟨M, p', hsub, hmid, hcount⟩ := subdivide_count T p hT
    refine ⟨T.flatMap (subTris (mu M)), p', ?_, meshInv_sub _ T _ _ hT hmid, ?_, ?_⟩
    · show (subdivided k).bind Subdivide = _
      rw [hs]
      exact hsub
    · rw [length_flatMap_subTris, hlen, pow_succ]; omega
    · rw [pow_succ]; omega

theorem mem_flat (T : List (Nat × Nat × Nat)) (i : Nat) :
    i ∈ flat T ↔ ∃ t ∈ T, i = t.1 ∨ i = t.2.1 ∨ i = t.2.2 := by
  induction T with
  | nil => simp [flat]
  | cons t T ih =>
    obtain ⟨a, b, c⟩ := t
    simp only [flat, List.mem_cons]
    constructor
    · rintro (h | h | h | h)
      · exact ⟨(a, b, c), Or.inl rfl, Or.inl h⟩
      · exact ⟨(a, b, c), Or.inl rfl, Or.inr (Or.inl h)⟩
      · exact ⟨(a, b, c), Or.inl rfl, Or.inr (Or.inr h)⟩
      · obtain ⟨t, ht, h⟩ := ih.1 h
        exact ⟨t, Or.inr ht, h⟩
    · rintro ⟨t, rfl | ht, h⟩
      · rcases h with h | h | h
        · exact Or.inl h
        · exact Or.inr (Or.inl h)
        · exact Or.inr (Or.inr (Or.inl h))
      · exact Or.inr (Or.inr (Or.inr (ih.2 ⟨t, ht, h⟩)))

theorem flat_lt_of_meshInv (T : List (Nat × Nat × Nat)) (n : Nat) (h : MeshInv T n)
    (i : Nat) (hi : i ∈ flat T) : i < n := by
  obtain ⟨t, ht, hit⟩ := (mem_flat T i).1 hi
  have hr0 : (t.1, t.2.1, t.2.2) ∈ allRots T := by
    simp only [allRots, List.mem_flatMap]
    exact ⟨t, ht, by simp [rots]⟩
  have hr1 := rot_mem hr0
  have hr2 := rot_mem hr1
  have h0 := (h.1 _ hr0).1
  have h1 := (h.1 _ hr1).1
  have h2 := (h.1 _ hr2).1
  simp only at h0 h1 h2
  rcases hit with rfl | rfl | rfl <;> assumption

/-- The swap loop exchanges the first two corners of every triangle. -/
theorem swapLoop_flat (T : List (Nat × Nat × Nat)) :
    swapLoop (flat T) = some (flat (T.map fun t => (t.2.1, t.1, t.2.2))) := by
  induction T with
  | nil => rfl
  | cons t T ih =>
    obtain ⟨a, b, c⟩ := t
    simp only [flat, swapLoop, ih, Option.map_some', List.map_cons]

/-- Everything the constructor guarantees, for both values of `invert`: the mesh
is a list `T` of `20 * 4 ^ m` triangles with corners below the number of positions
`10 * 4 ^ m + 2`, `m` being the clamped subdivision count; no size mismatch is
reported; the inverted mesh has the first two corners of each triangle swapped. -/
theorem SIcosphere.new_spec (subdivisions : Nat) :
    ∃ (T : List (Nat × Nat × Nat)) (p : List IcoVertex),
      SIcosphere.new subdivisions false = some
        { positions := p, normals := p.map fun v => (false, v), indices := flat T,
          vertsMismatch := false, indicesMismatch := false } ∧
      SIcosphere.new subdivisions true = some
        { positions := p, normals := p.map fun v => (true, v),
          indices := flat (T.map fun t => (t.2.1, t.1, t.2.2)),
          vertsMismatch := false, indicesMismatch := false } ∧
      T.length = 20 * 4 ^ (min subdivisions 5) ∧ p.length = 10 * 4 ^ (min subdivisions 5) + 2 ∧
      ∀ t ∈ T, t.1 < p.length ∧ t.2.1 < p.length ∧ t.2.2 < p.length := by
  obtain ⟨T, p, hs, hT, hlen, hp⟩ := subdivided_spec (min subdivisions 5)
  have hm : (if subdivisions > 5 then 5 else subdivisions) = min subdivisions 5 := by
    split_ifs <;> omega
  have hpos : 1 ≤ 4 ^ (min subdivisions 5) := Nat.one_le_two_pow.trans (by
    exact Nat.pow_le_pow_left (by norm_num) _)
  have hv : (12 + 10 * (4 ^ (min subdivisions 5) - 1) ≠ p.length) = False := by
    simp only [hp, ne_eq, eq_iff_iff, iff_false, not_not]; omega
  have hi : (60 * 4 ^ (min subdivisions 5) ≠ (flat T).length) = False := by
    simp only [length_flat, hlen, ne_eq, eq_iff_iff, iff_false, not_not]; omega
  refine ⟨T, p, ?_, ?_, hlen, hp, fun t ht => ?_⟩
  · simp only [SIcosphere.new, hm, hs, hv, hi, decide_False, Bool.false_eq_true, if_false]
  · simp only [SIcosphere.new, hm, hs, hv, hi, decide_False, if_true, swapLoop_flat,
      Option.map_some']
  · exact ⟨flat_lt_of_meshInv T _ hT _ ((mem_flat T _).2 ⟨t, ht, Or.inl rfl⟩),
      flat_lt_of_meshInv T _ hT _ ((mem_flat T _).2 ⟨t, ht, Or.inr (Or.inl rfl)⟩),
      flat_lt_of_meshInv T _ hT _ ((mem_flat T _).2 ⟨t, ht, Or.inr (Or.inr rfl)⟩)⟩

/-- C25: for every subdivision count and both values of `invert` the constructor
of `SIcosphere` completes, a count above 5 builds the mesh of count 5, and with
`m` the clamped count the result has `10 * 4 ^ m + 2 = 12 + 10 * (4 ^ m - 1)`
positions, as many normals, and `60 * 4 ^ m` indices; neither size-mismatch
branch is taken. -/
theorem C25_icosphere_size (subdivisions : Nat) (invert : Bool) :
    ∃ s, SIcosphere.new subdivisions invert = some s ∧
      SIcosphere.new subdivisions invert = SIcosphere.new (min subdivisions 5) invert ∧
      s.positions.length = 10 * 4 ^ (min subdivisions 5) + 2 ∧
      10 * 4 ^ (min subdivisions 5) + 2 = 12 + 10 * (4 ^ (min subdivisions 5) - 1) ∧
      s.normals.length = s.positions.length ∧
      s.indices.length = 60 * 4 ^ (min subdivisions 5) ∧
      s.vertsMismatch = false ∧ s.indicesMismatch = false := by
  obtain ⟨T, p, h0, h1, hlen, hp, -⟩ := SIcosphere.new_spec subdivisions
  have hpos : 1 ≤ 4 ^ (min subdivisions 5) :=
    Nat.one_le_two_pow.trans (Nat.pow_le_pow_left (by norm_num) _)
  have hclamp : SIcosphere.new subdivisions invert
      = SIcosphere.new (min subdivisions 5) invert := by
    have h5 : (if subdivisions > 5 then 5 else subdivisions) = min subdivisions 5 := by
      split_ifs <;> omega
    have h6 : (if min subdivisions 5 > 5 then 5 else min subdivisions 5)
        = min subdivisions 5 := by
      split_ifs <;> omega
    simp only [SIcosphere.new, h5, h6]
  cases invert with
  | false =>
    refine ⟨_, h0, hclamp, hp, by omega, ?_, ?_, rfl, rfl⟩
    · simp only [List.length_map]
    · simp only [length_flat, hlen]; omega
  | true =>
    refine ⟨_, h1, hclamp, hp, by omega, ?_, ?_, rfl, rfl⟩
    · simp only [List.length_map]
    · simp only [length_flat, List.length_map, hlen]; omega

/-- C26: for every subdivision count the constructor of `SIcosphere` completes for
both values of `invert` without reading `positions` or `indices` out of bounds;
the index list is the corners of a list of triangles, so its length is a multiple
of 3; every index is below the number of positions; and the inverted mesh has the
same positions and the same triangles with the first two corners swapped. -/
theorem C26_icosphere_indices_valid (subdivisions : Nat) :
    ∃ s s' T, SIcosphere.new subdivisions false = some s ∧
      SIcosphere.new subdivisions true = some s' ∧
      s.indices = flat T ∧ s'.indices = flat (T.map fun t => (t.2.1, t.1, t.2.2)) ∧
      s'.positions = s.positions ∧
      3 ∣ s.indices.length ∧ 3 ∣ s'.indices.length ∧
      s.indices.all (fun i => decide (i < s.positions.length)) = true ∧
      s'.indices.all (fun i => decide (i < s'.positions.length)) = true := by
  obtain ⟨T, p, h0, h1, -, -, hb⟩ := SIcosphere.new_spec subdivisions
  refine ⟨_, _, T, h0, h1, rfl, rfl, rfl, ?_, ?_, ?_, ?_⟩
  · exact ⟨T.length, length_flat T⟩
  · exact ⟨T.length, by simp only [length_flat, List.length_map]⟩
  · simp only [List.all_eq_true, decide_eq_true_eq]
    intro i hi
    obtain ⟨t, ht, h⟩ := (mem_flat T i).1 hi
    rcases h with rfl | rfl | rfl
    · exact (hb t ht).1
    · exact (hb t ht).2.1
    · exact (hb t ht).2.2
  · simp only [List.all_eq_true, decide_eq_true_eq]
    intro i hi
    obtain ⟨t, ht, h⟩ := (mem_flat _ i).1 hi
    obtain ⟨u, hu, rfl⟩ := List.mem_map.1 ht
    rcases h with rfl | rfl | rfl
    · exact (hb u hu).2.1
    · exact (hb u hu).1
    · exact (hb u hu).2.2

/-! ## Frame input after a cycle, key flags of the tick input -/

/-- C7, the code at the failing inputs. The worker's unit of work on the armed
sample engine, whose `tickInput` carries the flag of `W`, ends with
`tickInput.keyFlags = 2`, not 0: `Clear()` is called with `clearKeys = false`. The
flag then stays for good: after a later frame cycle that receives the key-up of
`W`, `frameInput` has the flag clear and `tickInput` still has it set when the
next tick is armed and after that tick's unit of work. And in the schedule
`lateMergeTrace` the main thread merges a sample after the worker's clear and
before its release of `mainTick`, so `tickInput` holds a mouse delta at that
point. -/
theorem C7_released_key_stays_set :
    (Engine.sampleArmed.m_tickInput.keyFlags = 2 ∧
      Engine.sampleArmed.TickThreadUnit.map (fun e => e.m_tickInput) =
        some { wantsQuit := false, wantsResize := false, keyFlags := 2,
               mouse := { x := 0, y := 0 }, scroll := { x := 0, y := 0 } }) ∧
    (Engine.sampleReleased.map (fun e =>
        (e.m_threadTickSemaphore, e.m_frameInput.HasKey .KEY_MOVE_FORWARD,
          e.m_tickInput.HasKey .KEY_MOVE_FORWARD)) = some (1, false, true) ∧
      (Engine.sampleReleased.bind Engine.TickThreadUnit).map
        (fun e => e.m_tickInput.HasKey .KEY_MOVE_FORWARD) = some true) ∧
    ((Sched.start (Engine.constructed 60 0 1 none)).run Sched.lateMergeTrace).map
      (fun s => (s.tick, s.eng.m_mainTickSemaphore, s.eng.m_tickInput.mouse,
        s.eng.m_tickInput.keyFlags)) = some (.cleared, 0, { x := 3, y := 0 }, 2) := by
  refine ⟨⟨by decide!, by decide!⟩, ⟨by decide!, by decide!⟩, by decide!⟩

end legs
